import Mathlib

/-!
factomd: commit codec and leader election.

A shallow embedding of

* `common/entryCreditBlock/commitchain.go` (the `CommitChain` record, its
  binary codec, `CommitMsg`, `GetMilliTime`, `IsValid`),
* `common/factoid/rcd1.go` (the codec of `RCD_1`),
* `testHelper/simWallet.go` (the composition of commit messages),
* `common/primitives/merkle.go` (the Merkle tree store and root),
* the content-entry codec, which is not among the sources and follows the
  wire format of the specification, and
* `election/election.go` (the per-participant election driver),

followed by theorems about them.

Conventions of the embedding.

* A Go byte is a `Fin 256`; a `[]byte` is a `List Byte` (a nil slice and an
  empty slice are both `[]`); a fixed array `[n]byte` is a list of length `n`.
* A pointer or interface value that may be nil is an `Option`.
* A Go function that may panic returns `Except String _`, the string being the
  panic value.  A Go `error` result is an `Option GoError`, `none` being `nil`.
* A method with a pointer receiver returns the updated receiver.
-/

namespace Factomd

/-! ## Bytes, slices and errors -/

abbrev Byte := Fin 256

/-- Go fixed-size array `[n]byte`. -/
abbrev ByteArr (n : Nat) := { l : List Byte // l.length = n }

/-- Go `error` values produced by the codec. -/
inductive GoError where
  | eof
  | errorf (text : String)
  | recovered (panicValue : String)
  deriving DecidableEq, Repr

/-- Panic value of a nil pointer dereference. -/
def nilDeref : String := "runtime error: invalid memory address or nil pointer dereference"

/-- Dereference of a pointer (or method call on an interface) that may be nil. -/
def deref {α : Type} : Option α → Except String α
  | some a => .ok a
  | none => .error nilDeref

/-- Go builtin `copy(dst, src)`: the first `min (len dst) (len src)` elements of
`dst` are overwritten, the result has the length of `dst`. -/
def goCopy (dst src : List Byte) : List Byte :=
  src.take dst.length ++ dst.drop src.length

/-- The statement `copy(a[:], src)` on an array `a`. -/
def ByteArr.copyFrom {n : Nat} (a : ByteArr n) (src : List Byte) : ByteArr n :=
  ⟨goCopy a.val src, by
    have h := a.property
    simp only [goCopy, List.length_append, List.length_take, List.length_drop]
    omega⟩

/-- A zeroed array, as `new([n]byte)` gives. -/
def ByteArr.zero (n : Nat) : ByteArr n :=
  ⟨List.replicate n 0, List.length_replicate n 0⟩

/-! ## `bytes.Buffer` (the part the decoder uses) -/

/-- A `bytes.Buffer` being read: the unread bytes, and whether the underlying
slice is nil.  The buffer of an empty input is taken as nil, which is the only
case in which `Next` can return a nil slice. -/
structure Buffer where
  unread : List Byte
  isNil : Bool
  deriving DecidableEq, Repr

/-- The call `bytes.NewBuffer(data)`. -/
def Buffer.new (data : List Byte) : Buffer := ⟨data, data.isEmpty⟩

/-- The method `Len`: the number of unread bytes. -/
def Buffer.Len (b : Buffer) : Nat := b.unread.length

/-- The method `ReadByte`: `io.EOF` on an empty buffer. -/
def Buffer.ReadByte (b : Buffer) : Buffer × Except GoError Byte :=
  match b.unread with
  | [] => (b, .error .eof)
  | x :: rest => ({ b with unread := rest }, .ok x)

/-- The method `Next n`: the next `n` unread bytes (fewer when fewer are left),
`none` standing for a nil slice. -/
def Buffer.Next (b : Buffer) (n : Nat) : Buffer × Option (List Byte) :=
  ({ b with unread := b.unread.drop n }, if b.isNil then none else some (b.unread.take n))

/-- The method `Read p`: copies up to `len p` unread bytes into `p`; `io.EOF` when
nothing is unread and `p` is not empty.  Returns the buffer, the updated `p`,
the count and the error. -/
def Buffer.Read (b : Buffer) (p : List Byte) : Buffer × List Byte × Nat × Option GoError :=
  if b.unread.isEmpty then
    if p.length = 0 then (b, p, 0, none) else (b, p, 0, some .eof)
  else
    let n := min p.length b.unread.length
    ({ b with unread := b.unread.drop n }, goCopy p b.unread, n, none)

/-- The call `binary.Write(buf, binary.BigEndian, v)` for a `uint8` on a
`bytes.Buffer`: one byte is appended, and the write cannot fail. -/
def binaryWriteUint8 (buf : List Byte) (v : Byte) : List Byte × Option GoError :=
  (buf ++ [v], none)

/-- The call `binary.BigEndian.Uint64(a)`: panics (bounds check on `a[7]`) when
`a` has fewer than eight bytes. -/
def bigEndianUint64 (a : List Byte) : Except String Nat :=
  if a.length < 8 then .error "runtime error: index out of range"
  else .ok ((a.take 8).foldl (fun acc x => acc * 256 + x.val) 0)

/-- The conversion `int64(u)` of a `uint64`. -/
def toInt64 (u : Nat) : Int :=
  if u % 2 ^ 64 < 2 ^ 63 then (u % 2 ^ 64 : Nat) else ((u % 2 ^ 64 : Nat) : Int) - 2 ^ 64

/-! ## Hashes -/

/-- An `interfaces.IHash` value, seen through its `Bytes()` method. -/
structure IHash where
  bytes : List Byte
  deriving DecidableEq, Repr

/-- The method `Bytes`. -/
def IHash.Bytes (h : IHash) : List Byte := h.bytes

/-- Modelled from the spec: `primitives.Hash.SetBytes` is not among the sources;
a hash is 32 bytes ("32 bytes chain id", "32B entry hash"), so the method
rejects any other length and otherwise stores a copy of the bytes. -/
def IHash.SetBytes (_h : IHash) (newHash : List Byte) : IHash × Option GoError :=
  if newHash.length ≠ 32 then (_h, some (.errorf "invalid sha length"))
  else (⟨newHash⟩, none)

/-- The call `primitives.NewZeroHash()`. -/
def NewZeroHash : IHash := ⟨List.replicate 32 0⟩

/-! ## `CommitChain` -/

/-- The constant `CommitChainSize = 1+6+32+32+32+1+32+64`. -/
def CommitChainSize : Nat := 200

structure CommitChain where
  Version : Byte
  MilliTime : Option (ByteArr 6)
  ChainIDHash : Option IHash
  Weld : Option IHash
  EntryHash : Option IHash
  Credits : Byte
  ECPubKey : Option (ByteArr 32)
  Sig : Option (ByteArr 64)
  deriving DecidableEq

/-- The method `MarshalledSize`. -/
def CommitChain.MarshalledSize (_c : CommitChain) : Nat := CommitChainSize % 2 ^ 64

def NewCommitChain : CommitChain where
  Version := 0
  MilliTime := some (ByteArr.zero 6)
  ChainIDHash := some NewZeroHash
  Weld := some NewZeroHash
  EntryHash := some NewZeroHash
  Credits := 0
  ECPubKey := some (ByteArr.zero 32)
  Sig := some (ByteArr.zero 64)

/-- The method `MarshalBinarySig`: version, milli-timestamp, the three hashes
and the credits. -/
def CommitChain.MarshalBinarySig (c : CommitChain) : Except String (List Byte × Option GoError) :=
  -- 1 byte Version
  match binaryWriteUint8 [] c.Version with
  | (buf, some err) => .ok (buf, some err)
  | (buf, none) =>
    -- 6 byte MilliTime
    match deref c.MilliTime with
    | .error p => .error p
    | .ok mt =>
      let buf := buf ++ mt.val
      -- 32 byte double sha256 hash of the ChainID
      match deref c.ChainIDHash with
      | .error p => .error p
      | .ok h1 =>
        let buf := buf ++ h1.Bytes
        -- 32 byte Commit Weld
        match deref c.Weld with
        | .error p => .error p
        | .ok h2 =>
          let buf := buf ++ h2.Bytes
          -- 32 byte Entry Hash
          match deref c.EntryHash with
          | .error p => .error p
          | .ok h3 =>
            let buf := buf ++ h3.Bytes
            -- 1 byte number of Entry Credits
            match binaryWriteUint8 buf c.Credits with
            | (buf, some err) => .ok (buf, some err)
            | (buf, none) => .ok (buf, none)

/-- The method `MarshalBinary`: the signed part, then public key and signature. -/
def CommitChain.MarshalBinary (c : CommitChain) : Except String (List Byte × Option GoError) :=
  match c.MarshalBinarySig with
  | .error p => .error p
  | .ok (_, some err) => .ok ([], some err)
  | .ok (b, none) =>
    -- 32 byte Public Key
    match deref c.ECPubKey with
    | .error p => .error p
    | .ok pk =>
      -- 64 byte Signature
      match deref c.Sig with
      | .error p => .error p
      | .ok sg => .ok (b ++ pk.val ++ sg.val, none)

/-- The method `CommitMsg`: the marshalled commit without its last `64+32`
bytes; the slice expression panics when fewer than 96 bytes were marshalled. -/
def CommitChain.CommitMsg (c : CommitChain) : Except String (List Byte) :=
  match c.MarshalBinary with
  | .error p => .error p
  | .ok (_, some _) => .ok [0]
  | .ok (p, none) =>
    if p.length < 64 + 32 then .error "runtime error: slice bounds out of range"
    else .ok (p.take (p.length - 64 - 32))

/-- The method `GetMilliTime`. -/
def CommitChain.GetMilliTime (c : CommitChain) : Except String Int :=
  match deref c.MilliTime with
  | .error p => .error p
  | .ok mt =>
    let a : List Byte := List.replicate 2 0
    let a := a ++ mt.val
    match bigEndianUint64 a with
    | .error p => .error p
    | .ok u => .ok (toInt64 u)

/-- The method `IsValid`, over an abstract `ed.VerifyCanonical`. -/
def CommitChain.IsValid (verifyCanonical : ByteArr 32 → List Byte → ByteArr 64 → Bool)
    (c : CommitChain) : Except String Bool :=
  -- double check the credits in the commit
  if c.Credits < 10 ∨ c.Version ≠ 0 then .ok false
  else
    match c.CommitMsg with
    | .error p => .error p
    | .ok msg =>
      match deref c.ECPubKey with
      | .error p => .error p
      | .ok pk =>
        match deref c.Sig with
        | .error p => .error p
        | .ok sg => .ok (verifyCanonical pk msg sg)

/-- The method `GetSigHash`, over an abstract `primitives.Sha`. -/
def CommitChain.GetSigHash (Sha : List Byte → IHash) (c : CommitChain) : Except String IHash :=
  match c.CommitMsg with
  | .error p => .error p
  | .ok data => .ok (Sha data)

/-- What a call of `UnmarshalBinaryData` leaves behind: the receiver as
updated, and the two results. -/
structure UnmarshalResult where
  c : CommitChain
  newData : List Byte
  err : Option GoError
  deriving DecidableEq

/-- The method `UnmarshalBinaryData`.  The deferred `recover` turns a panic
into the error result, so a nil field of the receiver gives
`GoError.recovered`; on every error path `newData` is still nil. -/
def CommitChain.UnmarshalBinaryData (c : CommitChain) (data : List Byte) : UnmarshalResult :=
  let buf := Buffer.new data
  let hash : List Byte := List.replicate 32 0
  -- 1 byte Version
  match buf.ReadByte with
  | (_, .error e) => ⟨c, [], some e⟩
  | (buf, .ok b) =>
  let c := { c with Version := b }
  if buf.Len < 6 then ⟨c, [], some .eof⟩ else
  -- 6 byte MilliTime
  match buf.Next 6 with
  | (_, none) => ⟨c, [], some (.errorf "Could not read MilliTime")⟩
  | (buf, some p) =>
  match c.MilliTime with
  | none => ⟨c, [], some (.recovered nilDeref)⟩
  | some mt =>
  let c := { c with MilliTime := some (mt.copyFrom p) }
  -- 32 byte ChainIDHash
  match buf.Read hash with
  | (_, _, _, some e) => ⟨c, [], some e⟩
  | (buf, hash, _, none) =>
  match c.ChainIDHash with
  | none => ⟨c, [], some (.recovered nilDeref)⟩
  | some h =>
  match h.SetBytes hash with
  | (h, some e) => ⟨{ c with ChainIDHash := some h }, [], some e⟩
  | (h, none) =>
  let c := { c with ChainIDHash := some h }
  -- 32 byte Weld
  match buf.Read hash with
  | (_, _, _, some e) => ⟨c, [], some e⟩
  | (buf, hash, _, none) =>
  match c.Weld with
  | none => ⟨c, [], some (.recovered nilDeref)⟩
  | some h =>
  match h.SetBytes hash with
  | (h, some e) => ⟨{ c with Weld := some h }, [], some e⟩
  | (h, none) =>
  let c := { c with Weld := some h }
  -- 32 byte Entry Hash
  match buf.Read hash with
  | (_, _, _, some e) => ⟨c, [], some e⟩
  | (buf, hash, _, none) =>
  match c.EntryHash with
  | none => ⟨c, [], some (.recovered nilDeref)⟩
  | some h =>
  match h.SetBytes hash with
  | (h, some e) => ⟨{ c with EntryHash := some h }, [], some e⟩
  | (h, none) =>
  let c := { c with EntryHash := some h }
  -- 1 byte number of Entry Credits
  match buf.ReadByte with
  | (_, .error e) => ⟨c, [], some e⟩
  | (buf, .ok b) =>
  let c := { c with Credits := b }
  if buf.Len < 32 then ⟨c, [], some .eof⟩ else
  -- 32 byte Public Key
  match buf.Next 32 with
  | (_, none) => ⟨c, [], some (.errorf "Could not read ECPubKey")⟩
  | (buf, some p) =>
  match c.ECPubKey with
  | none => ⟨c, [], some (.recovered nilDeref)⟩
  | some pk =>
  let c := { c with ECPubKey := some (pk.copyFrom p) }
  if buf.Len < 64 then ⟨c, [], some .eof⟩ else
  -- 64 byte Signature
  match buf.Next 64 with
  | (_, none) => ⟨c, [], some (.errorf "Could not read Sig")⟩
  | (buf, some p) =>
  match c.Sig with
  | none => ⟨c, [], some (.recovered nilDeref)⟩
  | some sg =>
  let c := { c with Sig := some (sg.copyFrom p) }
  ⟨c, buf.unread, none⟩

/-- The method `UnmarshalBinary`. -/
def CommitChain.UnmarshalBinary (c : CommitChain) (data : List Byte) : CommitChain × Option GoError :=
  let r := c.UnmarshalBinaryData data
  (r.c, r.err)

/-! ## `RCD_1` (`common/factoid/rcd1.go`) -/

/-- Modelled from the spec: the constant `constants.ADDRESS_LENGTH` is not
among the sources; an address is a public key of 32 bytes ("32B pubkey"). -/
def ADDRESS_LENGTH : Nat := 32

/-- The conversion `int8(b)` of a byte. -/
def toInt8 (b : Byte) : Int :=
  if b.val < 128 then (b.val : Int) else (b.val : Int) - 256

/-- The conversion `byte(x)` of an integer. -/
def toByte (x : Int) : Byte := Fin.ofNat (x % 256).toNat

structure RCD_1 where
  publicKey : ByteArr ADDRESS_LENGTH
  deriving DecidableEq

/-- The method `UnmarshalBinaryData` (pointer receiver): the receiver as
updated and the two results, or the panic of the index expression `data[0]`. -/
def RCD_1.UnmarshalBinaryData (t : RCD_1) (data : List Byte) :
    Except String (RCD_1 × List Byte × Option GoError) :=
  match data[0]? with
  | none => .error "runtime error: index out of range"
  | some b =>
    let typ := toInt8 b
    let data := data.drop 1
    if typ ≠ 1 then
      .ok (t, [], some (.errorf ("Bad type byte: " ++ toString typ)))
    else if data.length < ADDRESS_LENGTH then
      .ok (t, [], some (.errorf
        ("Data source too short to unmarshal an address: " ++ toString data.length)))
    else
      let t := { t with publicKey := t.publicKey.copyFrom (data.take ADDRESS_LENGTH) }
      let data := data.drop ADDRESS_LENGTH
      .ok (t, data, none)

/-- The method `MarshalBinary` (value receiver). -/
def RCD_1.MarshalBinary (a : RCD_1) : List Byte × Option GoError :=
  let out : List Byte := []
  -- The First Authorization method
  let out := out ++ [1]
  let out := out ++ a.publicKey.val
  (out, none)

/-- The method `UnmarshalBinary`, declared on a value receiver: `b` is a copy
of the value of the caller, `UnmarshalBinaryData` works on that copy, and the
value of the caller after the call (the first component) is the one before. -/
def RCD_1.UnmarshalBinary (b : RCD_1) (data : List Byte) : Except String (RCD_1 × Option GoError) :=
  match b.UnmarshalBinaryData data with
  | .error p => .error p
  | .ok (_, _, err) => .ok (b, err)

/-! ## The test wallet (`testHelper/simWallet.go`) -/

/-- The call `binary.Write(buf, binary.BigEndian, m)` for an `int64`: the eight
bytes of the two's complement of `m`, most significant first. -/
def binaryWriteInt64 (m : Int) : List Byte :=
  (List.range 8).map (fun i => Fin.ofNat ((m % 2 ^ 64).toNat / 256 ^ (7 - i)))

/-- The function `milliTime`, `now` being the value of `time.Now().UnixNano()`. -/
def milliTime (now : Int) : List Byte :=
  let t := now
  let m := Int.tdiv t 1000000
  (binaryWriteInt64 m).drop 2

/-- What the wallet uses from packages that are not among the sources:
`sha256.Sum256`, `hex.DecodeString`, and from the package `factom` the entry
type `E` with `Hash` and `EntryCost` and the address type `K` with `Sign` and
`PubBytes` (the public key of an `ECAddress` is a `*[32]byte`, its signatures
are `*[64]byte`). -/
structure WalletEnv (E K : Type) where
  Sum256 : List Byte → ByteArr 32
  DecodeString : String → List Byte × Option GoError
  Hash : E → List Byte
  EntryCost : E → Int × Option GoError
  Sign : K → List Byte → ByteArr 64
  PubBytes : K → ByteArr 32

/-- The type `factom.Chain`, as far as the wallet reads it. -/
structure Chain (E : Type) where
  ChainID : String
  FirstEntry : E

/-- The function `shad`: `sha256(sha256(data))`. -/
def shad {E K : Type} (env : WalletEnv E K) (data : List Byte) : List Byte :=
  let h1 := env.Sum256 data
  let h2 := env.Sum256 h1.val
  h2.val

/-- The function `commitEntryMsg`: the buffer (nil on an error) and the error. -/
def commitEntryMsg {E K : Type} (env : WalletEnv E K) (now : Int) (addr : K) (e : E) :
    Option (List Byte) × Option GoError :=
  let buf : List Byte := []
  -- 1 byte version
  let buf := buf ++ [0]
  -- 6 byte milliTimestamp (truncated unix time)
  let buf := buf ++ milliTime now
  -- 32 byte Entry Hash
  let buf := buf ++ env.Hash e
  -- 1 byte number of entry credits to pay
  match env.EntryCost e with
  | (_, some err) => (none, some err)
  | (c, none) =>
    let buf := buf ++ [toByte c]
    -- 32 byte Entry Credit Address Public Key + 64 byte Signature
    let sig := env.Sign addr buf
    let buf := buf ++ (env.PubBytes addr).val
    let buf := buf ++ sig.val
    (some buf, none)

/-- The function `composeChainCommitMsg`: the buffer (nil on an error) and the
error. -/
def composeChainCommitMsg {E K : Type} (env : WalletEnv E K) (now : Int) (c : Chain E) (ec : K) :
    Option (List Byte) × Option GoError :=
  let buf : List Byte := []
  -- 1 byte version
  let buf := buf ++ [0]
  -- 6 byte milliTimestamp
  let buf := buf ++ milliTime now
  let e := c.FirstEntry
  -- 32 byte ChainID Hash
  match env.DecodeString c.ChainID with
  | (_, some err) => (none, some err)
  | (p, none) =>
    -- double sha256 hash of ChainID
    let buf := buf ++ shad env p
    -- 32 byte Weld; sha256(sha256(EntryHash + ChainID))
    match env.DecodeString c.ChainID with
    | (_, some err) => (none, some err)
    | (cid, none) =>
      let s := env.Hash e ++ cid
      let buf := buf ++ shad env s
      -- 32 byte Entry Hash of the First Entry
      let buf := buf ++ env.Hash e
      -- 1 byte number of Entry Credits to pay
      match env.EntryCost e with
      | (_, some err) => (none, some err)
      | (d, none) =>
        let buf := buf ++ [toByte (d + 10)]
        -- 32 byte Entry Credit Address Public Key + 64 byte Signature
        let sig := env.Sign ec buf
        let buf := buf ++ (env.PubBytes ec).val
        let buf := buf ++ sig.val
        (some buf, none)

/-- A wallet environment for examples: all hashes, keys and signatures are
zero bytes, every chain id decodes to the empty slice, every entry costs 1. -/
def exampleWallet : WalletEnv Unit Unit where
  Sum256 := fun _ => ByteArr.zero 32
  DecodeString := fun _ => ([], none)
  Hash := fun _ => List.replicate 32 0
  EntryCost := fun _ => (1, none)
  Sign := fun _ _ => ByteArr.zero 64
  PubBytes := fun _ => ByteArr.zero 32

/-! ## Merkle trees (`common/primitives/merkle.go`)

A `[]interfaces.IHash` is a list of `Option IHash`, `none` being a nil
interface value.  Go `int` is `Nat` here: the numbers are lengths and
indices, and shifts are not reduced modulo `2^64`. -/

/-- The function `nextPowerOfTwo`.  The argument `log2` stands for the
floating-point expression `uint(math.Log2(float64(n)))`. -/
def nextPowerOfTwo (log2 : Nat → Nat) (n : Nat) : Nat :=
  -- Return the number if it's already a power of 2.
  if n &&& (n - 1) = 0 then n
  else
    -- Figure out and return the next power of two.
    let exponent := log2 n + 1
    1 <<< exponent

/-- The function `hashMerkleBranches`, over an abstract `primitives.Sha`. -/
def hashMerkleBranches (Sha : List Byte → IHash) (left right : IHash) : IHash :=
  -- Concatenate the left and right nodes.
  let barray : List Byte := List.replicate (ADDRESS_LENGTH * 2) 0
  let barray := goCopy (barray.take ADDRESS_LENGTH) left.Bytes ++ barray.drop ADDRESS_LENGTH
  let barray := barray.take ADDRESS_LENGTH ++ goCopy (barray.drop ADDRESS_LENGTH) right.Bytes
  let newSha := Sha barray
  newSha

/-- The values `i` takes in `for i := 0; i < arraySize-1; i += 2`. -/
def loopIndices (arraySize : Nat) : List Nat :=
  (List.range (arraySize / 2)).map (fun k => 2 * k)

/-- The `switch` in the loop of `BuildMerkleTreeStore`, for one `i`: the array
after the assignment to `merkles[offset]`, or the panic of an index out of
range. -/
def merkleStep (Sha : List Byte → IHash) (merkles : List (Option IHash)) (offset i : Nat) :
    Except String (List (Option IHash)) :=
  match merkles[i]? with
  | none => .error "runtime error: index out of range"
  | some none =>
    -- When there is no left child node, the parent is nil too.
    if offset < merkles.length then .ok (merkles.set offset none)
    else .error "runtime error: index out of range"
  | some (some left) =>
    match merkles[i + 1]? with
    | none => .error "runtime error: index out of range"
    | some none =>
      -- When there is no right child, the parent is generated by
      -- hashing the concatenation of the left child with itself.
      let newSha := hashMerkleBranches Sha left left
      if offset < merkles.length then .ok (merkles.set offset (some newSha))
      else .error "runtime error: index out of range"
    | some (some right) =>
      -- The normal case sets the parent node to the double sha256
      -- of the concatentation of the left and right children.
      let newSha := hashMerkleBranches Sha left right
      if offset < merkles.length then .ok (merkles.set offset (some newSha))
      else .error "runtime error: index out of range"

/-- The loop of `BuildMerkleTreeStore` over the remaining values of `i`. -/
def merkleLoop (Sha : List Byte → IHash) :
    List Nat → List (Option IHash) → Nat → Except String (List (Option IHash))
  | [], merkles, _ => .ok merkles
  | i :: rest, merkles, offset =>
    match merkleStep Sha merkles offset i with
    | .error p => .error p
    | .ok merkles => merkleLoop Sha rest merkles (offset + 1)

/-- The function `BuildMerkleTreeStore`; `new(Hash)` is the zero hash. -/
def BuildMerkleTreeStore (log2 : Nat → Nat) (Sha : List Byte → IHash)
    (hashes : List (Option IHash)) : Except String (List (Option IHash)) :=
  if hashes.length = 0 then .ok ([] ++ [some NewZeroHash])
  else
    -- Calculate how many entries are required to hold the binary merkle
    -- tree as a linear array and create an array of that size.
    let nextPoT := nextPowerOfTwo log2 hashes.length
    let arraySize := nextPoT * 2 - 1
    let merkles : List (Option IHash) := List.replicate arraySize none
    -- Create the base transaction shas and populate the array with them.
    if hashes.length > arraySize then .error "runtime error: slice bounds out of range"
    else
      let merkles := hashes ++ merkles.drop hashes.length
      -- Start the array offset after the last transaction and adjusted to the
      -- next power of two.
      let offset := nextPoT
      merkleLoop Sha (loopIndices arraySize) merkles offset

/-- The function `ComputeMerkleRoot`. -/
def ComputeMerkleRoot (log2 : Nat → Nat) (Sha : List Byte → IHash)
    (hashes : List (Option IHash)) : Except String (Option IHash) :=
  match BuildMerkleTreeStore log2 Sha hashes with
  | .error p => .error p
  | .ok merkles =>
    match merkles[merkles.length - 1]? with
    | none => .error "runtime error: index out of range"
    | some root => .ok root

/-- The parent the loop of `BuildMerkleTreeStore` stores for a left and a right
child. -/
def merkleParent (Sha : List Byte → IHash) : Option IHash → Option IHash → Option IHash
  | none, _ => none
  | some left, none => some (hashMerkleBranches Sha left left)
  | some left, some right => some (hashMerkleBranches Sha left right)

/-- One round of the reference Merkle root: the list of the hashes
`Sha(left ++ right)` of the adjacent pairs, a final unpaired element being
paired with itself. -/
def referencePairs (Sha : List Byte → IHash) : List IHash → List IHash
  | [] => []
  | [a] => [Sha (a.Bytes ++ a.Bytes)]
  | a :: b :: rest => Sha (a.Bytes ++ b.Bytes) :: referencePairs Sha rest

/-- The rounds of the reference Merkle root, at most `fuel` of them: the list
is replaced by its pairs until one element remains. -/
def referenceRounds (Sha : List Byte → IHash) : Nat → List IHash → Option IHash
  | _, [] => none
  | _, [h] => some h
  | 0, _ :: _ :: _ => none
  | fuel + 1, a :: b :: rest => referenceRounds Sha fuel (referencePairs Sha (a :: b :: rest))

/-- The reference Merkle root of a list of hashes; a list of `n` hashes needs
fewer than `n` rounds. -/
def referenceMerkleRoot (Sha : List Byte → IHash) (hashes : List IHash) : Option IHash :=
  referenceRounds Sha hashes.length hashes

/-- A hash function for examples: the first 32 bytes of the input, padded with
zero bytes to 32. -/
def exampleSha (x : List Byte) : IHash := ⟨x.take 32 ++ List.replicate (32 - x.length) 0⟩

/-! ## Content entries (spec §4.2, `common/entryBlock/entry_test.go`)

The type `entryBlock.Entry` and its codec are not among the sources, only
their tests are.  The definitions of this section follow the wire format of
the specification: 1 byte version, 32 bytes chain id, 2 bytes big-endian
length of the external-id section, the external ids (each a 2-byte length and
a body), then the content. -/

/-- Modelled from the spec: a content entry with the fields the tests set
(`ChainID`, `ExtIDs`, `Content`) and the version byte of the wire format. -/
structure Entry where
  Version : Byte
  ChainID : IHash
  ExtIDs : List (List Byte)
  Content : List Byte
  deriving DecidableEq, Repr

/-- Modelled from the spec: a 2-byte big-endian integer ("all multi-byte
integers are big-endian"); a number that does not fit loses its high bits. -/
def bigEndianPutUint16 (n : Nat) : List Byte :=
  [⟨n / 256 % 256, Nat.mod_lt _ (by decide)⟩, ⟨n % 256, Nat.mod_lt _ (by decide)⟩]

/-- Modelled from the spec: the value of a 2-byte big-endian integer. -/
def bigEndianUint16 (hi lo : Byte) : Nat := hi.val * 256 + lo.val

/-- Modelled from the spec: the external-id section, "2 bytes body length,
then body" for each id in order. -/
def marshalExtIDs : List (List Byte) → List Byte
  | [] => []
  | x :: rest => bigEndianPutUint16 x.length ++ x ++ marshalExtIDs rest

/-- Modelled from the spec: `Entry.MarshalBinary`, the fields in wire order. -/
def Entry.MarshalBinary (e : Entry) : List Byte :=
  [e.Version] ++ e.ChainID.Bytes ++ bigEndianPutUint16 (marshalExtIDs e.ExtIDs).length ++
    marshalExtIDs e.ExtIDs ++ e.Content

/-- Modelled from the spec: "repeated external ids until section length
consumed".  `none` when the section ends inside a length field or inside a
body.  Every id takes at least two bytes, so `fuel` equal to the length of
the section is enough. -/
def unmarshalExtIDs : Nat → List Byte → Option (List (List Byte))
  | _, [] => some []
  | 0, _ :: _ => none
  | _ + 1, [_] => none
  | fuel + 1, hi :: lo :: rest =>
    let size := bigEndianUint16 hi lo
    if rest.length < size then none
    else
      match unmarshalExtIDs fuel (rest.drop size) with
      | none => none
      | some ids => some (rest.take size :: ids)

/-- Modelled from the spec: `Entry.UnmarshalBinary` on the receiver `e`.  A
truncated input (the nil and the empty slice of `TestUnmarshalNilEntry`
included) and a version other than 0 return an error and leave `e` as it
was; nothing panics. -/
def Entry.UnmarshalBinary (e : Entry) (data : List Byte) : Entry × Option GoError :=
  match data with
  | [] => (e, some .eof)
  | version :: data =>
    if version ≠ 0 then (e, some (.errorf "invalid version"))
    else if data.length < 32 then (e, some .eof)
    else
      let chainID := data.take 32
      match data.drop 32 with
      | hi :: lo :: data =>
        let size := bigEndianUint16 hi lo
        if data.length < size then (e, some .eof)
        else
          match unmarshalExtIDs size (data.take size) with
          | none => (e, some (.errorf "Error parsing external IDs"))
          | some ids =>
            ({ Version := version, ChainID := ⟨chainID⟩, ExtIDs := ids, Content := data.drop size },
              none)
      | _ => (e, some .eof)

/-- Modelled from the spec: `Entry.KSize`, "ceil(payload bytes excluding fixed
header and chain id / 1024) clamped to a minimum of 1".  The fixed header is
the version byte and the 2-byte length field, which is the reading under
which 1024 bytes of content without external ids cost 1, as `TestKSize`
requires and as the property "`KSize` for content padded to 1024·k bytes
equals `max(1, k)`" says. -/
def Entry.KSize (e : Entry) : Nat :=
  max 1 ((e.MarshalBinary.length - 35 + 1023) / 1024)

/-- The call `NewEntry()` as the test uses it: version 0, zero chain id, no
external ids, no content. -/
def NewEntry : Entry := { Version := 0, ChainID := NewZeroHash, ExtIDs := [], Content := [] }

/-- The content `TestKSize` builds: 256 times the bytes `11 22 33 44`. -/
def testKSizeContent : List Byte := (List.replicate 256 [0x11, 0x22, 0x33, 0x44]).flatten

/-- The entry of `TestKSize`. -/
def testKSizeEntry : Entry := { NewEntry with Content := testKSizeContent }

/-- The entry of `TestFirstEntry`, with the chain id left zero: three
external ids, the second one empty. -/
def testFirstEntry : Entry :=
  { NewEntry with
    ExtIDs := [[0x31, 0x61, 0x73, 0x64, 0x66], [], [0x33]]
    Content := [0x31, 0x61, 0x73, 0x64, 0x66] }

/-! ## Election: identities, messages, maps

`election.go` imports its messages, identities, authority set, volunteer
control and display from packages that are not among the sources.  The
message records are modelled from the data model of the specification; the
authority set, the volunteer control and the display are taken as parameters
(`Env`).

Conventions of this part.

* Go `int` is a 64-bit integer.  `CurrentLevel` and the levels the election
  assigns follow the rank a volunteer control answered, which may be any
  `int`, so the additions that produce them (`CurrentLevel++`,
  `ll.Rank + 1`, `ll.Rank + 2`) are `goAdd`, reduced to the range
  `-2^63 .. 2^63 - 1`.  `TotalMessages` and `CommitmentTally` grow by one per
  call and per adoption and are not reduced.
* A `map[K]V` is an association list with unique keys, kept in insertion
  order; `range` over it follows that order (Go leaves the order unspecified).
* A pointer to a message is the message value at the time it is used: the
  message lists hold the values as appended, and the volunteer control is
  taken to return messages it owns.  A later write through the pointer (the
  votes appended to a response in the Volunteer branch, the `Committed` flag
  set by `commitIfLast`) is not carried back into `MsgListIn` and
  `MsgListOut`.
* A panic leaves the election as mutated so far (`Outcome.panic`).
-/

/-- The largest Go `int`, `2^63 - 1`. -/
def maxInt : Int := 9223372036854775807

/-- Go `int` addition: the sum reduced to the range `-2^63 .. 2^63 - 1`. -/
def goAdd (a b : Int) : Int :=
  (a + b + 9223372036854775808) % 18446744073709551616 - 9223372036854775808

/-- Modelled from the spec: "Identity. Opaque fixed-width token, totally
ordered, hashable, equality-comparable." -/
abbrev Identity := Nat

/-- Modelled from the spec: "ProcessListLocation. Triple
`(chain_id, vm_index, height)` scoping an election instance." -/
structure ProcessListLocation where
  ChainID : Nat
  VMIndex : Nat
  Height : Nat
  deriving DecidableEq, Repr

/-- Modelled from the spec: `Volunteer{signer, location}`. -/
structure VolunteerMessage where
  Signer : Identity
  Location : ProcessListLocation
  deriving DecidableEq, Repr

/-- Modelled from the spec: `Vote{signer, volunteer: Volunteer}`. -/
structure VoteMessage where
  Signer : Identity
  Volunteer : VolunteerMessage
  deriving DecidableEq, Repr

/-- Modelled from the spec: `LeaderLevel{signer, rank, level, volunteer,
volunteer_priority, votes: [Vote], justification: [LeaderLevel], committed}`,
with the field names `election.go` uses. -/
structure LeaderLevelMessage where
  Signer : Identity
  Rank : Int
  Level : Int
  VolunteerMessage : VolunteerMessage
  VolunteerPriority : Int
  VoteMessages : List VoteMessage
  Justification : List LeaderLevelMessage
  Committed : Bool

/-- The interface `imessage.IMessage`: the four message variants of the spec.
A nil interface value is `none` of `Option IMessage`. -/
inductive IMessage where
  | volunteer (m : VolunteerMessage)
  | vote (m : VoteMessage)
  | leaderLevel (m : LeaderLevelMessage)
  | eom

/-- Modelled from the spec: `messages.NewVoteMessage(vol, self)` builds
`Vote{signer = self, volunteer = vol}`. -/
def NewVoteMessage (vol : VolunteerMessage) (self : Identity) : VoteMessage :=
  { Signer := self, Volunteer := vol }

/-- Modelled from the spec: `messages.NewLeaderLevelMessage(self, rank, level,
vol)` builds a message with these four fields, the others being Go zero
values. -/
def NewLeaderLevelMessage (self : Identity) (rank level : Int) (vol : VolunteerMessage) :
    LeaderLevelMessage :=
  { Signer := self, Rank := rank, Level := level, VolunteerMessage := vol,
    VolunteerPriority := 0, VoteMessages := [], Justification := [], Committed := false }

/-- Modelled from the spec: the order on `LeaderLevel`, "`a < b` iff
`(a.rank, -a.volunteer_priority, a.level) <_lex
(b.rank, -b.volunteer_priority, b.level)`". -/
def LeaderLevelMessage.Less (a b : LeaderLevelMessage) : Bool :=
  decide (a.Rank < b.Rank ∨
    (a.Rank = b.Rank ∧
      (-a.VolunteerPriority < -b.VolunteerPriority ∨
        (-a.VolunteerPriority = -b.VolunteerPriority ∧ a.Level < b.Level))))

/-- A Go map as an association list. -/
abbrev GoMap (K V : Type) := List (K × V)

/-- The expression `m[k]`, with presence. -/
def GoMap.get? {K V : Type} [DecidableEq K] (m : GoMap K V) (k : K) : Option V :=
  (m.find? (fun p => p.1 = k)).map Prod.snd

/-- The statement `m[k] = v`: replaces the value of an existing key in place,
appends a new key. -/
def GoMap.set {K V : Type} [DecidableEq K] : GoMap K V → K → V → GoMap K V
  | [], k, v => [(k, v)]
  | (k', v') :: rest, k, v =>
    if k' = k then (k, v) :: rest else (k', v') :: GoMap.set rest k v

/-- The values in iteration order. -/
def GoMap.values {K V : Type} (m : GoMap K V) : List V := m.map Prod.snd

/-! ## Election: state and collaborators -/

/-- The collaborators of the election that are not among the sources:
the authority set `A` (methods `Majority` and `GetVolunteerPriority`), the
volunteer control `VC` (`NewVolunteerControl` and its `Execute`, which returns
the updated control, the message or nil, and the change flag) and the display
`D` (`Display.Execute` on a non-nil display; `displayNilExecute` says what the
call does on a nil display: `none` when it returns, `some p` when it panics
with `p`). -/
structure Env (A VC D : Type) where
  Majority : A → Int
  GetVolunteerPriority : A → Identity → ProcessListLocation → Int
  NewVolunteerControl : Identity → A → VC
  vcExecute : VC → LeaderLevelMessage → VC × Option IMessage × Bool
  displayExecute : D → IMessage → D
  displayNilExecute : Option String

structure Election (A VC D : Type) where
  /-- Level 0 volunteer votes `map[vol]map[leader]msg`. -/
  VolunteerVotes : GoMap Identity (GoMap Identity VoteMessage)
  /-- Indexed by volunteer. -/
  VolunteerControls : GoMap Identity VC
  CurrentLevel : Int
  CurrentVote : LeaderLevelMessage
  Self : Identity
  AuthSet : A
  ProcessListLocation : ProcessListLocation
  MsgListIn : List LeaderLevelMessage
  MsgListOut : List LeaderLevelMessage
  Display : Option D
  Committed : Bool
  TotalMessages : Int
  CommitmentTally : Int

/-- What a call on the election gives: the two results, a panic, or (in the
model only) exhaustion of the recursion budget. -/
inductive Outcome where
  | ret (resp : Option IMessage) (changed : Bool)
  | panic (value : String)
  | outOfFuel

section ElectionCode

variable {A VC D : Type}

/-- The zero value of `messages.LeaderLevelMessage`. -/
def zeroLeaderLevelMessage : LeaderLevelMessage :=
  { Signer := 0, Rank := 0, Level := 0, VolunteerMessage := ⟨0, ⟨0, 0, 0⟩⟩,
    VolunteerPriority := 0, VoteMessages := [], Justification := [], Committed := false }

def NewElection (self : Identity) (authset : A) (loc : ProcessListLocation) : Election A VC D where
  VolunteerVotes := []
  VolunteerControls := []
  Self := self
  AuthSet := authset
  -- Majority level starts at 1
  CurrentLevel := 1
  CurrentVote := { zeroLeaderLevelMessage with Rank := -1, VolunteerPriority := -1 }
  MsgListIn := []
  MsgListOut := []
  -- Used to determine volunteer priority
  ProcessListLocation := loc
  Display := none
  Committed := false
  TotalMessages := 0
  CommitmentTally := 0

def Election.updateCurrentVote (e : Election A VC D) (new : LeaderLevelMessage) : Election A VC D :=
  if new.VolunteerPriority = e.CurrentVote.VolunteerPriority then
    if e.CurrentVote.Rank + 1 = new.Rank then
      { e with CommitmentTally := e.CommitmentTally + 1, CurrentVote := new }
    else
      { e with CommitmentTally := 1, CurrentVote := new }
  else
    { e with CommitmentTally := 1, CurrentVote := new }

def Election.getVolunteerPriority (env : Env A VC D) (e : Election A VC D) (vol : Identity) : Int :=
  env.GetVolunteerPriority e.AuthSet vol e.ProcessListLocation

def Election.executeDisplay (env : Env A VC D) (e : Election A VC D) (msg : IMessage) :
    Election A VC D :=
  match e.Display with
  | some d => { e with Display := some (env.displayExecute d msg) }
  | none => e

/-- The method `commitIfLast`; the call `e.Display.Execute(msg)` in it is not
guarded by a nil check. -/
def Election.commitIfLast (env : Env A VC D) (e : Election A VC D) (msg : LeaderLevelMessage) :
    Election A VC D × Except String LeaderLevelMessage :=
  -- If commit is true, then we are done. Return the EOM
  if e.CommitmentTally > 2 then
    let e := { e with Committed := true }
    let msg := { msg with Committed := true }
    match e.Display with
    | some d => ({ e with Display := some (env.displayExecute d (.leaderLevel msg)) }, .ok msg)
    | none =>
      match env.displayNilExecute with
      | none => (e, .ok msg)
      | some p => (e, .error p)
  else
    (e, .ok msg)

/-- The votes known for a volunteer, `e.VolunteerVotes[vol]`, in iteration
order (none for a missing key). -/
def Election.votesFor (e : Election A VC D) (vol : Identity) : List VoteMessage :=
  match e.VolunteerVotes.get? vol with
  | some inner => inner.values
  | none => []

/-- The statements `if e.VolunteerVotes[vol] == nil { e.VolunteerVotes[vol] = make(..) }`. -/
def Election.ensureVotes (e : Election A VC D) (vol : Identity) : Election A VC D :=
  match e.VolunteerVotes.get? vol with
  | some _ => e
  | none => { e with VolunteerVotes := e.VolunteerVotes.set vol [] }

/-- The statement `e.VolunteerVotes[vol][signer] = vote`. -/
def Election.storeVote (e : Election A VC D) (vol signer : Identity) (vote : VoteMessage) :
    Election A VC D :=
  match e.VolunteerVotes.get? vol with
  | some inner => { e with VolunteerVotes := e.VolunteerVotes.set vol (inner.set signer vote) }
  | none => e

/-- The method `Execute`, over the `execute` it calls: a `LeaderLevelMessage`
passed in is appended to `MsgListOut` after `execute` has returned. -/
def Election.ExecuteWith (exec : Election A VC D → IMessage → Election A VC D × Outcome)
    (e : Election A VC D) (msg : IMessage) : Election A VC D × Outcome :=
  match exec e msg with
  | (e, .ret resp c) =>
    match msg with
    | .leaderLevel l => ({ e with MsgListOut := e.MsgListOut ++ [l] }, .ret resp c)
    | _ => (e, .ret resp c)
  | (e, o) => (e, o)

/-- The loop `for _, v := range msg.VoteMessages` of `executeLeaderLevelMessage`,
carrying `voteChange` and `rank0Vote`. -/
def executeVotes (Exec : Election A VC D → IMessage → Election A VC D × Outcome) :
    Election A VC D → List VoteMessage → Bool → Option LeaderLevelMessage →
      Election A VC D × Except Outcome (Bool × Option LeaderLevelMessage)
  | e, [], voteChange, rank0Vote => (e, .ok (voteChange, rank0Vote))
  | e, v :: vs, voteChange, rank0Vote =>
    match Exec e (.vote v) with
    | (e, .ret resp ch) =>
      let rank0Vote :=
        match resp, rank0Vote with
        | some (.leaderLevel vl), some _ => some vl
        | _, _ => rank0Vote
      executeVotes Exec e vs (ch || voteChange) rank0Vote
    | (e, o) => (e, .error o)

/-- The display calls on the justifications and votes of a control result. -/
def Election.displayResult (env : Env A VC D) (e : Election A VC D) (ll : LeaderLevelMessage) :
    Election A VC D :=
  match e.Display with
  | some d =>
    let d := ll.Justification.foldl (fun d jl => env.displayExecute d (.leaderLevel jl)) d
    let d := ll.VoteMessages.foldl (fun d jv => env.displayExecute d (.vote jv)) d
    { e with Display := some d }
  | none => e

/-- The method `executeLeaderLevelMessage`, `Exec` being the method `Execute`
it calls on the embedded votes and on its own new vote. -/
def Election.executeLeaderLevelMessage (env : Env A VC D)
    (Exec : Election A VC D → IMessage → Election A VC D × Outcome)
    (e : Election A VC D) (msg : LeaderLevelMessage) : Election A VC D × Outcome :=
  let e : Election A VC D :=
    match e.VolunteerControls.get? msg.VolunteerMessage.Signer with
    | some _ => e
    | none =>
      let vc := env.NewVolunteerControl e.Self e.AuthSet
      { e with VolunteerControls := e.VolunteerControls.set msg.VolunteerMessage.Signer vc }
  let e := { e with MsgListIn := e.MsgListIn ++ [msg] }
  if msg.Level ≤ 0 then (e, .panic "level <= 0 should never happen") else
  -- Votes exist, so we can add these to our vote map
  match executeVotes Exec e msg.VoteMessages false none with
  | (e, .error o) => (e, o)
  | (e, .ok (voteChange, rank0Vote)) =>
  -- Add their info to our map
  match e.VolunteerControls.get? msg.VolunteerMessage.Signer with
  | none => (e, .panic nilDeref)
  | some vc =>
  match env.vcExecute vc msg with
  | (vc, res, change) =>
  let e := { e with VolunteerControls := e.VolunteerControls.set msg.VolunteerMessage.Signer vc }
  match res with
  | some (.leaderLevel ll) =>
    let e := e.displayResult env ll
    -- We need to set the volunteer priority for comparing
    let ll := { ll with VolunteerPriority := e.getVolunteerPriority env ll.VolunteerMessage.Signer }
    -- We have a new vote we might be able to cast
    if e.CurrentVote.Less ll then
      -- This vote is better than our current, let's pass it out.
      let (ll, e) : LeaderLevelMessage × Election A VC D :=
        if ll.Rank ≥ e.CurrentLevel then
          -- We cannot issue a rank 2 on level 2. It has to be on level 3
          ({ ll with Level := goAdd ll.Rank 1 }, { e with CurrentLevel := goAdd ll.Rank 2 })
        else
          -- Set level to our level, increment
          ({ ll with Level := e.CurrentLevel }, { e with CurrentLevel := goAdd e.CurrentLevel 1 })
      let e := e.updateCurrentVote ll
      match e.commitIfLast env ll with
      | (e, .error p) => (e, .panic p)
      | (e, .ok ll) =>
      if e.Committed then (e, .ret (some (.leaderLevel ll)) true) else
      -- This is not our last vote, let's check if it triggers a new vote
      match Exec e (.leaderLevel ll) with
      | (e, .ret (some (.leaderLevel l2)) _) =>
        match e.commitIfLast env l2 with
        | (e, .error p) => (e, .panic p)
        | (e, .ok l2) => (e, .ret (some (.leaderLevel l2)) true)
      | (e, .ret _ _) => (e, .ret (some (.leaderLevel ll)) true)
      | (e, o) => (e, o)
    else
      -- We decided not to send the new msg
      if ll.Level < 0 then (e, .ret none change)
      else
        match rank0Vote with
        | some _ => (e, .ret none (voteChange || change))
        | none => (e, .ret none (voteChange || change))
  | some _ =>
    -- the type assertion failed: `ll` is nil and `ll.VolunteerPriority = ..` panics
    (e, .panic nilDeref)
  | none =>
    match rank0Vote with
    | some _ => (e, .ret none (voteChange || change))
    | none => (e, .ret none (voteChange || change))

/-- The statements under the label `SendRank0` of `execute`: build the rank-0
message for the volunteer of `vote`, adopt it, and run it through `Execute`. -/
def Election.sendRank0 (env : Env A VC D)
    (Exec : Election A VC D → IMessage → Election A VC D × Outcome)
    (e : Election A VC D) (vote : VoteMessage) : Election A VC D × Outcome :=
  let ll := NewLeaderLevelMessage e.Self 0 e.CurrentLevel vote.Volunteer
  let ll := { ll with VolunteerPriority := e.getVolunteerPriority env vote.Volunteer.Signer }
  let ll := { ll with VoteMessages := ll.VoteMessages ++ e.votesFor vote.Volunteer.Signer }
  let e := { e with CurrentLevel := goAdd e.CurrentLevel 1 }
  let e := e.updateCurrentVote ll
  match Exec e (.leaderLevel ll) with
  | (e, .ret (some (.leaderLevel l)) _) =>
    -- The response could be a better vote. If it is, send that out instead
    if ll.Less l then (e, .ret (some (.leaderLevel l)) true)
    else (e, .ret (some (.leaderLevel ll)) true)
  | (e, .ret _ _) => (e, .ret (some (.leaderLevel ll)) true)
  | (e, o) => (e, o)

/-- The body of the method `execute`, `Exec` being the method `Execute` it
calls (on its own vote, on its own rank-0 message, and inside
`executeLeaderLevelMessage`). -/
def Election.executeWith (env : Env A VC D)
    (Exec : Election A VC D → IMessage → Election A VC D × Outcome)
    (e : Election A VC D) (msg : IMessage) : Election A VC D × Outcome :=
  let e := { e with TotalMessages := e.TotalMessages + 1 }
  let e := e.executeDisplay env msg
  -- We are done, never use anything else
  if e.Committed then (e, .ret none false) else
  match msg with
  | .leaderLevel m => e.executeLeaderLevelMessage env Exec m
  | .volunteer vol =>
    let e := e.ensureVotes vol.Signer
    -- already voted
    if ((e.VolunteerVotes.get? vol.Signer).bind (fun inner => inner.get? e.Self)).isSome then
      (e, .ret none false)
    else
      let vote := NewVoteMessage vol e.Self
      let e := e.storeVote vol.Signer e.Self vote
      match Exec e (.vote vote) with
      | (e, .ret (some (.leaderLevel ll)) _) =>
        let ll := { ll with VoteMessages := ll.VoteMessages ++ e.votesFor vol.Signer }
        (e, .ret (some (.leaderLevel ll)) true)
      | (e, .ret _ _) => (e, .ret (some (.vote vote)) true)
      | (e, o) => (e, o)
  | .vote vote =>
    -- Colecting these allows us to issue out 0.#
    let vol := vote.Volunteer.Signer
    let e := e.ensureVotes vol
    let e := e.storeVote vol vote.Signer vote
    let e := e.executeDisplay env (.vote vote)
    if ((e.votesFor vote.Volunteer.Signer).length : Int) ≥ env.Majority e.AuthSet then
      -- We have a majority of level 0 votes and can issue a rank 0 LeaderLevel Message
      -- No current vote, so send!
      if e.CurrentVote.Rank = -1 then e.sendRank0 env Exec vote
      -- If we have a rank 1+, we will not issue a rank 0
      else if e.CurrentVote.Rank > 0 then (e, .ret none false)
      -- If we have a rank 0, and higher priority volunteer (or same, don't vote again)
      else if e.CurrentVote.VolunteerPriority ≥ e.getVolunteerPriority env vol then
        (e, .ret none false)
      else e.sendRank0 env Exec vote
    else
      (e, .ret none false)
  | .eom => (e, .ret none false)

/-- The method `execute` with a budget of `fuel` nested calls of `Execute`:
`execute` and `Execute` call each other, and a call nested deeper than the
budget gives `Outcome.outOfFuel`. -/
def Election.execute (env : Env A VC D) :
    Nat → Election A VC D → IMessage → Election A VC D × Outcome
  | 0 => Election.executeWith env (fun e _ => (e, .outOfFuel))
  | fuel + 1 => Election.executeWith env (Election.ExecuteWith (Election.execute env fuel))

/-- The method `Execute` with a budget of `fuel` nested calls. -/
def Election.Execute (env : Env A VC D) (fuel : Nat) :
    Election A VC D → IMessage → Election A VC D × Outcome :=
  Election.ExecuteWith (Election.execute env fuel)

/-- The method `RoutingElection.Execute`. -/
def RoutingElection.Execute (env : Env A VC D) (fuel : Nat) (e : Election A VC D) (msg : IMessage) :
    Election A VC D × Outcome :=
  match Election.execute env fuel e msg with
  | (e, .ret resp ch) =>
    if resp.isNone ∧ ch then (e, .ret (some msg) ch)
    else if resp.isNone ∧ e.CurrentVote.Level > 0 then
      (e, .ret (some (.leaderLevel e.CurrentVote)) false)
    else (e, .ret resp ch)
  | (e, o) => (e, o)

end ElectionCode

/-! ## Election: vocabulary of the statements -/

section ElectionVocabulary

variable {A VC D : Type}

/-- The states an election can be in: a new election, one given a display
(`AddDisplay`), and the state any call of `execute` or `Execute` leaves behind
(also one that panicked or exhausted its budget). -/
inductive Reachable (env : Env A VC D) : Election A VC D → Prop
  | init (self : Identity) (authset : A) (loc : ProcessListLocation) :
      Reachable env (NewElection self authset loc)
  | addDisplay (e : Election A VC D) (d : D) :
      Reachable env e → Reachable env { e with Display := some d }
  | execute (e : Election A VC D) (fuel : Nat) (m : IMessage) :
      Reachable env e → Reachable env (Election.execute env fuel e m).1
  | Execute (e : Election A VC D) (fuel : Nat) (m : IMessage) :
      Reachable env e → Reachable env (Election.Execute env fuel e m).1

/-- Two states that agree on the vote state proper: current vote, current
level, commitment tally, committed flag, and the fixed identity, authority set
and location.  They may differ in the vote maps, the controls, the message
lists, the display and the message count. -/
def Election.CoreEq (e e' : Election A VC D) : Prop :=
  e'.CurrentVote = e.CurrentVote ∧ e'.CurrentLevel = e.CurrentLevel ∧
  e'.CommitmentTally = e.CommitmentTally ∧ e'.Committed = e.Committed ∧
  e'.Self = e.Self ∧ e'.AuthSet = e.AuthSet ∧ e'.ProcessListLocation = e.ProcessListLocation

/-- A relation between the state before and the state after that is kept by
every kind of step `execute` is made of: steps that leave the vote state alone,
the adoption of a rank-0 message under `SendRank0`, the adoption of a control
result in `executeLeaderLevelMessage` (with either level rule), and the commit
of `commitIfLast`. -/
structure StepClosed (env : Env A VC D) (P : Election A VC D → Election A VC D → Prop) : Prop where
  refl : ∀ e, P e e
  trans : ∀ a b c, P a b → P b c → P a c
  frame : ∀ e e', e.CoreEq e' → P e e'
  rank0 : ∀ (e : Election A VC D) (ll : LeaderLevelMessage), e.Committed = false →
    ll.Rank = 0 → ll.Level = e.CurrentLevel →
    (e.CurrentVote.Rank = -1 ∨
      (¬ e.CurrentVote.Rank > 0 ∧ ¬ e.CurrentVote.VolunteerPriority ≥ ll.VolunteerPriority)) →
    P e (Election.updateCurrentVote { e with CurrentLevel := goAdd e.CurrentLevel 1 } ll)
  outrun : ∀ (e : Election A VC D) (ll : LeaderLevelMessage), e.CurrentVote.Less ll = true →
    ll.Rank ≥ e.CurrentLevel →
    P e (Election.updateCurrentVote { e with CurrentLevel := goAdd ll.Rank 2 }
      { ll with Level := goAdd ll.Rank 1 })
  next : ∀ (e : Election A VC D) (ll : LeaderLevelMessage), e.CurrentVote.Less ll = true →
    ¬ ll.Rank ≥ e.CurrentLevel →
    P e (Election.updateCurrentVote { e with CurrentLevel := goAdd e.CurrentLevel 1 }
      { ll with Level := e.CurrentLevel })
  commit : ∀ e : Election A VC D, e.CommitmentTally > 2 → P e { e with Committed := true }

/-- One step on the `Committed` flag: a step that leaves the flag alone, or
the assignment `e.Committed = true` of `commitIfLast`, made at a tally above 2. -/
def FlagStep (s s' : Election A VC D) : Prop :=
  s'.Committed = s.Committed ∨ (s.CommitmentTally > 2 ∧ s' = { s with Committed := true })

/-- The statements of `executeLeaderLevelMessage` after `e.updateCurrentVote(*ll)`:
commit if this was the last vote, otherwise run the new vote through `Execute`
and return the better of the two. -/
def Election.afterAdopt (env : Env A VC D)
    (Exec : Election A VC D → IMessage → Election A VC D × Outcome)
    (e : Election A VC D) (ll : LeaderLevelMessage) : Election A VC D × Outcome :=
  match e.commitIfLast env ll with
  | (e, .error p) => (e, .panic p)
  | (e, .ok ll) =>
  if e.Committed then (e, .ret (some (.leaderLevel ll)) true) else
  -- This is not our last vote, let's check if it triggers a new vote
  match Exec e (.leaderLevel ll) with
  | (e, .ret (some (.leaderLevel l2)) _) =>
    match e.commitIfLast env l2 with
    | (e, .error p) => (e, .panic p)
    | (e, .ok l2) => (e, .ret (some (.leaderLevel l2)) true)
  | (e, .ret _ _) => (e, .ret (some (.leaderLevel ll)) true)
  | (e, o) => (e, o)

/-- The first statements of `executeLeaderLevelMessage`: a volunteer control
is created for the volunteer of `msg` when there is none, and `msg` is appended
to `MsgListIn`. -/
def Election.receive (env : Env A VC D) (e : Election A VC D) (msg : LeaderLevelMessage) :
    Election A VC D :=
  let e : Election A VC D :=
    match e.VolunteerControls.get? msg.VolunteerMessage.Signer with
    | some _ => e
    | none =>
      let vc := env.NewVolunteerControl e.Self e.AuthSet
      { e with VolunteerControls := e.VolunteerControls.set msg.VolunteerMessage.Signer vc }
  { e with MsgListIn := e.MsgListIn ++ [msg] }

/-- The statements of `executeLeaderLevelMessage` from the call of the
volunteer control on, `voteChange` and `rank0Vote` being what the loop over
the embedded votes left. -/
def Election.consultControl (env : Env A VC D)
    (Exec : Election A VC D → IMessage → Election A VC D × Outcome)
    (e : Election A VC D) (msg : LeaderLevelMessage) (voteChange : Bool)
    (rank0Vote : Option LeaderLevelMessage) : Election A VC D × Outcome :=
  match e.VolunteerControls.get? msg.VolunteerMessage.Signer with
  | none => (e, .panic nilDeref)
  | some vc =>
  match env.vcExecute vc msg with
  | (vc, res, change) =>
  let e := { e with VolunteerControls := e.VolunteerControls.set msg.VolunteerMessage.Signer vc }
  match res with
  | some (.leaderLevel ll) =>
    let e := e.displayResult env ll
    -- We need to set the volunteer priority for comparing
    let ll := { ll with VolunteerPriority := e.getVolunteerPriority env ll.VolunteerMessage.Signer }
    -- We have a new vote we might be able to cast
    if e.CurrentVote.Less ll then
      -- This vote is better than our current, let's pass it out.
      let (ll, e) : LeaderLevelMessage × Election A VC D :=
        if ll.Rank ≥ e.CurrentLevel then
          -- We cannot issue a rank 2 on level 2. It has to be on level 3
          ({ ll with Level := goAdd ll.Rank 1 }, { e with CurrentLevel := goAdd ll.Rank 2 })
        else
          -- Set level to our level, increment
          ({ ll with Level := e.CurrentLevel }, { e with CurrentLevel := goAdd e.CurrentLevel 1 })
      let e := e.updateCurrentVote ll
      Election.afterAdopt env Exec e ll
    else
      -- We decided not to send the new msg
      if ll.Level < 0 then (e, .ret none change)
      else
        match rank0Vote with
        | some _ => (e, .ret none (voteChange || change))
        | none => (e, .ret none (voteChange || change))
  | some _ => (e, .panic nilDeref)
  | none =>
    match rank0Vote with
    | some _ => (e, .ret none (voteChange || change))
    | none => (e, .ret none (voteChange || change))

/-- The statements of the `VoteMessage` case of `execute` before the majority
test: the message is counted and shown, the vote stored under its volunteer and
signer, and shown again. -/
def Election.recordVote (env : Env A VC D) (e : Election A VC D) (vote : VoteMessage) :
    Election A VC D :=
  let e := { e with TotalMessages := e.TotalMessages + 1 }
  let e := e.executeDisplay env (.vote vote)
  let vol := vote.Volunteer.Signer
  let e := e.ensureVotes vol
  let e := e.storeVote vol vote.Signer vote
  e.executeDisplay env (.vote vote)

/-- The statements of the `VolunteerMessage` case of `execute` before the test
"already voted": the message is counted and shown, and the vote map of the
volunteer created when missing. -/
def Election.recordVolunteer (env : Env A VC D) (e : Election A VC D) (vol : VolunteerMessage) :
    Election A VC D :=
  let e := { e with TotalMessages := e.TotalMessages + 1 }
  let e := e.executeDisplay env (.volunteer vol)
  e.ensureVotes vol.Signer

/-- The message built under the label `SendRank0` of `execute`: rank 0, the
current level, the volunteer of `vote` with its priority, and the votes known
for that volunteer. -/
def Election.rank0Message (env : Env A VC D) (e : Election A VC D) (vote : VoteMessage) :
    LeaderLevelMessage :=
  let ll := NewLeaderLevelMessage e.Self 0 e.CurrentLevel vote.Volunteer
  let ll := { ll with VolunteerPriority := e.getVolunteerPriority env vote.Volunteer.Signer }
  { ll with VoteMessages := ll.VoteMessages ++ e.votesFor vote.Volunteer.Signer }

/-- The statements `e.CurrentLevel++` and `e.updateCurrentVote(ll)` under the
label `SendRank0`. -/
def Election.adoptRank0 (env : Env A VC D) (e : Election A VC D) (vote : VoteMessage) :
    Election A VC D :=
  Election.updateCurrentVote { e with CurrentLevel := goAdd e.CurrentLevel 1 }
    (e.rank0Message env vote)

/-- What the volunteer control of the volunteer of `msg` (a new control when
the election has none for that volunteer) answers to `msg`. -/
def Election.controlAnswer (env : Env A VC D) (e : Election A VC D) (msg : LeaderLevelMessage) :
    Option IMessage :=
  (env.vcExecute ((e.VolunteerControls.get? msg.VolunteerMessage.Signer).getD
    (env.NewVolunteerControl e.Self e.AuthSet)) msg).2.1

/-- The volunteer control yields no message better than `ll`: it answers nil,
or a leader-level message that, given its volunteer priority, is not greater
than `ll`. -/
def Election.noBetterAnswer (env : Env A VC D) (e : Election A VC D) (ll : LeaderLevelMessage) :
    Prop :=
  e.controlAnswer env ll = none ∨
    ∃ r, e.controlAnswer env ll = some (.leaderLevel r) ∧
      ll.Less { r with
        VolunteerPriority := e.getVolunteerPriority env r.VolunteerMessage.Signer } = false

/-- The statement `ll.VolunteerPriority = e.getVolunteerPriority(ll.VolunteerMessage.Signer)`
of `executeLeaderLevelMessage`. -/
def Election.withPriority (env : Env A VC D) (e : Election A VC D) (ll : LeaderLevelMessage) :
    LeaderLevelMessage :=
  { ll with VolunteerPriority := e.getVolunteerPriority env ll.VolunteerMessage.Signer }

/-- The level rule of `executeLeaderLevelMessage` for a control result `ll`
that is greater than the current vote: the message with its level, and the
election with its new current level. -/
def Election.assignLevel (e : Election A VC D) (ll : LeaderLevelMessage) :
    LeaderLevelMessage × Election A VC D :=
  if ll.Rank ≥ e.CurrentLevel then
    -- We cannot issue a rank 2 on level 2. It has to be on level 3
    ({ ll with Level := goAdd ll.Rank 1 }, { e with CurrentLevel := goAdd ll.Rank 2 })
  else
    -- Set level to our level, increment
    ({ ll with Level := e.CurrentLevel }, { e with CurrentLevel := goAdd e.CurrentLevel 1 })

/-- The level rule followed by `e.updateCurrentVote(*ll)`. -/
def Election.adoptResult (e : Election A VC D) (ll : LeaderLevelMessage) : Election A VC D :=
  (e.assignLevel ll).2.updateCurrentVote (e.assignLevel ll).1

/-- The end of the statements under `SendRank0`: what `execute` returns from
the result of `e.Execute(&ll)`. -/
def rank0Return (ll : LeaderLevelMessage) :
    Election A VC D × Outcome → Election A VC D × Outcome
  | (e, .ret (some (.leaderLevel l)) _) =>
    -- The response could be a better vote. If it is, send that out instead
    if ll.Less l then (e, .ret (some (.leaderLevel l)) true)
    else (e, .ret (some (.leaderLevel ll)) true)
  | (e, .ret _ _) => (e, .ret (some (.leaderLevel ll)) true)
  | (e, o) => (e, o)

/-- The end of the `VolunteerMessage` case of `execute`: what it returns from
the result of `e.Execute(&vote)`, the votes known for the volunteer being
appended to a leader-level response. -/
def volunteerReturn (vol : VolunteerMessage) (vote : VoteMessage) :
    Election A VC D × Outcome → Election A VC D × Outcome
  | (e, .ret (some (.leaderLevel ll)) _) =>
    (e, .ret (some (.leaderLevel
      { ll with VoteMessages := ll.VoteMessages ++ e.votesFor vol.Signer })) true)
  | (e, .ret _ _) => (e, .ret (some (.vote vote)) true)
  | (e, o) => (e, o)

end ElectionVocabulary

/-! ## Example inputs -/

/-- An environment for examples: majority 3, the identity as priority, a
volunteer control that never answers, a display that ignores everything. -/
def exampleEnv : Env Unit Unit Unit where
  Majority := fun _ => 3
  GetVolunteerPriority := fun _ id _ => (id : Int)
  NewVolunteerControl := fun _ _ => ()
  vcExecute := fun vc _ => (vc, none, false)
  displayExecute := fun d _ => d
  displayNilExecute := none

/-- A vote of `signer` for the volunteer `vol`. -/
def exampleVote (signer vol : Identity) : IMessage :=
  .vote ⟨signer, ⟨vol, ⟨0, 0, 0⟩⟩⟩

/-- The state a list of messages, handed to `Execute` one after the other with
budget 5, leaves from `start`. -/
def exampleRun {A VC D : Type} (env : Env A VC D) (start : Election A VC D)
    (msgs : List IMessage) : Election A VC D :=
  msgs.foldl (fun e m => (Election.Execute env 5 e m).1) start

/-- Participant 0 after the votes of 1, 2 and 3 for volunteer 5 (which make it
issue a rank-0 message for 5) and the votes of 1 and 2 for volunteer 9. -/
def exampleSwitchState : Election Unit Unit Unit :=
  exampleRun exampleEnv (NewElection 0 () ⟨0, 0, 0⟩)
    [exampleVote 1 5, exampleVote 2 5, exampleVote 3 5, exampleVote 1 9, exampleVote 2 9]

/-- An example volunteer control in the manner of section 4.5 of the
specification, for participant 0 and majority 3: it keeps the message of highest
rank of each signer and, once it holds the messages of three signers, answers
with a message of participant 0 whose rank is one above the lowest rank it
holds, the level left unset. -/
def exampleControlExecute (vc : GoMap Identity LeaderLevelMessage) (msg : LeaderLevelMessage) :
    GoMap Identity LeaderLevelMessage × Option IMessage × Bool :=
  let stored : GoMap Identity LeaderLevelMessage × Bool :=
    match vc.get? msg.Signer with
    | some old => if old.Rank < msg.Rank then (vc.set msg.Signer msg, true) else (vc, false)
    | none => (vc.set msg.Signer msg, true)
  if stored.1.length ≥ 3 then
    let lowest := (stored.1.values.map (fun l => l.Rank)).foldl min msg.Rank
    (stored.1, some (.leaderLevel (NewLeaderLevelMessage 0 (lowest + 1) (-1) msg.VolunteerMessage)),
      stored.2)
  else (stored.1, none, stored.2)

/-- The environment of `exampleEnv` with the volunteer control
`exampleControlExecute`. -/
def exampleControlEnv : Env Unit (GoMap Identity LeaderLevelMessage) Unit where
  Majority := fun _ => 3
  GetVolunteerPriority := fun _ id _ => (id : Int)
  NewVolunteerControl := fun _ _ => []
  vcExecute := exampleControlExecute
  displayExecute := fun d _ => d
  displayNilExecute := none

/-- The message of `signer` with the given rank and level for the volunteer
`vol`, carrying the votes `votes`. -/
def exampleLeaderLevel (signer : Identity) (rank level : Int) (vol : Identity)
    (votes : List VoteMessage) : IMessage :=
  .leaderLevel { NewLeaderLevelMessage signer rank level ⟨vol, ⟨0, 0, 0⟩⟩ with
    VoteMessages := votes }

/-- A new election of participant 0 that was given a display. -/
def exampleControlStart : Election Unit (GoMap Identity LeaderLevelMessage) Unit :=
  { (NewElection 0 () ⟨0, 0, 0⟩ : Election Unit (GoMap Identity LeaderLevelMessage) Unit) with
    Display := some () }

/-- Participant 0, with a display, after the rank-1 messages of 1 and 2 for
volunteer 5 and the rank-2 messages of 1 and 2 for volunteer 9, none of which
reaches a majority in its control. -/
def exampleBeforeCommit : Election Unit (GoMap Identity LeaderLevelMessage) Unit :=
  exampleRun exampleControlEnv exampleControlStart
    [exampleLeaderLevel 1 1 2 5 [], exampleLeaderLevel 2 1 2 5 [],
      exampleLeaderLevel 1 2 3 9 [], exampleLeaderLevel 2 2 3 9 []]

/-- The rank-2 message of 3 for volunteer 9 that carries the votes of 1, 2 and
3 for volunteer 5. -/
def exampleCommitMessage : IMessage :=
  exampleLeaderLevel 3 2 3 9
    [⟨1, ⟨5, ⟨0, 0, 0⟩⟩⟩, ⟨2, ⟨5, ⟨0, 0, 0⟩⟩⟩, ⟨3, ⟨5, ⟨0, 0, 0⟩⟩⟩]

/-- Participant 0 after the votes of 1 and 2 for volunteer 5. -/
def exampleTwoVotes : Election Unit Unit Unit :=
  exampleRun exampleEnv (NewElection 0 () ⟨0, 0, 0⟩) [exampleVote 1 5, exampleVote 2 5]

/-- Participant 0 after the votes of 1, 2 and 3 for volunteer 9 (which make it
issue a rank-0 message for 9) and the votes of 1 and 2 for volunteer 5. -/
def exampleHeldState : Election Unit Unit Unit :=
  exampleRun exampleEnv (NewElection 0 () ⟨0, 0, 0⟩)
    [exampleVote 1 9, exampleVote 2 9, exampleVote 3 9, exampleVote 1 5, exampleVote 2 5]

/-- The rank-0 message of `signer` for volunteer 5, at level 1. -/
def exampleRankZero (signer : Identity) : LeaderLevelMessage :=
  NewLeaderLevelMessage signer 0 1 ⟨5, ⟨0, 0, 0⟩⟩

/-- A new election of participant 0 whose control of volunteer 5 holds the
rank-0 messages of 1 and 2. -/
def exampleControlHeld : Election Unit (GoMap Identity LeaderLevelMessage) Unit :=
  { exampleControlStart with
    VolunteerControls := [(5, [(1, exampleRankZero 1), (2, exampleRankZero 2)])] }

/-- A leader-level message of level 0 for volunteer 7, signed by 1. -/
def exampleLevelZero : LeaderLevelMessage :=
  NewLeaderLevelMessage 1 0 0 ⟨7, ⟨0, 0, 0⟩⟩

/-! ## Election: steps told apart by the message lists -/

section ElectionTrace

variable {A VC D : Type}

/-- Two states that agree on the vote state proper (`CoreEq`) and on both
message lists. -/
def Election.QuietEq (e e' : Election A VC D) : Prop :=
  e.CoreEq e' ∧ e'.MsgListIn = e.MsgListIn ∧ e'.MsgListOut = e.MsgListOut

/-- A relation between the state before and the state after that is kept by
every kind of step `execute` and `Execute` are made of, the steps being told
apart more finely than in `StepClosed`: steps that leave the vote state and
the message lists alone, the append to `MsgListIn` in
`executeLeaderLevelMessage`, the append to `MsgListOut` in `Execute`, the
adoption of a rank-0 message under `SendRank0`, the adoption of a message `r`
that a volunteer control answered (with either level rule), and the commit of
`commitIfLast`. -/
structure TraceClosed (env : Env A VC D) (P : Election A VC D → Election A VC D → Prop) :
    Prop where
  refl : ∀ e, P e e
  trans : ∀ a b c, P a b → P b c → P a c
  quiet : ∀ e e', e.QuietEq e' → P e e'
  logIn : ∀ (e : Election A VC D) (msg : LeaderLevelMessage),
    P e { e with MsgListIn := e.MsgListIn ++ [msg] }
  logOut : ∀ (e : Election A VC D) (l : LeaderLevelMessage),
    P e { e with MsgListOut := e.MsgListOut ++ [l] }
  rank0 : ∀ (e : Election A VC D) (ll : LeaderLevelMessage), e.Committed = false →
    ll.Rank = 0 → ll.Level = e.CurrentLevel →
    (e.CurrentVote.Rank = -1 ∨
      (¬ e.CurrentVote.Rank > 0 ∧ ¬ e.CurrentVote.VolunteerPriority ≥ ll.VolunteerPriority)) →
    P e (Election.updateCurrentVote { e with CurrentLevel := goAdd e.CurrentLevel 1 } ll)
  outrun : ∀ (e : Election A VC D) (vc : VC) (msg r : LeaderLevelMessage),
    (env.vcExecute vc msg).2.1 = some (.leaderLevel r) →
    e.CurrentVote.Less (e.withPriority env r) = true →
    (e.withPriority env r).Rank ≥ e.CurrentLevel →
    P e (Election.updateCurrentVote { e with CurrentLevel := goAdd (e.withPriority env r).Rank 2 }
      { e.withPriority env r with Level := goAdd (e.withPriority env r).Rank 1 })
  next : ∀ (e : Election A VC D) (vc : VC) (msg r : LeaderLevelMessage),
    (env.vcExecute vc msg).2.1 = some (.leaderLevel r) →
    e.CurrentVote.Less (e.withPriority env r) = true →
    ¬ (e.withPriority env r).Rank ≥ e.CurrentLevel →
    P e (Election.updateCurrentVote { e with CurrentLevel := goAdd e.CurrentLevel 1 }
      { e.withPriority env r with Level := e.CurrentLevel })
  commit : ∀ e : Election A VC D, e.CommitmentTally > 2 → P e { e with Committed := true }

/-- The current vote of a new election: the zero message with rank -1 and
volunteer priority -1. -/
def initialVote : LeaderLevelMessage :=
  { zeroLeaderLevelMessage with Rank := -1, VolunteerPriority := -1 }

end ElectionTrace

/-- Participant 0 after the votes of 1, 2 and 3 for volunteer 5, which make
it adopt a rank-0 message for 5. -/
def exampleRankZeroState : Election Unit Unit Unit :=
  exampleRun exampleEnv (NewElection 0 () ⟨0, 0, 0⟩)
    [exampleVote 1 5, exampleVote 2 5, exampleVote 3 5]

/-- A leader-level message of participant 1 for volunteer 5, rank 0 at
level 1, without votes. -/
def exampleReceived : LeaderLevelMessage :=
  NewLeaderLevelMessage 1 0 1 ⟨5, ⟨0, 0, 0⟩⟩

/-! ## Election: the steps of a run -/

section ElectionSteps

variable {A VC D : Type}

/-- The adoption under the label `SendRank0` of `execute` (the Vote branch):
a rank-0 message `ll` at the current level is made the current vote and
`CurrentLevel` is incremented, from a current vote of rank -1 or from one of
rank at most 0 with a smaller volunteer priority number. -/
def Rank0Adoption (s s' : Election A VC D) : Prop :=
  ∃ ll : LeaderLevelMessage, s.Committed = false ∧ ll.Rank = 0 ∧ ll.Level = s.CurrentLevel ∧
    (s.CurrentVote.Rank = -1 ∨
      (¬ s.CurrentVote.Rank > 0 ∧ ¬ s.CurrentVote.VolunteerPriority ≥ ll.VolunteerPriority)) ∧
    s' = Election.updateCurrentVote { s with CurrentLevel := goAdd s.CurrentLevel 1 } ll

/-- The adoption in `executeLeaderLevelMessage` (the LeaderLevel branch): a
message `r` that a volunteer control answered is given its volunteer
priority, found greater than the current vote, given its level, and made the
current vote. -/
def ControlAdoption (env : Env A VC D) (s s' : Election A VC D) : Prop :=
  ∃ (vc : VC) (msg r : LeaderLevelMessage),
    (env.vcExecute vc msg).2.1 = some (.leaderLevel r) ∧
    s.CurrentVote.Less (s.withPriority env r) = true ∧
    s' = s.adoptResult (s.withPriority env r)

/-- One step of a run of `execute` or `Execute`: a step that leaves the vote
state and the message lists alone, an append to `MsgListIn` or to
`MsgListOut`, one of the two adoptions, or the commit of `commitIfLast`. -/
def TraceStep (env : Env A VC D) (s s' : Election A VC D) : Prop :=
  s.QuietEq s' ∨
  (∃ msg : LeaderLevelMessage, s' = { s with MsgListIn := s.MsgListIn ++ [msg] }) ∨
  (∃ l : LeaderLevelMessage, s' = { s with MsgListOut := s.MsgListOut ++ [l] }) ∨
  Rank0Adoption s s' ∨ ControlAdoption env s s' ∨
  (s.CommitmentTally > 2 ∧ s' = { s with Committed := true })

/-- A state at the limit of the `int` range: the next increment of
`CurrentLevel` overflows, or the current vote has a rank whose level
`rank + 1` or whose next level `rank + 2` overflows. -/
def Election.AtIntLimit (s : Election A VC D) : Prop :=
  maxInt ≤ s.CurrentLevel ∨ maxInt - 1 ≤ s.CurrentVote.Rank

/-- On the way from `e` to `e'` the election was in a state at the limit of
the `int` range. -/
def PassedIntLimit (env : Env A VC D) (e e' : Election A VC D) : Prop :=
  ∃ s, Relation.ReflTransGen (TraceStep env) e s ∧ s.AtIntLimit ∧
    Relation.ReflTransGen (TraceStep env) s e'

/-- One step as far as the current vote is concerned: the current vote stays;
or the Vote branch replaces it by a rank-0 message, which is greater in the
order of the specification when the old vote had rank -1 and is less when the
old vote had rank 0 (then the new volunteer priority number is larger); or the
LeaderLevel branch replaces it by a control result, which is not less than
the old vote and has at least its rank. -/
def VoteMove (env : Env A VC D) (s s' : Election A VC D) : Prop :=
  s'.CurrentVote = s.CurrentVote ∨
  (Rank0Adoption s s' ∧ s'.CurrentVote.Rank = 0 ∧
    ((s.CurrentVote.Rank = -1 ∧ s.CurrentVote.Less s'.CurrentVote = true) ∨
      (s.CurrentVote.Rank = 0 ∧
        s.CurrentVote.VolunteerPriority < s'.CurrentVote.VolunteerPriority ∧
        s'.CurrentVote.Less s.CurrentVote = true))) ∨
  (ControlAdoption env s s' ∧ s'.CurrentVote.Less s.CurrentVote = false ∧
    s.CurrentVote.Rank ≤ s'.CurrentVote.Rank)

/-- One step as far as `CurrentLevel` is concerned: it does not fall, and it
rises when the current vote is replaced. -/
def LevelMove (s s' : Election A VC D) : Prop :=
  s.CurrentLevel ≤ s'.CurrentLevel ∧
    (s'.CurrentVote ≠ s.CurrentVote → s.CurrentLevel < s'.CurrentLevel)

/-- The bounds on the level of the current vote: the current level is at
least 1 and above the level of the current vote, which is the initial vote or
has a level of at least 1 and at least its rank + 1. -/
def LevelBounds (s : Election A VC D) : Prop :=
  1 ≤ s.CurrentLevel ∧ s.CurrentVote.Level < s.CurrentLevel ∧
    (s.CurrentVote = initialVote ∨
      (1 ≤ s.CurrentVote.Level ∧ s.CurrentVote.Rank + 1 ≤ s.CurrentVote.Level))

/-- The current vote is the initial vote, a rank-0 message, or has the rank of
a message that a volunteer control answered. -/
def RankOrigin (env : Env A VC D) (s : Election A VC D) : Prop :=
  s.CurrentVote = initialVote ∨ s.CurrentVote.Rank = 0 ∨
    ∃ (vc : VC) (msg r : LeaderLevelMessage),
      (env.vcExecute vc msg).2.1 = some (.leaderLevel r) ∧ s.CurrentVote.Rank = r.Rank

/-- What ties the current level to the current vote in every reachable state:
the rank is between -1 and `2^63 - 1`, the level is an `int`, the current
level is the level incremented, and a vote of rank `2^63 - 1` has the level
`-2^63` that `rank + 1` overflows to. -/
def LevelTied (s : Election A VC D) : Prop :=
  -1 ≤ s.CurrentVote.Rank ∧ s.CurrentVote.Rank ≤ maxInt ∧
    -9223372036854775808 ≤ s.CurrentVote.Level ∧ s.CurrentVote.Level ≤ maxInt ∧
    s.CurrentLevel = goAdd s.CurrentVote.Level 1 ∧
    (s.CurrentVote.Rank = maxInt → s.CurrentVote.Level = -9223372036854775808)

end ElectionSteps

/-- Whether the call returned: no panic, and the budget of the model was not
exhausted. -/
def Outcome.returned : Outcome → Bool
  | .ret _ _ => true
  | _ => false

/-- The environment of `exampleEnv` with a volunteer control that answers every
message with a message of participant 0 of rank `2^63 - 2` for the same
volunteer, the level left 0. -/
def exampleLimitEnv : Env Unit Unit Unit where
  Majority := fun _ => 3
  GetVolunteerPriority := fun _ id _ => (id : Int)
  NewVolunteerControl := fun _ _ => ()
  vcExecute := fun vc msg =>
    (vc, some (.leaderLevel (NewLeaderLevelMessage 0 (maxInt - 1) 0 msg.VolunteerMessage)), true)
  displayExecute := fun d _ => d
  displayNilExecute := none

/-- An environment in which every volunteer has priority -1 and the volunteer
control answers every message with a message of rank -1 at level 1 for the
same volunteer. -/
def exampleNegativeEnv : Env Unit Unit Unit where
  Majority := fun _ => 3
  GetVolunteerPriority := fun _ _ _ => -1
  NewVolunteerControl := fun _ _ => ()
  vcExecute := fun vc msg =>
    (vc, some (.leaderLevel (NewLeaderLevelMessage 0 (-1) 1 msg.VolunteerMessage)), true)
  displayExecute := fun d _ => d
  displayNilExecute := none

/-- Participant 0, with a display and the control of `exampleControlEnv`, after
the rank-0 messages of 1, 2 and 3 for volunteer 5: the third one makes the
control answer with a rank-1 message, which the election adopts. -/
def exampleAdoptedState : Election Unit (GoMap Identity LeaderLevelMessage) Unit :=
  exampleRun exampleControlEnv exampleControlStart
    [.leaderLevel (exampleRankZero 1), .leaderLevel (exampleRankZero 2),
      .leaderLevel (exampleRankZero 3)]

/-- An entry with version 0, the zero chain id, one external id of 65535 zero
bytes and no content. -/
def exampleLongIdEntry : Entry := { NewEntry with ExtIDs := [List.replicate 65535 0] }

end Factomd

/-! ## Theorems: the commit codec -/

namespace Factomd

theorem goCopy_length (dst src : List Byte) : (goCopy dst src).length = dst.length := by
  simp only [goCopy, List.length_append, List.length_take, List.length_drop]
  omega

theorem Buffer.ReadByte_cons (x : Byte) (rest : List Byte) (n : Bool) :
    Buffer.ReadByte ⟨x :: rest, n⟩ = (⟨rest, n⟩, .ok x) := rfl

theorem Buffer.Next_append (a rest : List Byte) (k : Nat) (h : a.length = k) :
    Buffer.Next ⟨a ++ rest, false⟩ k = (⟨rest, false⟩, some a) := by
  subst h
  simp [Buffer.Next]

theorem goCopy_full (dst src : List Byte) (h : src.length = dst.length) : goCopy dst src = src := by
  simp [goCopy, ← h]

theorem ByteArr.copyFrom_full {n : Nat} (a b : ByteArr n) : a.copyFrom b.val = b := by
  apply Subtype.ext
  exact goCopy_full _ _ (by rw [a.property, b.property])

theorem Buffer.Read_append (a rest p : List Byte) (ha : a.length = 32) (hp : p.length = 32) :
    Buffer.Read ⟨a ++ rest, false⟩ p = (⟨rest, false⟩, a, 32, none) := by
  have hne : a ≠ [] := by
    intro h
    simp [h] at ha
  have hd : List.drop 32 (a ++ rest) = rest := by
    rw [← ha]
    exact List.drop_left _ _
  have hc : goCopy p (a ++ rest) = a := by
    simp only [goCopy, hp, List.length_append, ha]
    rw [List.drop_eq_nil_of_le (by omega), List.append_nil, ← ha]
    exact List.take_left _ _
  simp [Buffer.Read, hne, hp, ha, hd, hc]

theorem unmarshal_layout (v cr : Byte) (mt : ByteArr 6) (h1 h2 h3 : List Byte)
    (pk : ByteArr 32) (sg : ByteArr 64) (rest : List Byte)
    (l1 : h1.length = 32) (l2 : h2.length = 32) (l3 : h3.length = 32) :
    NewCommitChain.UnmarshalBinaryData
        (v :: (mt.val ++ (h1 ++ (h2 ++ (h3 ++ cr :: (pk.val ++ (sg.val ++ rest)))))))
      = ⟨⟨v, some mt, some ⟨h1⟩, some ⟨h2⟩, some ⟨h3⟩, cr, some pk, some sg⟩, rest, none⟩ := by
  simp [CommitChain.UnmarshalBinaryData, Buffer.new, Buffer.ReadByte_cons, Buffer.Len,
    Buffer.Next_append _ _ 6 mt.property, Buffer.Read_append _ _ _ l1, Buffer.Read_append _ _ _ l2,
    Buffer.Read_append _ _ _ l3, Buffer.Next_append _ _ 32 pk.property,
    Buffer.Next_append _ _ 64 sg.property, NewCommitChain, NewZeroHash, IHash.SetBytes,
    l1, l2, l3, mt.property, pk.property, sg.property, ByteArr.copyFrom_full]

theorem Buffer.Read_ok {b b1 : Buffer} {p p1 : List Byte} {n : Nat} (hp : p.length = 32)
    (h : b.Read p = (b1, p1, n, none)) :
    b1.unread = b.unread.drop 32 ∧ b1.isNil = b.isNil ∧ p1.length = 32 := by
  unfold Buffer.Read at h
  split at h
  · split at h
    · omega
    · simp at h
  · simp only [Prod.mk.injEq] at h
    obtain ⟨hb, hq, -, -⟩ := h
    subst hb hq
    refine ⟨?_, rfl, ?_⟩
    · simp only [hp]
      by_cases h32 : 32 ≤ b.unread.length
      · rw [Nat.min_eq_left h32]
      · rw [Nat.min_eq_right (by omega), List.drop_eq_nil_of_le (le_refl _),
          List.drop_eq_nil_of_le (by omega)]
    · rw [goCopy_length, hp]

theorem Buffer.ReadByte_ok {b b1 : Buffer} {x : Byte} (h : b.ReadByte = (b1, .ok x)) :
    b.unread = x :: b1.unread ∧ b1.isNil = b.isNil := by
  unfold Buffer.ReadByte at h
  split at h
  · simp at h
  · rename_i y rest hy
    simp only [Prod.mk.injEq, Except.ok.injEq] at h
    obtain ⟨hb, hx⟩ := h
    subst hb hx
    exact ⟨hy, rfl⟩

theorem err_none_length (c : CommitChain) (b : List Byte)
    (h : (c.UnmarshalBinaryData b).err = none) : 200 ≤ b.length := by
  unfold CommitChain.UnmarshalBinaryData at h
  simp only [] at h
  split at h
  · simp at h
  rename_i buf0 v hv
  split at h
  · simp at h
  rename_i hlen6
  simp only [Buffer.Next] at h
  split at h
  · simp at h
  rename_i buf1 p1 hp1
  split at h
  · simp at h
  split at h
  · simp at h
  rename_i bufA hashA nA hA
  split at h
  · simp at h
  split at h
  · simp at h
  split at h
  · simp at h
  rename_i bufB hashB nB hB
  split at h
  · simp at h
  split at h
  · simp at h
  split at h
  · simp at h
  rename_i bufC hashC nC hC
  split at h
  · simp at h
  split at h
  · simp at h
  split at h
  · simp at h
  rename_i bufD cr hD
  split at h
  · simp at h
  rename_i hlen32
  split at h
  · simp at h
  rename_i bufE pE hE
  split at h
  · simp at h
  split at h
  · simp at h
  rename_i hlen64
  clear h
  obtain ⟨u0, -⟩ := Buffer.ReadByte_ok hv
  simp only [Prod.mk.injEq] at hp1 hE
  obtain ⟨u1, -⟩ := hp1
  obtain ⟨uA, -, lA⟩ := Buffer.Read_ok (List.length_replicate 32 0) hA
  obtain ⟨uB, -, lB⟩ := Buffer.Read_ok lA hB
  obtain ⟨uC, -, -⟩ := Buffer.Read_ok lB hC
  obtain ⟨uD, -⟩ := Buffer.ReadByte_ok hD
  obtain ⟨uE, -⟩ := hE
  have e0 := congrArg List.length u0
  have e1 := congrArg (fun z => z.unread.length) u1
  have eA := congrArg List.length uA
  have eB := congrArg List.length uB
  have eC := congrArg List.length uC
  have eD := congrArg List.length uD
  have eE := congrArg (fun z => z.unread.length) uE
  simp only [Buffer.new, Buffer.Len, List.length_drop, List.length_cons] at *
  omega

end Factomd

namespace Factomd

theorem marshalSig_layout (v cr : Byte) (mt : ByteArr 6) (h1 h2 h3 : IHash)
    (pk : Option (ByteArr 32)) (sg : Option (ByteArr 64)) :
    CommitChain.MarshalBinarySig ⟨v, some mt, some h1, some h2, some h3, cr, pk, sg⟩
      = .ok ([v] ++ mt.val ++ h1.Bytes ++ h2.Bytes ++ h3.Bytes ++ [cr], none) := by
  simp [CommitChain.MarshalBinarySig, binaryWriteUint8, deref]

theorem marshal_layout (v cr : Byte) (mt : ByteArr 6) (h1 h2 h3 : IHash)
    (pk : ByteArr 32) (sg : ByteArr 64) :
    CommitChain.MarshalBinary ⟨v, some mt, some h1, some h2, some h3, cr, some pk, some sg⟩
      = .ok ([v] ++ mt.val ++ h1.Bytes ++ h2.Bytes ++ h3.Bytes ++ [cr] ++ pk.val ++ sg.val, none) := by
  simp [CommitChain.MarshalBinary, marshalSig_layout, deref]

theorem split_prefix (n : Nat) (l : List Byte) (h : n ≤ l.length) :
    ∃ a r, l = a ++ r ∧ a.length = n :=
  ⟨l.take n, l.drop n, (List.take_append_drop n l).symm, by simp [h]⟩

end Factomd

namespace Factomd

/-- C1: a commit chain whose pointers are present and whose three hashes have 32
bytes marshals without error, and unmarshalling those bytes into a fresh
`NewCommitChain()` gives no error, an empty remainder and the same commit
(all eight fields). -/
theorem commitChain_round_trip (v cr : Byte) (mt : ByteArr 6) (h1 h2 h3 : IHash)
    (pk : ByteArr 32) (sg : ByteArr 64)
    (l1 : h1.Bytes.length = 32) (l2 : h2.Bytes.length = 32) (l3 : h3.Bytes.length = 32) :
    ∃ bs, CommitChain.MarshalBinary ⟨v, some mt, some h1, some h2, some h3, cr, some pk, some sg⟩
          = .ok (bs, none)
      ∧ NewCommitChain.UnmarshalBinaryData bs
          = ⟨⟨v, some mt, some h1, some h2, some h3, cr, some pk, some sg⟩, [], none⟩ := by
  refine ⟨_, marshal_layout v cr mt h1 h2 h3 pk sg, ?_⟩
  have h := unmarshal_layout v cr mt h1.Bytes h2.Bytes h3.Bytes pk sg [] l1 l2 l3
  simpa [IHash.Bytes] using h

theorem commitChain_round_trip_witness :
    NewZeroHash.Bytes.length = 32 ∧
    ∃ bs, CommitChain.MarshalBinary ⟨0, some (ByteArr.zero 6), some NewZeroHash, some NewZeroHash,
            some NewZeroHash, 11, some (ByteArr.zero 32), some (ByteArr.zero 64)⟩ = .ok (bs, none)
      ∧ NewCommitChain.UnmarshalBinaryData bs
          = ⟨⟨0, some (ByteArr.zero 6), some NewZeroHash, some NewZeroHash,
            some NewZeroHash, 11, some (ByteArr.zero 32), some (ByteArr.zero 64)⟩, [], none⟩ :=
  ⟨by decide, commitChain_round_trip 0 11 (ByteArr.zero 6) NewZeroHash NewZeroHash NewZeroHash
    (ByteArr.zero 32) (ByteArr.zero 64) (by decide) (by decide) (by decide)⟩

theorem unmarshal_of_length (b : List Byte) (h : 200 ≤ b.length) :
    (NewCommitChain.UnmarshalBinaryData b).err = none ∧
    (NewCommitChain.UnmarshalBinaryData b).c.MarshalBinary = .ok (b.take 200, none) ∧
    (NewCommitChain.UnmarshalBinaryData b).newData = b.drop 200 ∧
    (NewCommitChain.UnmarshalBinaryData b).c.Version :: [] = b.take 1 ∧
    (NewCommitChain.UnmarshalBinaryData b).c.Credits :: [] = (b.drop 103).take 1 := by
  obtain ⟨a0, r0, e0, n0⟩ := split_prefix 1 b (by omega)
  obtain ⟨mt, r1, e1, n1⟩ := split_prefix 6 r0 (by subst e0; simp at h; omega)
  obtain ⟨h1, r2, e2, n2⟩ := split_prefix 32 r1 (by subst e0 e1; simp at h; omega)
  obtain ⟨h2, r3, e3, n3⟩ := split_prefix 32 r2 (by subst e0 e1 e2; simp at h; omega)
  obtain ⟨h3, r4, e4, n4⟩ := split_prefix 32 r3 (by subst e0 e1 e2 e3; simp at h; omega)
  obtain ⟨a5, r5, e5, n5⟩ := split_prefix 1 r4 (by subst e0 e1 e2 e3 e4; simp at h; omega)
  obtain ⟨pk, r6, e6, n6⟩ := split_prefix 32 r5 (by subst e0 e1 e2 e3 e4 e5; simp at h; omega)
  obtain ⟨sg, rest, e7, n7⟩ := split_prefix 64 r6 (by subst e0 e1 e2 e3 e4 e5 e6; simp at h; omega)
  obtain ⟨v, rfl⟩ : ∃ v, a0 = [v] := List.length_eq_one.mp n0
  obtain ⟨cr, rfl⟩ : ∃ cr, a5 = [cr] := List.length_eq_one.mp n5
  subst e0 e1 e2 e3 e4 e5 e6 e7
  have hd := unmarshal_layout v cr ⟨mt, n1⟩ h1 h2 h3 ⟨pk, n6⟩ ⟨sg, n7⟩ rest n2 n3 n4
  simp only [List.singleton_append, List.cons_append, List.nil_append] at hd ⊢
  rw [hd]
  have hm := marshal_layout v cr ⟨mt, n1⟩ ⟨h1⟩ ⟨h2⟩ ⟨h3⟩ ⟨pk, n6⟩ ⟨sg, n7⟩
  simp only [IHash.Bytes, List.singleton_append, List.cons_append, List.nil_append,
    List.append_assoc] at hm
  have hlen : (mt ++ (h1 ++ (h2 ++ (h3 ++ cr :: (pk ++ sg))))).length = 199 := by
    simp [n1, n2, n3, n4, n6, n7]
  have hsplit : mt ++ (h1 ++ (h2 ++ (h3 ++ cr :: (pk ++ (sg ++ rest)))))
      = (mt ++ (h1 ++ (h2 ++ (h3 ++ cr :: (pk ++ sg))))) ++ rest := by simp
  have h103 : (mt ++ (h1 ++ (h2 ++ h3))).length = 102 := by simp [n1, n2, n3, n4]
  have hsplit2 : mt ++ (h1 ++ (h2 ++ (h3 ++ cr :: (pk ++ (sg ++ rest)))))
      = (mt ++ (h1 ++ (h2 ++ h3))) ++ cr :: (pk ++ (sg ++ rest)) := by simp
  refine ⟨rfl, ?_, ?_, ?_, ?_⟩
  · rw [hm, hsplit]
    simp only [List.take_succ_cons]
    rw [← hlen, List.take_left]
  · simp only [List.drop_succ_cons]
    rw [hsplit, ← hlen, List.drop_left]
  · simp
  · simp only [List.drop_succ_cons]
    rw [hsplit2, ← h103, List.drop_left]
    simp

/-- C3: on every input of fewer than 200 bytes, the empty one and those that
end inside a hash field included, `UnmarshalBinaryData` returns a non-nil error
(it returns: the model is total, a panic being recovered into the error), for
any receiver. -/
theorem unmarshal_short_error (c : CommitChain) (b : List Byte) (h : b.length < 200) :
    ∃ e, (c.UnmarshalBinaryData b).err = some e := by
  cases he : (c.UnmarshalBinaryData b).err with
  | some e => exact ⟨e, rfl⟩
  | none =>
    have := err_none_length c b he
    omega

end Factomd

namespace Factomd

set_option maxRecDepth 100000 in
theorem unmarshal_short_error_witness :
    (List.replicate 199 (0 : Byte)).length < 200 ∧
    ∃ e, (NewCommitChain.UnmarshalBinaryData (List.replicate 199 0)).err = some e :=
  ⟨by decide, unmarshal_short_error NewCommitChain (List.replicate 199 0) (by decide)⟩

/-- C2: on every byte slice, `UnmarshalBinaryData` into a fresh `NewCommitChain()`
either returns an error, or returns a commit whose `MarshalBinary` is the first
200 bytes of the input, with the remainder being the input after byte 200. -/
theorem unmarshal_consumes_200 (b : List Byte) :
    (∃ e, (NewCommitChain.UnmarshalBinaryData b).err = some e) ∨
    ((NewCommitChain.UnmarshalBinaryData b).err = none ∧
     (NewCommitChain.UnmarshalBinaryData b).c.MarshalBinary = .ok (b.take 200, none) ∧
     (b.take 200).length = 200 ∧
     (NewCommitChain.UnmarshalBinaryData b).newData = b.drop 200) := by
  cases he : (NewCommitChain.UnmarshalBinaryData b).err with
  | some e => exact Or.inl ⟨e, rfl⟩
  | none =>
    have hl := err_none_length NewCommitChain b he
    obtain ⟨-, hm, hr, -, -⟩ := unmarshal_of_length b hl
    exact Or.inr ⟨rfl, hm, by simp [hl], hr⟩

theorem getElem?_of_drop_take (l : List Byte) (n : Nat) (x : Byte)
    (h : x :: [] = (l.drop n).take 1) : l[n]? = some x := by
  have h0 : ((l.drop n).take 1)[0]? = some x := by rw [← h]; rfl
  simpa [List.getElem?_take, List.getElem?_drop] using h0

/-- C4 (as the code behaves): the decoder has no range check.  On every
200-byte input it returns no error and stores byte 0 in `Version` and byte 103
in `Credits`, whatever their values; a version other than 0 or credits below
10 are rejected by `IsValid` of the decoded commit instead. -/
theorem unmarshal_no_range_check
    (verifyCanonical : ByteArr 32 → List Byte → ByteArr 64 → Bool)
    (b : List Byte) (h : b.length = 200) :
    (NewCommitChain.UnmarshalBinaryData b).err = none ∧
    b[0]? = some (NewCommitChain.UnmarshalBinaryData b).c.Version ∧
    b[103]? = some (NewCommitChain.UnmarshalBinaryData b).c.Credits ∧
    ((NewCommitChain.UnmarshalBinaryData b).c.Version ≠ 0 ∨
      (NewCommitChain.UnmarshalBinaryData b).c.Credits < 10 →
      (NewCommitChain.UnmarshalBinaryData b).c.IsValid verifyCanonical = .ok false) := by
  obtain ⟨he, -, -, hv, hc⟩ := unmarshal_of_length b (by omega)
  refine ⟨he, ?_, getElem?_of_drop_take b 103 _ hc, ?_⟩
  · exact getElem?_of_drop_take b 0 _ (by simpa using hv)
  · intro hbad
    unfold CommitChain.IsValid
    rw [if_pos]
    rcases hbad with hbad | hbad
    · exact Or.inr hbad
    · exact Or.inl hbad

set_option maxRecDepth 100000 in
theorem unmarshal_no_range_check_witness :
    (1 :: List.replicate 199 (0 : Byte)).length = 200 ∧
    (NewCommitChain.UnmarshalBinaryData (1 :: List.replicate 199 0)).err = none ∧
    (1 :: List.replicate 199 (0 : Byte))[0]?
      = some (NewCommitChain.UnmarshalBinaryData (1 :: List.replicate 199 0)).c.Version ∧
    (1 :: List.replicate 199 (0 : Byte))[103]?
      = some (NewCommitChain.UnmarshalBinaryData (1 :: List.replicate 199 0)).c.Credits ∧
    ((NewCommitChain.UnmarshalBinaryData (1 :: List.replicate 199 0)).c.Version ≠ 0 ∨
      (NewCommitChain.UnmarshalBinaryData (1 :: List.replicate 199 0)).c.Credits < 10 →
      (NewCommitChain.UnmarshalBinaryData (1 :: List.replicate 199 0)).c.IsValid
        (fun _ _ _ => true) = .ok false) :=
  ⟨by decide, unmarshal_no_range_check (fun _ _ _ => true) (1 :: List.replicate 199 0) (by decide)⟩

set_option maxRecDepth 100000 in
/-- C4 (the claim as stated fails): a 200-byte input with version byte 1, and
the all-zero 200-byte input (credits byte 0), are both decoded without error. -/
theorem unmarshal_range_counterexample :
    (1 :: List.replicate 199 (0 : Byte)).length = 200 ∧
    (1 :: List.replicate 199 (0 : Byte))[0]? = some 1 ∧
    (NewCommitChain.UnmarshalBinaryData (1 :: List.replicate 199 0)).err = none ∧
    (NewCommitChain.UnmarshalBinaryData (1 :: List.replicate 199 0)).c.Version = 1 ∧
    (List.replicate 200 (0 : Byte)).length = 200 ∧
    (List.replicate 200 (0 : Byte))[103]? = some 0 ∧
    (NewCommitChain.UnmarshalBinaryData (List.replicate 200 0)).err = none ∧
    (NewCommitChain.UnmarshalBinaryData (List.replicate 200 0)).c.Credits = 0 := by
  decide

end Factomd

namespace Factomd

theorem drop_take_mid (a m r : List Byte) (n k : Nat) (ha : a.length = n) (hm : m.length = k) :
    ((a ++ (m ++ r)).drop n).take k = m := by
  subst ha hm
  rw [List.drop_left, List.take_left]

/-- C5: the marshalled commit chain is the concatenation version, milli-time,
chain-id hash, weld, entry hash, credits, public key, signature; with 32-byte
hashes it has exactly 200 bytes (`CommitChainSize`, `MarshalledSize`), the
fields standing at offsets 0, 1, 7, 39, 71, 103, 104 and 136. -/
theorem marshal_wire_layout (v cr : Byte) (mt : ByteArr 6) (h1 h2 h3 : IHash)
    (pk : ByteArr 32) (sg : ByteArr 64)
    (l1 : h1.Bytes.length = 32) (l2 : h2.Bytes.length = 32) (l3 : h3.Bytes.length = 32) :
    ∃ bs, CommitChain.MarshalBinary ⟨v, some mt, some h1, some h2, some h3, cr, some pk, some sg⟩
          = .ok (bs, none)
      ∧ bs = [v] ++ mt.val ++ h1.Bytes ++ h2.Bytes ++ h3.Bytes ++ [cr] ++ pk.val ++ sg.val
      ∧ bs.length = 200 ∧ bs.length = CommitChainSize
      ∧ bs.length = CommitChain.MarshalledSize
          ⟨v, some mt, some h1, some h2, some h3, cr, some pk, some sg⟩
      ∧ bs.take 1 = [v]
      ∧ (bs.drop 1).take 6 = mt.val
      ∧ (bs.drop 7).take 32 = h1.Bytes
      ∧ (bs.drop 39).take 32 = h2.Bytes
      ∧ (bs.drop 71).take 32 = h3.Bytes
      ∧ (bs.drop 103).take 1 = [cr]
      ∧ (bs.drop 104).take 32 = pk.val
      ∧ bs.drop 136 = sg.val := by
  refine ⟨_, marshal_layout v cr mt h1 h2 h3 pk sg, rfl, ?_⟩
  have lm := mt.property
  have lp := pk.property
  have ls := sg.property
  have hlen : ([v] ++ mt.val ++ h1.Bytes ++ h2.Bytes ++ h3.Bytes ++ [cr] ++ pk.val ++ sg.val).length
      = 200 := by
    simp only [List.length_append, List.length_singleton, lm, l1, l2, l3, lp, ls]
  refine ⟨hlen, hlen, hlen, ?_, ?_, ?_, ?_, ?_, ?_, ?_, ?_⟩
  · simp
  · have := drop_take_mid [v] mt.val (h1.Bytes ++ h2.Bytes ++ h3.Bytes ++ [cr] ++ pk.val ++ sg.val)
      1 6 rfl lm
    simp only [List.append_assoc] at this ⊢
    exact this
  · have := drop_take_mid ([v] ++ mt.val) h1.Bytes (h2.Bytes ++ h3.Bytes ++ [cr] ++ pk.val ++ sg.val)
      7 32 (by simp [lm]) l1
    simpa [List.append_assoc] using this
  · have := drop_take_mid ([v] ++ mt.val ++ h1.Bytes) h2.Bytes (h3.Bytes ++ [cr] ++ pk.val ++ sg.val)
      39 32 (by simp [lm, l1]) l2
    simpa [List.append_assoc] using this
  · have := drop_take_mid ([v] ++ mt.val ++ h1.Bytes ++ h2.Bytes) h3.Bytes ([cr] ++ pk.val ++ sg.val)
      71 32 (by simp [lm, l1, l2]) l3
    simpa [List.append_assoc] using this
  · have := drop_take_mid ([v] ++ mt.val ++ h1.Bytes ++ h2.Bytes ++ h3.Bytes) [cr] (pk.val ++ sg.val)
      103 1 (by simp [lm, l1, l2, l3]) rfl
    simpa [List.append_assoc] using this
  · have := drop_take_mid ([v] ++ mt.val ++ h1.Bytes ++ h2.Bytes ++ h3.Bytes ++ [cr]) pk.val sg.val
      104 32 (by simp [lm, l1, l2, l3]) lp
    simpa [List.append_assoc] using this
  · have := drop_take_mid ([v] ++ mt.val ++ h1.Bytes ++ h2.Bytes ++ h3.Bytes ++ [cr] ++ pk.val)
      sg.val [] 136 64 (by simp [lm, l1, l2, l3, lp]) ls
    rw [List.append_nil, List.take_of_length_le] at this
    · simpa [List.append_assoc] using this
    · rw [List.length_drop]
      simp only [List.length_append, List.length_singleton, lm, l1, l2, l3, lp, ls]
      omega

end Factomd

namespace Factomd

theorem marshal_wire_layout_witness :
    NewZeroHash.Bytes.length = 32 ∧
    ∃ bs, CommitChain.MarshalBinary ⟨0, some (ByteArr.zero 6), some NewZeroHash, some NewZeroHash,
            some NewZeroHash, 11, some (ByteArr.zero 32), some (ByteArr.zero 64)⟩ = .ok (bs, none)
      ∧ bs = [0] ++ (ByteArr.zero 6).val ++ NewZeroHash.Bytes ++ NewZeroHash.Bytes
              ++ NewZeroHash.Bytes ++ [11] ++ (ByteArr.zero 32).val ++ (ByteArr.zero 64).val
      ∧ bs.length = 200 ∧ bs.length = CommitChainSize
      ∧ bs.length = CommitChain.MarshalledSize ⟨0, some (ByteArr.zero 6), some NewZeroHash,
            some NewZeroHash, some NewZeroHash, 11, some (ByteArr.zero 32), some (ByteArr.zero 64)⟩
      ∧ bs.take 1 = [0]
      ∧ (bs.drop 1).take 6 = (ByteArr.zero 6).val
      ∧ (bs.drop 7).take 32 = NewZeroHash.Bytes
      ∧ (bs.drop 39).take 32 = NewZeroHash.Bytes
      ∧ (bs.drop 71).take 32 = NewZeroHash.Bytes
      ∧ (bs.drop 103).take 1 = [11]
      ∧ (bs.drop 104).take 32 = (ByteArr.zero 32).val
      ∧ bs.drop 136 = (ByteArr.zero 64).val :=
  ⟨by decide, marshal_wire_layout 0 11 (ByteArr.zero 6) NewZeroHash NewZeroHash NewZeroHash
    (ByteArr.zero 32) (ByteArr.zero 64) (by decide) (by decide) (by decide)⟩

theorem commitMsg_eq (v cr : Byte) (mt : ByteArr 6) (h1 h2 h3 : IHash)
    (pk : ByteArr 32) (sg : ByteArr 64) :
    CommitChain.CommitMsg ⟨v, some mt, some h1, some h2, some h3, cr, some pk, some sg⟩
      = .ok ([v] ++ mt.val ++ h1.Bytes ++ h2.Bytes ++ h3.Bytes ++ [cr]) := by
  have lp := pk.property
  have ls := sg.property
  unfold CommitChain.CommitMsg
  rw [marshal_layout]
  have hlt : ¬ ([v] ++ mt.val ++ h1.Bytes ++ h2.Bytes ++ h3.Bytes ++ [cr] ++ pk.val ++ sg.val).length
      < 64 + 32 := by
    simp only [List.length_append, lp, ls]
    omega
  simp only [hlt, if_false]
  have hk : ([v] ++ mt.val ++ h1.Bytes ++ h2.Bytes ++ h3.Bytes ++ [cr] ++ pk.val ++ sg.val).length
      - 64 - 32 = ([v] ++ mt.val ++ h1.Bytes ++ h2.Bytes ++ h3.Bytes ++ [cr]).length := by
    simp only [List.length_append, lp, ls]
    omega
  rw [hk, List.append_assoc _ pk.val sg.val, List.take_left]

/-- C6: the signed region.  With 32-byte hashes `CommitMsg` is `MarshalBinary`
without its last 96 bytes, has 104 bytes, equals `MarshalBinarySig`, and
`MarshalBinary` is `CommitMsg ++ ECPubKey ++ Sig`; a commit that differs only
in public key and signature has the same `CommitMsg` and `GetSigHash`. -/
theorem commitMsg_signed_region (Sha : List Byte → IHash)
    (v cr : Byte) (mt : ByteArr 6) (h1 h2 h3 : IHash)
    (pk pk2 : ByteArr 32) (sg sg2 : ByteArr 64)
    (l1 : h1.Bytes.length = 32) (l2 : h2.Bytes.length = 32) (l3 : h3.Bytes.length = 32) :
    ∃ msg bs,
      CommitChain.CommitMsg ⟨v, some mt, some h1, some h2, some h3, cr, some pk, some sg⟩ = .ok msg
      ∧ CommitChain.MarshalBinary ⟨v, some mt, some h1, some h2, some h3, cr, some pk, some sg⟩
          = .ok (bs, none)
      ∧ msg = bs.take (bs.length - 96)
      ∧ msg.length = 104
      ∧ CommitChain.MarshalBinarySig ⟨v, some mt, some h1, some h2, some h3, cr, some pk, some sg⟩
          = .ok (msg, none)
      ∧ bs = msg ++ pk.val ++ sg.val
      ∧ CommitChain.CommitMsg ⟨v, some mt, some h1, some h2, some h3, cr, some pk2, some sg2⟩
          = .ok msg
      ∧ CommitChain.GetSigHash Sha ⟨v, some mt, some h1, some h2, some h3, cr, some pk2, some sg2⟩
          = CommitChain.GetSigHash Sha ⟨v, some mt, some h1, some h2, some h3, cr, some pk, some sg⟩
      ∧ CommitChain.GetSigHash Sha ⟨v, some mt, some h1, some h2, some h3, cr, some pk, some sg⟩
          = .ok (Sha msg) := by
  have lm := mt.property
  have lp := pk.property
  have ls := sg.property
  refine ⟨_, _, commitMsg_eq v cr mt h1 h2 h3 pk sg, marshal_layout v cr mt h1 h2 h3 pk sg,
    ?_, ?_, marshalSig_layout v cr mt h1 h2 h3 _ _, rfl, commitMsg_eq v cr mt h1 h2 h3 pk2 sg2,
    ?_, ?_⟩
  · have hk : ([v] ++ mt.val ++ h1.Bytes ++ h2.Bytes ++ h3.Bytes ++ [cr] ++ pk.val ++ sg.val).length
        - 96 = ([v] ++ mt.val ++ h1.Bytes ++ h2.Bytes ++ h3.Bytes ++ [cr]).length := by
      simp only [List.length_append, lp, ls]
      omega
    rw [hk, List.append_assoc _ pk.val sg.val, List.take_left]
  · simp only [List.length_append, List.length_singleton, lm, l1, l2, l3]
  · simp only [CommitChain.GetSigHash, commitMsg_eq]
  · simp only [CommitChain.GetSigHash, commitMsg_eq]

theorem commitMsg_signed_region_witness :
    NewZeroHash.Bytes.length = 32 ∧
    ∃ msg bs,
      CommitChain.CommitMsg ⟨0, some (ByteArr.zero 6), some NewZeroHash, some NewZeroHash,
            some NewZeroHash, 11, some (ByteArr.zero 32), some (ByteArr.zero 64)⟩ = .ok msg
      ∧ CommitChain.MarshalBinary ⟨0, some (ByteArr.zero 6), some NewZeroHash, some NewZeroHash,
            some NewZeroHash, 11, some (ByteArr.zero 32), some (ByteArr.zero 64)⟩ = .ok (bs, none)
      ∧ msg = bs.take (bs.length - 96)
      ∧ msg.length = 104
      ∧ CommitChain.MarshalBinarySig ⟨0, some (ByteArr.zero 6), some NewZeroHash, some NewZeroHash,
            some NewZeroHash, 11, some (ByteArr.zero 32), some (ByteArr.zero 64)⟩ = .ok (msg, none)
      ∧ bs = msg ++ (ByteArr.zero 32).val ++ (ByteArr.zero 64).val
      ∧ CommitChain.CommitMsg ⟨0, some (ByteArr.zero 6), some NewZeroHash, some NewZeroHash,
            some NewZeroHash, 11, some ⟨List.replicate 32 7, rfl⟩, some ⟨List.replicate 64 9, rfl⟩⟩
          = .ok msg
      ∧ CommitChain.GetSigHash (fun x => ⟨x.take 32⟩) ⟨0, some (ByteArr.zero 6), some NewZeroHash,
            some NewZeroHash, some NewZeroHash, 11, some ⟨List.replicate 32 7, rfl⟩,
            some ⟨List.replicate 64 9, rfl⟩⟩
          = CommitChain.GetSigHash (fun x => ⟨x.take 32⟩) ⟨0, some (ByteArr.zero 6),
            some NewZeroHash, some NewZeroHash, some NewZeroHash, 11, some (ByteArr.zero 32),
            some (ByteArr.zero 64)⟩
      ∧ CommitChain.GetSigHash (fun x => ⟨x.take 32⟩) ⟨0, some (ByteArr.zero 6), some NewZeroHash,
            some NewZeroHash, some NewZeroHash, 11, some (ByteArr.zero 32), some (ByteArr.zero 64)⟩
          = .ok (⟨msg.take 32⟩ : IHash) :=
  ⟨by decide, commitMsg_signed_region (fun x => ⟨x.take 32⟩) 0 11 (ByteArr.zero 6) NewZeroHash
    NewZeroHash NewZeroHash (ByteArr.zero 32) ⟨List.replicate 32 7, rfl⟩ (ByteArr.zero 64)
    ⟨List.replicate 64 9, rfl⟩ (by decide) (by decide) (by decide)⟩

end Factomd

namespace Factomd

/-- C7: `IsValid` is true exactly when the version is 0, the credits are at
least 10 and canonical Ed25519 verification (an abstract predicate) of the
signature over `CommitMsg` under the public key succeeds; with credits below
10 or a version other than 0 it is false whatever the signature. -/
theorem isValid_iff (verifyCanonical : ByteArr 32 → List Byte → ByteArr 64 → Bool)
    (c : CommitChain) :
    (c.IsValid verifyCanonical = .ok true ↔
      c.Version = 0 ∧ 10 ≤ c.Credits ∧
        ∃ pk sg msg, c.ECPubKey = some pk ∧ c.Sig = some sg ∧ c.CommitMsg = .ok msg ∧
          verifyCanonical pk msg sg = true) ∧
    (c.Credits < 10 ∨ c.Version ≠ 0 → c.IsValid verifyCanonical = .ok false) := by
  constructor
  · unfold CommitChain.IsValid
    by_cases hbad : c.Credits < 10 ∨ c.Version ≠ 0
    · rw [if_pos hbad]
      constructor
      · intro h
        simp at h
      · rintro ⟨hv, hc, -⟩
        rcases hbad with hbad | hbad
        · exact absurd hc (not_le.mpr hbad)
        · exact absurd hv hbad
    · rw [if_neg hbad]
      have hv : c.Version = 0 := by
        by_contra hne
        exact hbad (Or.inr hne)
      have hc : 10 ≤ c.Credits := by
        by_contra hlt
        exact hbad (Or.inl (not_le.mp hlt))
      cases hm : c.CommitMsg with
      | error p =>
        constructor
        · intro h
          simp at h
        · rintro ⟨-, -, pk, sg, msg, -, -, hmsg, -⟩
          simp at hmsg
      | ok msg =>
        cases hp : c.ECPubKey with
        | none => simp [deref]
        | some pk =>
          cases hs : c.Sig with
          | none => simp [deref]
          | some sg => simp [deref, hv, hc]
  · intro hbad
    unfold CommitChain.IsValid
    rw [if_pos hbad]

theorem isValid_iff_witness :
    CommitChain.IsValid (fun _ _ _ => true) ⟨0, some (ByteArr.zero 6), some NewZeroHash,
      some NewZeroHash, some NewZeroHash, 9, some (ByteArr.zero 32), some (ByteArr.zero 64)⟩
      = .ok false :=
  (isValid_iff (fun _ _ _ => true) ⟨0, some (ByteArr.zero 6), some NewZeroHash,
      some NewZeroHash, some NewZeroHash, 9, some (ByteArr.zero 32), some (ByteArr.zero 64)⟩).2
    (Or.inl (by decide))

/-- C8: `GetMilliTime` of a commit with milli-time bytes `b0 .. b5` is the
big-endian value `b0*2^40 + b1*2^32 + b2*2^24 + b3*2^16 + b4*2^8 + b5`, which
lies in `[0, 2^48)` and so is not negative as a signed 64-bit integer. -/
theorem getMilliTime_value (c : CommitChain) (b0 b1 b2 b3 b4 b5 : Byte) :
    ∃ t : Int,
      CommitChain.GetMilliTime { c with MilliTime := some ⟨[b0, b1, b2, b3, b4, b5], rfl⟩ } = .ok t
      ∧ t = ((b0.val * 2 ^ 40 + b1.val * 2 ^ 32 + b2.val * 2 ^ 24 + b3.val * 2 ^ 16
              + b4.val * 2 ^ 8 + b5.val : Nat) : Int)
      ∧ 0 ≤ t ∧ t < 2 ^ 48 := by
  have i0 := b0.isLt
  have i1 := b1.isLt
  have i2 := b2.isLt
  have i3 := b3.isLt
  have i4 := b4.isLt
  have i5 := b5.isLt
  have hval : (([0, 0, b0, b1, b2, b3, b4, b5] : List Byte).take 8).foldl
      (fun acc x => acc * 256 + x.val) 0
      = b0.val * 2 ^ 40 + b1.val * 2 ^ 32 + b2.val * 2 ^ 24 + b3.val * 2 ^ 16
          + b4.val * 2 ^ 8 + b5.val := by
    simp only [List.take, List.foldl]
    simp only [Fin.val_zero]
    ring
  have hlt : b0.val * 2 ^ 40 + b1.val * 2 ^ 32 + b2.val * 2 ^ 24 + b3.val * 2 ^ 16
      + b4.val * 2 ^ 8 + b5.val < 2 ^ 48 := by omega
  refine ⟨_, ?_, rfl, Int.natCast_nonneg _, ?_⟩
  · simp only [CommitChain.GetMilliTime, deref, bigEndianUint64, List.replicate,
      List.cons_append, List.nil_append, List.length_cons, List.length_nil]
    rw [if_neg (by omega)]
    simp only [hval, toInt64]
    rw [if_pos (by omega), Nat.mod_eq_of_lt (by omega)]
  · exact_mod_cast hlt

end Factomd

/-! ## Theorems: the election -/

namespace Factomd

section ElectionTheorems

variable {A VC D : Type}

theorem executeWith_committed (env : Env A VC D)
    (Exec : Election A VC D → IMessage → Election A VC D × Outcome)
    (e : Election A VC D) (m : IMessage) (h : e.Committed = true) :
    Election.executeWith env Exec e m
      = (Election.executeDisplay env { e with TotalMessages := e.TotalMessages + 1 } m,
          .ret none false) := by
  have hc : (Election.executeDisplay env { e with TotalMessages := e.TotalMessages + 1 } m).Committed
      = true := by
    unfold Election.executeDisplay
    cases hd : e.Display <;> simp [h]
  unfold Election.executeWith
  simp only [hc, if_true]

theorem execute_committed (env : Env A VC D) (fuel : Nat) (e : Election A VC D) (m : IMessage)
    (h : e.Committed = true) :
    Election.execute env fuel e m
      = (Election.executeDisplay env { e with TotalMessages := e.TotalMessages + 1 } m,
          .ret none false) := by
  cases fuel with
  | zero => exact executeWith_committed env _ e m h
  | succ n => exact executeWith_committed env _ e m h

/-- C9: committed is terminal.  In a state with `Committed = true`, `execute`
of any message, whatever the budget, returns `(nil, false)`, and `Committed`,
`CurrentVote`, `CurrentLevel`, `CommitmentTally`, `VolunteerVotes`,
`VolunteerControls` and `MsgListIn` are as before. -/
theorem committed_terminal (env : Env A VC D) (fuel : Nat) (e : Election A VC D) (m : IMessage)
    (h : e.Committed = true) :
    (Election.execute env fuel e m).2 = .ret none false ∧
    (Election.execute env fuel e m).1.Committed = true ∧
    (Election.execute env fuel e m).1.CurrentVote = e.CurrentVote ∧
    (Election.execute env fuel e m).1.CurrentLevel = e.CurrentLevel ∧
    (Election.execute env fuel e m).1.CommitmentTally = e.CommitmentTally ∧
    (Election.execute env fuel e m).1.VolunteerVotes = e.VolunteerVotes ∧
    (Election.execute env fuel e m).1.VolunteerControls = e.VolunteerControls ∧
    (Election.execute env fuel e m).1.MsgListIn = e.MsgListIn := by
  rw [execute_committed env fuel e m h]
  unfold Election.executeDisplay
  cases hd : e.Display <;> simp [h]

end ElectionTheorems

theorem committed_terminal_witness :
    ({ (NewElection 0 () ⟨0, 0, 0⟩ : Election Unit Unit Unit) with Committed := true }).Committed
      = true ∧
    (Election.execute exampleEnv 5
      { (NewElection 0 () ⟨0, 0, 0⟩ : Election Unit Unit Unit) with Committed := true }
      (.leaderLevel exampleLevelZero)).2 = .ret none false :=
  ⟨rfl, (committed_terminal exampleEnv 5
      { (NewElection 0 () ⟨0, 0, 0⟩ : Election Unit Unit Unit) with Committed := true }
      (.leaderLevel exampleLevelZero) rfl).1⟩

end Factomd

namespace Factomd

section BadLevel

variable {A VC D : Type}

theorem executeDisplay_fields (env : Env A VC D) (e : Election A VC D) (m : IMessage) :
    (e.executeDisplay env m).Committed = e.Committed ∧
    (e.executeDisplay env m).CurrentVote = e.CurrentVote ∧
    (e.executeDisplay env m).CurrentLevel = e.CurrentLevel ∧
    (e.executeDisplay env m).CommitmentTally = e.CommitmentTally ∧
    (e.executeDisplay env m).VolunteerVotes = e.VolunteerVotes ∧
    (e.executeDisplay env m).VolunteerControls = e.VolunteerControls ∧
    (e.executeDisplay env m).MsgListIn = e.MsgListIn ∧
    (e.executeDisplay env m).MsgListOut = e.MsgListOut ∧
    (e.executeDisplay env m).TotalMessages = e.TotalMessages := by
  unfold Election.executeDisplay
  cases e.Display <;> simp

theorem executeLeaderLevelMessage_bad_level (env : Env A VC D)
    (Exec : Election A VC D → IMessage → Election A VC D × Outcome)
    (e : Election A VC D) (msg : LeaderLevelMessage) (hl : msg.Level ≤ 0) :
    (e.executeLeaderLevelMessage env Exec msg).2 = .panic "level <= 0 should never happen" ∧
    (e.executeLeaderLevelMessage env Exec msg).1.MsgListIn = e.MsgListIn ++ [msg] ∧
    (e.executeLeaderLevelMessage env Exec msg).1.Committed = e.Committed ∧
    (e.executeLeaderLevelMessage env Exec msg).1.CurrentVote = e.CurrentVote ∧
    (e.executeLeaderLevelMessage env Exec msg).1.CurrentLevel = e.CurrentLevel ∧
    (e.executeLeaderLevelMessage env Exec msg).1.CommitmentTally = e.CommitmentTally ∧
    (e.executeLeaderLevelMessage env Exec msg).1.VolunteerVotes = e.VolunteerVotes ∧
    (e.executeLeaderLevelMessage env Exec msg).1.MsgListOut = e.MsgListOut := by
  unfold Election.executeLeaderLevelMessage
  simp only [hl, if_true]
  cases e.VolunteerControls.get? msg.VolunteerMessage.Signer <;> simp

theorem executeWith_bad_level (env : Env A VC D)
    (Exec : Election A VC D → IMessage → Election A VC D × Outcome)
    (e : Election A VC D) (msg : LeaderLevelMessage)
    (hc : e.Committed = false) (hl : msg.Level ≤ 0) :
    (Election.executeWith env Exec e (.leaderLevel msg)).2
      = .panic "level <= 0 should never happen" ∧
    (Election.executeWith env Exec e (.leaderLevel msg)).1.MsgListIn = e.MsgListIn ++ [msg] ∧
    (Election.executeWith env Exec e (.leaderLevel msg)).1.Committed = false ∧
    (Election.executeWith env Exec e (.leaderLevel msg)).1.CurrentVote = e.CurrentVote ∧
    (Election.executeWith env Exec e (.leaderLevel msg)).1.CurrentLevel = e.CurrentLevel ∧
    (Election.executeWith env Exec e (.leaderLevel msg)).1.CommitmentTally = e.CommitmentTally ∧
    (Election.executeWith env Exec e (.leaderLevel msg)).1.VolunteerVotes = e.VolunteerVotes ∧
    (Election.executeWith env Exec e (.leaderLevel msg)).1.MsgListOut = e.MsgListOut := by
  obtain ⟨d1, d2, d3, d4, d5, -, d7, d8, -⟩ :=
    executeDisplay_fields env { e with TotalMessages := e.TotalMessages + 1 } (.leaderLevel msg)
  have hnc : (Election.executeDisplay env { e with TotalMessages := e.TotalMessages + 1 }
      (.leaderLevel msg)).Committed = false := by rw [d1]; exact hc
  obtain ⟨p1, p2, p3, p4, p5, p6, p7, p8⟩ := executeLeaderLevelMessage_bad_level env Exec
    (Election.executeDisplay env { e with TotalMessages := e.TotalMessages + 1 }
      (.leaderLevel msg)) msg hl
  unfold Election.executeWith
  simp only [hnc, Bool.false_eq_true, if_false]
  refine ⟨p1, ?_, ?_, ?_, ?_, ?_, ?_, ?_⟩
  · rw [p2, d7]
  · rw [p3, hnc]
  · rw [p4, d2]
  · rw [p5, d3]
  · rw [p6, d4]
  · rw [p7, d5]
  · rw [p8, d8]

end BadLevel

end Factomd

namespace Factomd

/-- C10 (as the code behaves): in a non-committed election a `LeaderLevelMessage`
with `Level <= 0` makes `Execute` (and `execute`) abort with the panic
"level <= 0 should never happen", whatever the budget; at the abort
`CurrentVote`, `CurrentLevel`, `CommitmentTally`, `Committed`, `VolunteerVotes`
and `MsgListOut` are as before the call. -/
theorem bad_level_panics {A VC D : Type} (env : Env A VC D) (fuel : Nat) (e : Election A VC D)
    (msg : LeaderLevelMessage) (hc : e.Committed = false) (hl : msg.Level ≤ 0) :
    (Election.Execute env fuel e (.leaderLevel msg)).2
      = .panic "level <= 0 should never happen" ∧
    (Election.execute env fuel e (.leaderLevel msg)).2
      = .panic "level <= 0 should never happen" ∧
    (Election.Execute env fuel e (.leaderLevel msg)).1.CurrentVote = e.CurrentVote ∧
    (Election.Execute env fuel e (.leaderLevel msg)).1.CurrentLevel = e.CurrentLevel ∧
    (Election.Execute env fuel e (.leaderLevel msg)).1.CommitmentTally = e.CommitmentTally ∧
    (Election.Execute env fuel e (.leaderLevel msg)).1.Committed = false ∧
    (Election.Execute env fuel e (.leaderLevel msg)).1.VolunteerVotes = e.VolunteerVotes ∧
    (Election.Execute env fuel e (.leaderLevel msg)).1.MsgListOut = e.MsgListOut := by
  have key : ∀ Exec : Election A VC D → IMessage → Election A VC D × Outcome,
      (Election.ExecuteWith (Election.executeWith env Exec) e (.leaderLevel msg))
        = ((Election.executeWith env Exec e (.leaderLevel msg)).1,
            .panic "level <= 0 should never happen") := by
    intro Exec
    have h := (executeWith_bad_level env Exec e msg hc hl).1
    unfold Election.ExecuteWith
    generalize Election.executeWith env Exec e (.leaderLevel msg) = r at h ⊢
    obtain ⟨e1, o⟩ := r
    simp only at h
    subst h
    rfl
  cases fuel with
  | zero =>
    obtain ⟨p1, -, p3, p4, p5, p6, p7, p8⟩ :=
      executeWith_bad_level env (fun e _ => (e, .outOfFuel)) e msg hc hl
    simp only [Election.Execute, Election.execute, key]
    exact ⟨trivial, p1, p4, p5, p6, p3, p7, p8⟩
  | succ n =>
    obtain ⟨p1, -, p3, p4, p5, p6, p7, p8⟩ :=
      executeWith_bad_level env (Election.ExecuteWith (Election.execute env n)) e msg hc hl
    simp only [Election.Execute, Election.execute, key]
    exact ⟨trivial, p1, p4, p5, p6, p3, p7, p8⟩

theorem bad_level_panics_witness :
    (NewElection 0 () ⟨0, 0, 0⟩ : Election Unit Unit Unit).Committed = false ∧
    exampleLevelZero.Level ≤ 0 ∧
    (Election.Execute exampleEnv 3 (NewElection 0 () ⟨0, 0, 0⟩) (.leaderLevel exampleLevelZero)).2
      = .panic "level <= 0 should never happen" :=
  ⟨rfl, by decide,
    (bad_level_panics exampleEnv 3 (NewElection 0 () ⟨0, 0, 0⟩) exampleLevelZero rfl
      (by decide)).1⟩

/-- C10 (the claim as stated fails): on a fresh election the level-0 message
is not dropped: `Execute` aborts with a panic, and by then the message has
been appended to `MsgListIn` and a volunteer control has been created. -/
theorem bad_level_counterexample :
    (NewElection 0 () ⟨0, 0, 0⟩ : Election Unit Unit Unit).Committed = false ∧
    exampleLevelZero.Level = 0 ∧
    (Election.Execute exampleEnv 3 (NewElection 0 () ⟨0, 0, 0⟩) (.leaderLevel exampleLevelZero)).2
      = .panic "level <= 0 should never happen" ∧
    (NewElection 0 () ⟨0, 0, 0⟩ : Election Unit Unit Unit).MsgListIn = [] ∧
    (Election.Execute exampleEnv 3 (NewElection 0 () ⟨0, 0, 0⟩)
      (.leaderLevel exampleLevelZero)).1.MsgListIn = [exampleLevelZero] ∧
    (NewElection 0 () ⟨0, 0, 0⟩ : Election Unit Unit Unit).VolunteerControls = [] ∧
    (Election.Execute exampleEnv 3 (NewElection 0 () ⟨0, 0, 0⟩)
      (.leaderLevel exampleLevelZero)).1.VolunteerControls = [(7, ())] :=
  ⟨rfl, rfl, rfl, rfl, rfl, rfl, rfl⟩

end Factomd

/-! ## Theorems: steps of the election -/

namespace Factomd

section StepLemmas

variable {A VC D : Type}

theorem Election.CoreEq.rfl' (e : Election A VC D) : e.CoreEq e :=
  ⟨rfl, rfl, rfl, rfl, rfl, rfl, rfl⟩

theorem Election.CoreEq.trans' {a b c : Election A VC D} (h1 : a.CoreEq b) (h2 : b.CoreEq c) :
    a.CoreEq c := by
  obtain ⟨a1, a2, a3, a4, a5, a6, a7⟩ := h1
  obtain ⟨b1, b2, b3, b4, b5, b6, b7⟩ := h2
  exact ⟨b1.trans a1, b2.trans a2, b3.trans a3, b4.trans a4, b5.trans a5, b6.trans a6,
    b7.trans a7⟩

theorem executeDisplay_coreEq (env : Env A VC D) (e : Election A VC D) (m : IMessage) :
    e.CoreEq (e.executeDisplay env m) := by
  unfold Election.executeDisplay
  cases e.Display <;> exact ⟨rfl, rfl, rfl, rfl, rfl, rfl, rfl⟩

theorem displayResult_coreEq (env : Env A VC D) (e : Election A VC D) (ll : LeaderLevelMessage) :
    e.CoreEq (e.displayResult env ll) := by
  unfold Election.displayResult
  cases e.Display <;> exact ⟨rfl, rfl, rfl, rfl, rfl, rfl, rfl⟩

theorem ensureVotes_coreEq (e : Election A VC D) (vol : Identity) :
    e.CoreEq (e.ensureVotes vol) := by
  unfold Election.ensureVotes
  cases e.VolunteerVotes.get? vol <;> exact ⟨rfl, rfl, rfl, rfl, rfl, rfl, rfl⟩

theorem storeVote_coreEq (e : Election A VC D) (vol signer : Identity) (vote : VoteMessage) :
    e.CoreEq (e.storeVote vol signer vote) := by
  unfold Election.storeVote
  cases e.VolunteerVotes.get? vol <;> exact ⟨rfl, rfl, rfl, rfl, rfl, rfl, rfl⟩

theorem ExecuteWith_closed {env : Env A VC D} {P : Election A VC D → Election A VC D → Prop}
    (hP : StepClosed env P) (exec : Election A VC D → IMessage → Election A VC D × Outcome)
    (h : ∀ e m, P e (exec e m).1) (e : Election A VC D) (m : IMessage) :
    P e (Election.ExecuteWith exec e m).1 := by
  have h1 := h e m
  unfold Election.ExecuteWith
  rcases hx : exec e m with ⟨e1, o⟩
  rw [hx] at h1
  cases o with
  | ret resp c =>
    cases m with
    | leaderLevel l => exact hP.trans _ _ _ h1 (hP.frame _ _ ⟨rfl, rfl, rfl, rfl, rfl, rfl, rfl⟩)
    | volunteer _ => exact h1
    | vote _ => exact h1
    | eom => exact h1
  | panic p => exact h1
  | outOfFuel => exact h1

theorem executeVotes_closed {env : Env A VC D} {P : Election A VC D → Election A VC D → Prop}
    (hP : StepClosed env P) (Exec : Election A VC D → IMessage → Election A VC D × Outcome)
    (h : ∀ e m, P e (Exec e m).1) (votes : List VoteMessage) :
    ∀ (e : Election A VC D) (vc : Bool) (r0 : Option LeaderLevelMessage),
      P e (executeVotes Exec e votes vc r0).1 := by
  induction votes with
  | nil =>
    intro e vc r0
    exact hP.refl e
  | cons v vs ih =>
    intro e vc r0
    have h1 := h e (.vote v)
    unfold executeVotes
    rcases hx : Exec e (.vote v) with ⟨e1, o⟩
    rw [hx] at h1
    cases o with
    | ret resp ch => exact hP.trans _ _ _ h1 (ih _ _ _)
    | panic p => exact h1
    | outOfFuel => exact h1

theorem commitIfLast_closed {env : Env A VC D} {P : Election A VC D → Election A VC D → Prop}
    (hP : StepClosed env P) (e : Election A VC D) (msg : LeaderLevelMessage) :
    P e (e.commitIfLast env msg).1 := by
  unfold Election.commitIfLast
  by_cases ht : e.CommitmentTally > 2
  · rw [if_pos ht]
    have hc := hP.commit e ht
    cases hd : e.Display with
    | some d =>
      simp only [hd]
      exact hP.trans _ _ _ hc (hP.frame _ _ ⟨rfl, rfl, rfl, rfl, rfl, rfl, rfl⟩)
    | none =>
      simp only [hd]
      cases env.displayNilExecute <;>
        exact hP.trans _ _ _ hc (hP.frame _ _ ⟨rfl, rfl, rfl, rfl, rfl, rfl, rfl⟩)
  · rw [if_neg ht]
    exact hP.refl e

theorem afterAdopt_closed {env : Env A VC D} {P : Election A VC D → Election A VC D → Prop}
    (hP : StepClosed env P) (Exec : Election A VC D → IMessage → Election A VC D × Outcome)
    (h : ∀ e m, P e (Exec e m).1) (e : Election A VC D) (ll : LeaderLevelMessage) :
    P e (e.afterAdopt env Exec ll).1 := by
  have h1 := commitIfLast_closed hP e ll
  unfold Election.afterAdopt
  rcases hx : e.commitIfLast env ll with ⟨e1, r⟩
  rw [hx] at h1
  cases r with
  | error p => exact h1
  | ok ll1 =>
    simp only
    by_cases hc : e1.Committed = true
    · rw [if_pos hc]
      exact h1
    · rw [if_neg hc]
      have h2 := h e1 (.leaderLevel ll1)
      rcases hy : Exec e1 (.leaderLevel ll1) with ⟨e2, o⟩
      rw [hy] at h2
      have h12 := hP.trans _ _ _ h1 h2
      cases o with
      | ret resp c =>
        cases resp with
        | none => exact h12
        | some m =>
          cases m with
          | leaderLevel l2 =>
            have h3 := commitIfLast_closed hP e2 l2
            simp only
            rcases hz : e2.commitIfLast env l2 with ⟨e3, r3⟩
            rw [hz] at h3
            cases r3 <;> exact hP.trans _ _ _ h12 h3
          | volunteer _ => exact h12
          | vote _ => exact h12
          | eom => exact h12
      | panic p => exact h12
      | outOfFuel => exact h12

end StepLemmas

end Factomd

namespace Factomd

section StagedForms

variable {A VC D : Type}

theorem executeLeaderLevelMessage_eq (env : Env A VC D)
    (Exec : Election A VC D → IMessage → Election A VC D × Outcome)
    (e : Election A VC D) (msg : LeaderLevelMessage) :
    e.executeLeaderLevelMessage env Exec msg =
      if msg.Level ≤ 0 then (e.receive env msg, .panic "level <= 0 should never happen")
      else
        match executeVotes Exec (e.receive env msg) msg.VoteMessages false none with
        | (e, .error o) => (e, o)
        | (e, .ok (voteChange, rank0Vote)) =>
          e.consultControl env Exec msg voteChange rank0Vote :=
  rfl

theorem sendRank0_eq (env : Env A VC D)
    (Exec : Election A VC D → IMessage → Election A VC D × Outcome)
    (e : Election A VC D) (vote : VoteMessage) :
    e.sendRank0 env Exec vote =
      rank0Return
        { Signer := e.Self, Rank := 0, Level := e.CurrentLevel, VolunteerMessage := vote.Volunteer,
          VolunteerPriority := e.getVolunteerPriority env vote.Volunteer.Signer,
          VoteMessages := e.votesFor vote.Volunteer.Signer, Justification := [],
          Committed := false }
        (Exec
          (Election.updateCurrentVote { e with CurrentLevel := goAdd e.CurrentLevel 1 }
            { Signer := e.Self, Rank := 0, Level := e.CurrentLevel,
              VolunteerMessage := vote.Volunteer,
              VolunteerPriority := e.getVolunteerPriority env vote.Volunteer.Signer,
              VoteMessages := e.votesFor vote.Volunteer.Signer, Justification := [],
              Committed := false })
          (.leaderLevel
            { Signer := e.Self, Rank := 0, Level := e.CurrentLevel,
              VolunteerMessage := vote.Volunteer,
              VolunteerPriority := e.getVolunteerPriority env vote.Volunteer.Signer,
              VoteMessages := e.votesFor vote.Volunteer.Signer, Justification := [],
              Committed := false })) :=
  rfl

theorem receive_coreEq (env : Env A VC D) (e : Election A VC D) (msg : LeaderLevelMessage) :
    e.CoreEq (e.receive env msg) := by
  unfold Election.receive
  cases e.VolunteerControls.get? msg.VolunteerMessage.Signer <;>
    exact ⟨rfl, rfl, rfl, rfl, rfl, rfl, rfl⟩

theorem rank0Return_fst (ll : LeaderLevelMessage) (r : Election A VC D × Outcome) :
    (rank0Return ll r).1 = r.1 := by
  obtain ⟨e, o⟩ := r
  cases o with
  | ret resp c =>
    cases resp with
    | none => rfl
    | some m =>
      cases m with
      | leaderLevel l =>
        show (if ll.Less l then _ else _ : Election A VC D × Outcome).1 = e
        split <;> rfl
      | volunteer _ => rfl
      | vote _ => rfl
      | eom => rfl
  | panic p => rfl
  | outOfFuel => rfl

theorem volunteerReturn_fst (vol : VolunteerMessage) (vote : VoteMessage)
    (r : Election A VC D × Outcome) : (volunteerReturn vol vote r).1 = r.1 := by
  obtain ⟨e, o⟩ := r
  cases o with
  | ret resp c =>
    cases resp with
    | none => rfl
    | some m => cases m <;> rfl
  | panic p => rfl
  | outOfFuel => rfl

end StagedForms

end Factomd

namespace Factomd

section Closure

variable {A VC D : Type}

theorem consultControl_closed {env : Env A VC D} {P : Election A VC D → Election A VC D → Prop}
    (hP : StepClosed env P) (Exec : Election A VC D → IMessage → Election A VC D × Outcome)
    (h : ∀ e m, P e (Exec e m).1) (e : Election A VC D) (msg : LeaderLevelMessage)
    (voteChange : Bool) (rank0Vote : Option LeaderLevelMessage) :
    P e (e.consultControl env Exec msg voteChange rank0Vote).1 := by
  unfold Election.consultControl
  split
  · exact hP.refl e
  rename_i c hg
  split
  rename_i c1 res change hv
  have hf : P e { e with VolunteerControls :=
      e.VolunteerControls.set msg.VolunteerMessage.Signer c1 } :=
    hP.frame _ _ ⟨rfl, rfl, rfl, rfl, rfl, rfl, rfl⟩
  split
  · rename_i ll
    have h4 : P e (Election.displayResult env
        { e with VolunteerControls := e.VolunteerControls.set msg.VolunteerMessage.Signer c1 }
        ll) :=
      hP.trans _ _ _ hf (hP.frame _ _ (displayResult_coreEq env _ ll))
    dsimp only
    split
    · rename_i hless
      by_cases hout : ll.Rank ≥ (Election.displayResult env
          { e with VolunteerControls := e.VolunteerControls.set msg.VolunteerMessage.Signer c1 }
          ll).CurrentLevel
      · rw [if_pos hout]
        exact hP.trans _ _ _ (hP.trans _ _ _ h4 (hP.outrun _ _ hless hout))
          (afterAdopt_closed hP Exec h _ _)
      · rw [if_neg hout]
        exact hP.trans _ _ _ (hP.trans _ _ _ h4 (hP.next _ _ hless hout))
          (afterAdopt_closed hP Exec h _ _)
    · split
      · exact h4
      · split <;> exact h4
  · exact hf
  · split <;> exact hf

theorem executeLeaderLevelMessage_closed {env : Env A VC D}
    {P : Election A VC D → Election A VC D → Prop}
    (hP : StepClosed env P) (Exec : Election A VC D → IMessage → Election A VC D × Outcome)
    (h : ∀ e m, P e (Exec e m).1) (e : Election A VC D) (msg : LeaderLevelMessage) :
    P e (e.executeLeaderLevelMessage env Exec msg).1 := by
  rw [executeLeaderLevelMessage_eq]
  have h1 : P e (e.receive env msg) := hP.frame _ _ (receive_coreEq env e msg)
  split
  · exact h1
  · have h2 := executeVotes_closed hP Exec h msg.VoteMessages (e.receive env msg) false none
    split
    · rename_i e2 o hx
      rw [hx] at h2
      exact hP.trans _ _ _ h1 h2
    · rename_i e2 voteChange rank0Vote hx
      rw [hx] at h2
      exact hP.trans _ _ _ (hP.trans _ _ _ h1 h2)
        (consultControl_closed hP Exec h e2 msg voteChange rank0Vote)

theorem sendRank0_closed {env : Env A VC D} {P : Election A VC D → Election A VC D → Prop}
    (hP : StepClosed env P) (Exec : Election A VC D → IMessage → Election A VC D × Outcome)
    (h : ∀ e m, P e (Exec e m).1) (e : Election A VC D) (vote : VoteMessage)
    (hc : e.Committed = false)
    (hg : e.CurrentVote.Rank = -1 ∨
      (¬ e.CurrentVote.Rank > 0 ∧
        ¬ e.CurrentVote.VolunteerPriority ≥ e.getVolunteerPriority env vote.Volunteer.Signer)) :
    P e (e.sendRank0 env Exec vote).1 := by
  rw [sendRank0_eq, rank0Return_fst]
  exact hP.trans _ _ _ (hP.rank0 e _ hc rfl rfl hg) (h _ _)

theorem executeWith_closed {env : Env A VC D} {P : Election A VC D → Election A VC D → Prop}
    (hP : StepClosed env P) (Exec : Election A VC D → IMessage → Election A VC D × Outcome)
    (h : ∀ e m, P e (Exec e m).1) (e : Election A VC D) (msg : IMessage) :
    P e (Election.executeWith env Exec e msg).1 := by
  unfold Election.executeWith
  dsimp only
  generalize hE : Election.executeDisplay env { e with TotalMessages := e.TotalMessages + 1 } msg
    = e0
  have hce : e.CoreEq e0 := by
    rw [← hE]
    exact Election.CoreEq.trans' ⟨rfl, rfl, rfl, rfl, rfl, rfl, rfl⟩
      (executeDisplay_coreEq env _ msg)
  have h0 : P e e0 := hP.frame _ _ hce
  by_cases hc : e0.Committed = true
  · rw [if_pos hc]
    exact h0
  rw [if_neg hc]
  have hcf : e0.Committed = false := by
    cases hb : e0.Committed
    · rfl
    · exact absurd hb hc
  cases msg with
  | leaderLevel m =>
    exact hP.trans _ _ _ h0 (executeLeaderLevelMessage_closed hP Exec h e0 m)
  | eom => exact h0
  | volunteer vol =>
    dsimp only
    have h1 : P e (e0.ensureVotes vol.Signer) :=
      hP.trans _ _ _ h0 (hP.frame _ _ (ensureVotes_coreEq e0 vol.Signer))
    split
    · exact h1
    · have h2 : P e ((e0.ensureVotes vol.Signer).storeVote vol.Signer
          (e0.ensureVotes vol.Signer).Self (NewVoteMessage vol (e0.ensureVotes vol.Signer).Self)) :=
        hP.trans _ _ _ h1 (hP.frame _ _ (storeVote_coreEq _ _ _ _))
      have h3 := h ((e0.ensureVotes vol.Signer).storeVote vol.Signer
          (e0.ensureVotes vol.Signer).Self (NewVoteMessage vol (e0.ensureVotes vol.Signer).Self))
          (.vote (NewVoteMessage vol (e0.ensureVotes vol.Signer).Self))
      have h23 := hP.trans _ _ _ h2 h3
      split
      · rename_i e3 ll c hx
        rw [hx] at h23
        exact h23
      · rename_i e3 r c hx
        rw [hx] at h23
        exact h23
      · rename_i e3 o hx
        rw [hx] at h23
        exact h23
  | vote vote =>
    dsimp only
    generalize hS : Election.executeDisplay env
      ((e0.ensureVotes vote.Volunteer.Signer).storeVote vote.Volunteer.Signer vote.Signer vote)
      (.vote vote) = e3
    have hce3 : e0.CoreEq e3 := by
      rw [← hS]
      exact Election.CoreEq.trans' (Election.CoreEq.trans' (ensureVotes_coreEq _ _)
        (storeVote_coreEq _ _ _ _)) (executeDisplay_coreEq env _ _)
    have h3 : P e e3 := hP.trans _ _ _ h0 (hP.frame _ _ hce3)
    have hc3 : e3.Committed = false := by
      rw [hce3.2.2.2.1]
      exact hcf
    split
    · split
      · rename_i hr
        exact hP.trans _ _ _ h3 (sendRank0_closed hP Exec h e3 vote hc3 (Or.inl hr))
      · rename_i hr
        split
        · exact h3
        · rename_i hpos
          split
          · exact h3
          · rename_i hprio
            exact hP.trans _ _ _ h3
              (sendRank0_closed hP Exec h e3 vote hc3 (Or.inr ⟨hpos, hprio⟩))
    · exact h3

theorem execute_closed {env : Env A VC D} {P : Election A VC D → Election A VC D → Prop}
    (hP : StepClosed env P) (fuel : Nat) :
    ∀ (e : Election A VC D) (msg : IMessage), P e (Election.execute env fuel e msg).1 := by
  induction fuel with
  | zero =>
    intro e msg
    exact executeWith_closed hP _ (fun e _ => hP.refl e) e msg
  | succ n ih =>
    intro e msg
    exact executeWith_closed hP _ (ExecuteWith_closed hP _ ih) e msg

theorem Execute_closed {env : Env A VC D} {P : Election A VC D → Election A VC D → Prop}
    (hP : StepClosed env P) (fuel : Nat) (e : Election A VC D) (msg : IMessage) :
    P e (Election.Execute env fuel e msg).1 :=
  ExecuteWith_closed hP _ (execute_closed hP fuel) e msg

end Closure

end Factomd

/-! ## Theorems: current vote, level and tally -/

namespace Factomd

section VoteState

variable {A VC D : Type}

theorem updateCurrentVote_fields (e : Election A VC D) (new : LeaderLevelMessage) :
    (e.updateCurrentVote new).CurrentVote = new ∧
    (e.updateCurrentVote new).CurrentLevel = e.CurrentLevel ∧
    (e.updateCurrentVote new).Committed = e.Committed ∧
    ((e.updateCurrentVote new).CommitmentTally = e.CommitmentTally + 1 ∨
      (e.updateCurrentVote new).CommitmentTally = 1) := by
  unfold Election.updateCurrentVote
  split
  · split
    · exact ⟨rfl, rfl, rfl, Or.inl rfl⟩
    · exact ⟨rfl, rfl, rfl, Or.inr rfl⟩
  · exact ⟨rfl, rfl, rfl, Or.inr rfl⟩

theorem reachable_invariant {env : Env A VC D} {P : Election A VC D → Election A VC D → Prop}
    (hP : StepClosed env P) (I : Election A VC D → Prop)
    (hPI : ∀ e e', P e e' → I e → I e')
    (h0 : ∀ self authset loc, I (NewElection self authset loc))
    (e : Election A VC D) (hr : Reachable env e) : I e := by
  induction hr with
  | init self authset loc => exact h0 self authset loc
  | addDisplay e d _ ih => exact hPI e _ (hP.frame e _ ⟨rfl, rfl, rfl, rfl, rfl, rfl, rfl⟩) ih
  | execute e fuel m _ ih => exact hPI _ _ (execute_closed hP fuel e m) ih
  | Execute e fuel m _ ih => exact hPI _ _ (Execute_closed hP fuel e m) ih

/-- C14: `updateCurrentVote(new)` sets `CurrentVote` to `new`; the tally becomes
the old tally plus one when `new` has the volunteer priority of the old current
vote and the next rank, and 1 otherwise; no other field changes. -/
theorem updateCurrentVote_spec (e : Election A VC D) (new : LeaderLevelMessage) :
    e.updateCurrentVote new =
      { e with
        CurrentVote := new
        CommitmentTally :=
          if new.VolunteerPriority = e.CurrentVote.VolunteerPriority ∧
              new.Rank = e.CurrentVote.Rank + 1 then e.CommitmentTally + 1
          else 1 } := by
  unfold Election.updateCurrentVote
  by_cases hp : new.VolunteerPriority = e.CurrentVote.VolunteerPriority
  · by_cases hr : e.CurrentVote.Rank + 1 = new.Rank
    · rw [if_pos hp, if_pos hr, if_pos ⟨hp, hr.symm⟩]
    · rw [if_pos hp, if_neg hr, if_neg (fun h => hr h.2.symm)]
  · rw [if_neg hp, if_neg (fun h => hp h.1)]

end VoteState

end Factomd

namespace Factomd

section Tally

variable {A VC D : Type}

/-- The relation behind C13: the tally is at least 1, or it is 0 and the
current vote is still the one `NewElection` set. -/
theorem tallyRel_closed (env : Env A VC D) :
    StepClosed env (fun e e' : Election A VC D =>
      (1 ≤ e.CommitmentTally ∨ (e.CommitmentTally = 0 ∧
          e.CurrentVote = { zeroLeaderLevelMessage with Rank := -1, VolunteerPriority := -1 })) →
      (1 ≤ e'.CommitmentTally ∨ (e'.CommitmentTally = 0 ∧
          e'.CurrentVote = { zeroLeaderLevelMessage with Rank := -1, VolunteerPriority := -1 })))
    where
  refl := fun _ h => h
  trans := fun _ _ _ h1 h2 h => h2 (h1 h)
  frame := by
    intro e e' ⟨hv, _, ht, _⟩ h
    rw [hv, ht]
    exact h
  rank0 := by
    intro e ll _ _ _ _ h
    have ht : 0 ≤ e.CommitmentTally := by
      rcases h with h | h
      · omega
      · omega
    rcases (updateCurrentVote_fields { e with CurrentLevel := goAdd e.CurrentLevel 1 } ll).2.2.2
      with hf | hf
    · left
      rw [hf]
      show 1 ≤ e.CommitmentTally + 1
      omega
    · left
      rw [hf]
  outrun := by
    intro e ll _ _ h
    have ht : 0 ≤ e.CommitmentTally := by
      rcases h with h | h
      · omega
      · omega
    rcases (updateCurrentVote_fields { e with CurrentLevel := goAdd ll.Rank 2 }
      { ll with Level := goAdd ll.Rank 1 }).2.2.2 with hf | hf
    · left
      rw [hf]
      show 1 ≤ e.CommitmentTally + 1
      omega
    · left
      rw [hf]
  next := by
    intro e ll _ _ h
    have ht : 0 ≤ e.CommitmentTally := by
      rcases h with h | h
      · omega
      · omega
    rcases (updateCurrentVote_fields { e with CurrentLevel := goAdd e.CurrentLevel 1 }
      { ll with Level := e.CurrentLevel }).2.2.2 with hf | hf
    · left
      rw [hf]
      show 1 ≤ e.CommitmentTally + 1
      omega
    · left
      rw [hf]
  commit := fun _ _ h => h

/-- C13: in every state reachable from `NewElection`, a current vote of rank
at least 0 comes with a commitment tally of at least 1; the tally is never
negative, and while it is 0 the current vote is still the rank -1 sentinel
that `NewElection` set. -/
theorem tally_positive (env : Env A VC D) (e : Election A VC D) (hr : Reachable env e) :
    (e.CurrentVote.Rank ≥ 0 → e.CommitmentTally ≥ 1) ∧
    0 ≤ e.CommitmentTally ∧
    (e.CommitmentTally = 0 →
      e.CurrentVote = { zeroLeaderLevelMessage with Rank := -1, VolunteerPriority := -1 } ∧
      e.CurrentVote.Rank = -1) := by
  have hI := reachable_invariant (tallyRel_closed env)
    (fun e : Election A VC D => 1 ≤ e.CommitmentTally ∨ (e.CommitmentTally = 0 ∧
      e.CurrentVote = { zeroLeaderLevelMessage with Rank := -1, VolunteerPriority := -1 }))
    (fun _ _ h hi => h hi) (fun _ _ _ => Or.inr ⟨rfl, rfl⟩) e hr
  refine ⟨?_, ?_, ?_⟩
  · intro hrank
    rcases hI with h | ⟨_, hv⟩
    · exact h
    · rw [hv] at hrank
      exact absurd hrank (by decide)
  · rcases hI with h | ⟨h, _⟩
    · omega
    · omega
  · intro h0
    rcases hI with h | ⟨_, hv⟩
    · omega
    · exact ⟨hv, by rw [hv]⟩

end Tally

end Factomd

namespace Factomd

theorem less_iff (a b : LeaderLevelMessage) :
    a.Less b = true ↔
      (a.Rank < b.Rank ∨ (a.Rank = b.Rank ∧
        (-a.VolunteerPriority < -b.VolunteerPriority ∨
          (-a.VolunteerPriority = -b.VolunteerPriority ∧ a.Level < b.Level)))) := by
  unfold LeaderLevelMessage.Less
  exact decide_eq_true_iff

theorem reachable_run {A VC D : Type} (env : Env A VC D) (msgs : List IMessage) :
    ∀ start : Election A VC D, Reachable env start →
      Reachable env (exampleRun env start msgs) := by
  induction msgs with
  | nil => exact fun _ h => h
  | cons m ms ih =>
    intro start h
    exact ih _ (Reachable.Execute start 5 m h)

end Factomd

namespace Factomd

/-- C11 as stated fails: participant 0 holds a rank-0 current vote for
volunteer 5 (priority number 5) and has the votes of 1 and 2 for volunteer 9;
the vote of 3 for volunteer 9 makes `execute` replace the current vote by a
rank-0 message for volunteer 9 (priority number 9), which is less than the
previous current vote in the order of the specification. -/
theorem currentVote_decrease_counterexample :
    Reachable exampleEnv exampleSwitchState ∧
    exampleSwitchState.CurrentVote.Rank = 0 ∧
    exampleSwitchState.CurrentVote.VolunteerPriority = 5 ∧
    (Election.execute exampleEnv 5 exampleSwitchState (exampleVote 3 9)).1.CurrentVote.Rank = 0 ∧
    (Election.execute exampleEnv 5 exampleSwitchState
      (exampleVote 3 9)).1.CurrentVote.VolunteerPriority = 9 ∧
    (Election.execute exampleEnv 5 exampleSwitchState (exampleVote 3 9)).1.CurrentVote.Less
      exampleSwitchState.CurrentVote = true :=
  ⟨reachable_run exampleEnv _ _ (Reachable.init 0 () ⟨0, 0, 0⟩),
    by decide!, by decide!, by decide!, by decide!,
    by decide!⟩

end Factomd

namespace Factomd

section CommitIfLast

variable {A VC D : Type}

theorem flagRel_closed (env : Env A VC D) :
    StepClosed env (fun e e' : Election A VC D => Relation.ReflTransGen FlagStep e e') where
  refl := fun _ => Relation.ReflTransGen.refl
  trans := fun _ _ _ h1 h2 => h1.trans h2
  frame := fun _ _ h => Relation.ReflTransGen.single (Or.inl h.2.2.2.1)
  rank0 := fun e ll _ _ _ _ => Relation.ReflTransGen.single
    (Or.inl (updateCurrentVote_fields { e with CurrentLevel := goAdd e.CurrentLevel 1 } ll).2.2.1)
  outrun := fun e ll _ _ => Relation.ReflTransGen.single
    (Or.inl (updateCurrentVote_fields { e with CurrentLevel := goAdd ll.Rank 2 }
      { ll with Level := goAdd ll.Rank 1 }).2.2.1)
  next := fun e ll _ _ => Relation.ReflTransGen.single
    (Or.inl (updateCurrentVote_fields { e with CurrentLevel := goAdd e.CurrentLevel 1 }
      { ll with Level := e.CurrentLevel }).2.2.1)
  commit := fun _ ht => Relation.ReflTransGen.single (Or.inr ⟨ht, rfl⟩)

theorem flagStep_chain_committed {s s' : Election A VC D}
    (h : Relation.ReflTransGen FlagStep s s') (hc : s.Committed = true) :
    s'.Committed = true := by
  induction h with
  | refl => exact hc
  | tail _ hstep ih =>
    rcases hstep with h | ⟨_, h⟩
    · rw [h]
      exact ih
    · rw [h]

/-- The relation behind the tally of a committed state: a tally that is not
negative, and at least 1 once `Committed` is set, stays so. -/
theorem committedTallyRel_closed (env : Env A VC D) :
    StepClosed env (fun e e' : Election A VC D =>
      (0 ≤ e.CommitmentTally ∧ (e.Committed = true → 1 ≤ e.CommitmentTally)) →
      (0 ≤ e'.CommitmentTally ∧ (e'.Committed = true → 1 ≤ e'.CommitmentTally))) where
  refl := fun _ h => h
  trans := fun _ _ _ h1 h2 h => h2 (h1 h)
  frame := by
    intro e e' ⟨_, _, ht, hc, _⟩ h
    rw [ht, hc]
    exact h
  rank0 := by
    intro e ll _ _ _ _ ⟨h, _⟩
    rcases (updateCurrentVote_fields { e with CurrentLevel := goAdd e.CurrentLevel 1 } ll).2.2.2
      with hf | hf
    · rw [hf]
      refine ⟨?_, fun _ => ?_⟩
      · show 0 ≤ e.CommitmentTally + 1
        omega
      · show 1 ≤ e.CommitmentTally + 1
        omega
    · rw [hf]
      exact ⟨by decide, fun _ => le_refl _⟩
  outrun := by
    intro e ll _ _ ⟨h, _⟩
    rcases (updateCurrentVote_fields { e with CurrentLevel := goAdd ll.Rank 2 }
      { ll with Level := goAdd ll.Rank 1 }).2.2.2 with hf | hf
    · rw [hf]
      refine ⟨?_, fun _ => ?_⟩
      · show 0 ≤ e.CommitmentTally + 1
        omega
      · show 1 ≤ e.CommitmentTally + 1
        omega
    · rw [hf]
      exact ⟨by decide, fun _ => le_refl _⟩
  next := by
    intro e ll _ _ ⟨h, _⟩
    rcases (updateCurrentVote_fields { e with CurrentLevel := goAdd e.CurrentLevel 1 }
      { ll with Level := e.CurrentLevel }).2.2.2 with hf | hf
    · rw [hf]
      refine ⟨?_, fun _ => ?_⟩
      · show 0 ≤ e.CommitmentTally + 1
        omega
      · show 1 ≤ e.CommitmentTally + 1
        omega
    · rw [hf]
      exact ⟨by decide, fun _ => le_refl _⟩
  commit := by
    intro e ht _
    have ht' : 2 < e.CommitmentTally := ht
    refine ⟨?_, fun _ => ?_⟩
    · show 0 ≤ e.CommitmentTally
      omega
    · show 1 ≤ e.CommitmentTally
      omega

theorem commitIfLast_above (env : Env A VC D) (e : Election A VC D) (msg : LeaderLevelMessage)
    (ht : e.CommitmentTally > 2) (hd : e.Display.isSome = true ∨ env.displayNilExecute = none) :
    e.commitIfLast env msg =
      ({ e with
          Committed := true
          Display := e.Display.map
            (fun d => env.displayExecute d (.leaderLevel { msg with Committed := true })) },
        .ok { msg with Committed := true }) := by
  unfold Election.commitIfLast
  rw [if_pos ht]
  cases hdisp : e.Display with
  | some d => rfl
  | none =>
    rw [hdisp] at hd
    rcases hd with hd | hd
    · exact absurd hd Bool.false_ne_true
    · simp only [hd, Option.map_none']

theorem commitIfLast_flag (env : Env A VC D) (e : Election A VC D) (msg : LeaderLevelMessage)
    (ht : e.CommitmentTally > 2) : (e.commitIfLast env msg).1.Committed = true := by
  unfold Election.commitIfLast
  rw [if_pos ht]
  cases e.Display with
  | some d => rfl
  | none =>
    simp only
    cases env.displayNilExecute <;> rfl

/-- What `commitIfLast` does and how the flag moves: `commitIfLast(msg)` with `CommitmentTally > 2` sets
`Committed` (also when the display call on a nil display panics) and, when the
display call returns, changes nothing else but the display and returns `msg`
with `msg.Committed = true`; with `CommitmentTally <= 2` it changes neither the
election nor `msg` and returns `msg`.  `execute` and `Execute` move the state by
steps that leave `Committed` alone or are that assignment at a tally above 2, so
the flag is never reset; and a reachable state with `Committed = true` has a
tally of at least 1. -/
theorem commitIfLast_spec (env : Env A VC D) (e : Election A VC D) (msg : LeaderLevelMessage)
    (fuel : Nat) (m : IMessage) :
    (e.CommitmentTally > 2 →
      (e.commitIfLast env msg).1.Committed = true ∧
      ((e.Display.isSome = true ∨ env.displayNilExecute = none) →
        e.commitIfLast env msg =
          ({ e with
              Committed := true
              Display := e.Display.map
                (fun d => env.displayExecute d (.leaderLevel { msg with Committed := true })) },
            .ok { msg with Committed := true }))) ∧
    (e.CommitmentTally ≤ 2 → e.commitIfLast env msg = (e, .ok msg)) ∧
    Relation.ReflTransGen FlagStep e (Election.execute env fuel e m).1 ∧
    Relation.ReflTransGen FlagStep e (Election.Execute env fuel e m).1 ∧
    (e.Committed = true → (Election.execute env fuel e m).1.Committed = true ∧
      (Election.Execute env fuel e m).1.Committed = true) ∧
    (Reachable env e → e.Committed = true → 1 ≤ e.CommitmentTally) := by
  have h1 := execute_closed (flagRel_closed env) fuel e m
  have h2 := Execute_closed (flagRel_closed env) fuel e m
  refine ⟨fun ht => ⟨commitIfLast_flag env e msg ht, commitIfLast_above env e msg ht⟩, ?_, h1, h2,
    fun hc => ⟨flagStep_chain_committed h1 hc, flagStep_chain_committed h2 hc⟩, ?_⟩
  · intro ht
    unfold Election.commitIfLast
    rw [if_neg (by omega)]
  · intro hr
    exact (reachable_invariant (committedTallyRel_closed env)
      (fun e : Election A VC D =>
        0 ≤ e.CommitmentTally ∧ (e.Committed = true → 1 ≤ e.CommitmentTally))
      (fun _ _ h hi => h hi)
      (fun _ _ _ => ⟨le_refl (0 : Int), fun h => absurd h Bool.false_ne_true⟩) e hr).2

end CommitIfLast

theorem commitIfLast_spec_witness :
    (3 : Int) > 2 ∧
    (Election.commitIfLast exampleEnv
      { (NewElection 0 () ⟨0, 0, 0⟩ : Election Unit Unit Unit) with CommitmentTally := 3 }
      exampleLevelZero).1.Committed = true :=
  ⟨by decide,
    ((commitIfLast_spec exampleEnv
      { (NewElection 0 () ⟨0, 0, 0⟩ : Election Unit Unit Unit) with CommitmentTally := 3 }
      exampleLevelZero 0 .eom).1 (by decide)).1⟩

/-- C15, the code at the failing input: participant 0 holds the rank-1
messages of 1 and 2 for volunteer 5 and their rank-2 messages for volunteer 9.
The rank-2 message of 3 for volunteer 9 carries three votes for volunteer 5;
executing these votes takes participant 0 through ranks 0, 1 and 2 for
volunteer 5 and commits it, and `executeLeaderLevelMessage`, which does not
look at `Committed` after the loop, then still adopts the rank-3 answer of the
control of volunteer 9, which resets the tally: the state is committed with
tally 1, where the claim has a tally of at least 3. -/
theorem committed_tally_reset :
    Reachable exampleControlEnv
      (Election.execute exampleControlEnv 5 exampleBeforeCommit exampleCommitMessage).1 ∧
    exampleBeforeCommit.Committed = false ∧
    (Election.execute exampleControlEnv 5 exampleBeforeCommit exampleCommitMessage).1.Committed
      = true ∧
    (Election.execute exampleControlEnv 5 exampleBeforeCommit
      exampleCommitMessage).1.CommitmentTally = 1 :=
  ⟨Reachable.execute _ 5 _
      (reachable_run exampleControlEnv _ _ (Reachable.addDisplay _ () (Reachable.init 0 () ⟨0, 0, 0⟩))),
    by decide!, by decide!, by decide!⟩

end Factomd

namespace Factomd

theorem GoMap.get?_set_self {K V : Type} [DecidableEq K] (m : GoMap K V) (k : K) (v : V) :
    (GoMap.set m k v).get? k = some v := by
  induction m with
  | nil => simp [GoMap.set, GoMap.get?]
  | cons p rest ih =>
    obtain ⟨k', v'⟩ := p
    unfold GoMap.set
    by_cases h : k' = k
    · rw [if_pos h]
      simp [GoMap.get?]
    · rw [if_neg h]
      unfold GoMap.get? at ih ⊢
      rw [List.find?_cons_of_neg]
      · exact ih
      · simpa using h

theorem GoMap.set_count {K V : Type} [DecidableEq K] (m : GoMap K V) (k : K) (v : V)
    (hm : (m.map Prod.fst).Nodup) :
    ((GoMap.set m k v).filter (fun p => decide (p.1 = k))).length = 1 := by
  induction m with
  | nil => simp [GoMap.set]
  | cons p rest ih =>
    obtain ⟨k', v'⟩ := p
    rw [List.map_cons, List.nodup_cons] at hm
    unfold GoMap.set
    by_cases h : k' = k
    · rw [if_pos h]
      have hnot : rest.filter (fun p => decide (p.1 = k)) = [] := by
        rw [List.filter_eq_nil_iff]
        intro p hp hpk
        apply hm.1
        rw [h]
        have hk : p.1 = k := by simpa using hpk
        rw [← hk]
        exact List.mem_map.mpr ⟨p, hp, rfl⟩
      simp [List.filter_cons, hnot]
    · rw [if_neg h]
      rw [List.filter_cons_of_neg (by simpa using h)]
      exact ih hm.2

theorem GoMap.set_length_of_isSome {K V : Type} [DecidableEq K] (m : GoMap K V) (k : K) (v : V)
    (h : (m.get? k).isSome = true) : (GoMap.set m k v).length = m.length := by
  induction m with
  | nil => simp [GoMap.get?] at h
  | cons p rest ih =>
    obtain ⟨k', v'⟩ := p
    unfold GoMap.set
    by_cases hk : k' = k
    · rw [if_pos hk]
      rfl
    · rw [if_neg hk]
      unfold GoMap.get? at h ih
      rw [List.find?_cons_of_neg _ (by simpa using hk)] at h
      simp only [List.length_cons, ih h]

end Factomd

namespace Factomd

section VoteBranch

variable {A VC D : Type}

theorem executeWith_vote (env : Env A VC D)
    (Exec : Election A VC D → IMessage → Election A VC D × Outcome)
    (e : Election A VC D) (vote : VoteMessage) (hc : e.Committed = false) :
    Election.executeWith env Exec e (.vote vote) =
      if (((e.recordVote env vote).votesFor vote.Volunteer.Signer).length : Int) ≥
          env.Majority (e.recordVote env vote).AuthSet then
        if (e.recordVote env vote).CurrentVote.Rank = -1 then
          (e.recordVote env vote).sendRank0 env Exec vote
        else if (e.recordVote env vote).CurrentVote.Rank > 0 then
          (e.recordVote env vote, .ret none false)
        else if (e.recordVote env vote).CurrentVote.VolunteerPriority ≥
            (e.recordVote env vote).getVolunteerPriority env vote.Volunteer.Signer then
          (e.recordVote env vote, .ret none false)
        else (e.recordVote env vote).sendRank0 env Exec vote
      else (e.recordVote env vote, .ret none false) := by
  have hd : (Election.executeDisplay env { e with TotalMessages := e.TotalMessages + 1 }
      (.vote vote)).Committed = false := by
    rw [(executeDisplay_fields env _ _).1]
    exact hc
  unfold Election.executeWith
  simp only [hd]
  rfl

theorem recordVote_coreEq (env : Env A VC D) (e : Election A VC D) (vote : VoteMessage) :
    e.CoreEq (e.recordVote env vote) := by
  unfold Election.recordVote
  refine Election.CoreEq.trans' ?_ (executeDisplay_coreEq env _ _)
  refine Election.CoreEq.trans' ?_ (storeVote_coreEq _ _ _ _)
  refine Election.CoreEq.trans' ?_ (ensureVotes_coreEq _ _)
  refine Election.CoreEq.trans' ?_ (executeDisplay_coreEq env _ _)
  exact ⟨rfl, rfl, rfl, rfl, rfl, rfl, rfl⟩

theorem ensureVotes_lists (e : Election A VC D) (vol : Identity) :
    (e.ensureVotes vol).MsgListIn = e.MsgListIn ∧ (e.ensureVotes vol).MsgListOut = e.MsgListOut ∧
    (e.ensureVotes vol).VolunteerControls = e.VolunteerControls ∧
    (e.ensureVotes vol).VolunteerVotes.get? vol =
      some ((e.VolunteerVotes.get? vol).getD []) := by
  unfold Election.ensureVotes
  cases h : e.VolunteerVotes.get? vol with
  | some inner => exact ⟨rfl, rfl, rfl, h⟩
  | none => exact ⟨rfl, rfl, rfl, GoMap.get?_set_self _ _ _⟩

theorem storeVote_lists (e : Election A VC D) (vol signer : Identity) (vote : VoteMessage)
    (inner : GoMap Identity VoteMessage) (h : e.VolunteerVotes.get? vol = some inner) :
    (e.storeVote vol signer vote).MsgListIn = e.MsgListIn ∧
    (e.storeVote vol signer vote).MsgListOut = e.MsgListOut ∧
    (e.storeVote vol signer vote).VolunteerControls = e.VolunteerControls ∧
    (e.storeVote vol signer vote).VolunteerVotes.get? vol = some (inner.set signer vote) := by
  unfold Election.storeVote
  rw [h]
  exact ⟨rfl, rfl, rfl, GoMap.get?_set_self _ _ _⟩

theorem recordVote_lists (env : Env A VC D) (e : Election A VC D) (vote : VoteMessage) :
    (e.recordVote env vote).MsgListIn = e.MsgListIn ∧
    (e.recordVote env vote).MsgListOut = e.MsgListOut ∧
    (e.recordVote env vote).VolunteerControls = e.VolunteerControls ∧
    (e.recordVote env vote).VolunteerVotes.get? vote.Volunteer.Signer =
      some (GoMap.set ((e.VolunteerVotes.get? vote.Volunteer.Signer).getD []) vote.Signer vote) := by
  unfold Election.recordVote
  dsimp only
  have h0 := executeDisplay_fields env { e with TotalMessages := e.TotalMessages + 1 } (.vote vote)
  have h1 := ensureVotes_lists
    (Election.executeDisplay env { e with TotalMessages := e.TotalMessages + 1 } (.vote vote))
    vote.Volunteer.Signer
  have h2 := storeVote_lists _ vote.Volunteer.Signer vote.Signer vote _ h1.2.2.2
  have h3 := executeDisplay_fields env
    (((Election.executeDisplay env { e with TotalMessages := e.TotalMessages + 1 }
      (.vote vote)).ensureVotes vote.Volunteer.Signer).storeVote vote.Volunteer.Signer
        vote.Signer vote) (.vote vote)
  obtain ⟨-, -, -, -, v0, c0, i0, o0, -⟩ := h0
  obtain ⟨-, -, -, -, v3, c3, i3, o3, -⟩ := h3
  rw [v0] at h2
  rw [i3, o3, c3, v3]
  refine ⟨?_, ?_, ?_, h2.2.2.2⟩
  · rw [h2.1, h1.1, i0]
  · rw [h2.2.1, h1.2.1, o0]
  · rw [h2.2.2.1, h1.2.2.1, c0]

theorem executeWith_vote_quiet (env : Env A VC D)
    (Exec : Election A VC D → IMessage → Election A VC D × Outcome)
    (e : Election A VC D) (vt : VoteMessage) (hc : e.Committed = false)
    (h : (((e.recordVote env vt).votesFor vt.Volunteer.Signer).length : Int) <
          env.Majority e.AuthSet ∨
        e.CurrentVote.Rank > 0 ∨
        (e.CurrentVote.Rank = 0 ∧
          e.CurrentVote.VolunteerPriority ≥ e.getVolunteerPriority env vt.Volunteer.Signer)) :
    Election.executeWith env Exec e (.vote vt) = (e.recordVote env vt, .ret none false) := by
  obtain ⟨hv, hl, ht, hcm, -, ha, hp⟩ := recordVote_coreEq env e vt
  rw [executeWith_vote env Exec e vt hc]
  by_cases hm : (((e.recordVote env vt).votesFor vt.Volunteer.Signer).length : Int) ≥
      env.Majority (e.recordVote env vt).AuthSet
  · rw [if_pos hm]
    rw [ha] at hm
    rcases h with h | h | ⟨h, h'⟩
    · omega
    · rw [if_neg (by rw [hv]; omega), if_pos (by rw [hv]; exact h)]
    · have hq : (e.recordVote env vt).getVolunteerPriority env vt.Volunteer.Signer =
          e.getVolunteerPriority env vt.Volunteer.Signer := by
        unfold Election.getVolunteerPriority
        rw [ha, hp]
      rw [if_neg (by rw [hv]; omega), if_neg (by rw [hv]; omega), if_pos (by rw [hv, hq]; exact h')]
  · rw [if_neg hm]

theorem execute_vote_quiet (env : Env A VC D) (fuel : Nat)
    (e : Election A VC D) (vt : VoteMessage) (hc : e.Committed = false)
    (h : (((e.recordVote env vt).votesFor vt.Volunteer.Signer).length : Int) <
          env.Majority e.AuthSet ∨
        e.CurrentVote.Rank > 0 ∨
        (e.CurrentVote.Rank = 0 ∧
          e.CurrentVote.VolunteerPriority ≥ e.getVolunteerPriority env vt.Volunteer.Signer)) :
    Election.execute env fuel e (.vote vt) = (e.recordVote env vt, .ret none false) ∧
    Election.Execute env fuel e (.vote vt) = (e.recordVote env vt, .ret none false) := by
  have hex : Election.execute env fuel e (.vote vt) = (e.recordVote env vt, .ret none false) := by
    cases fuel with
    | zero => exact executeWith_vote_quiet env _ e vt hc h
    | succ n => exact executeWith_vote_quiet env _ e vt hc h
  refine ⟨hex, ?_⟩
  unfold Election.Execute Election.ExecuteWith
  rw [hex]

/-- C16: a vote that does not lead to an emission.  For a non-committed
election and a vote `vt` for volunteer V, when after storing `vt` the votes
stored for V number less than `Majority()`, or `CurrentVote.Rank > 0`, or
`CurrentVote.Rank = 0` and `CurrentVote.VolunteerPriority >= priority(V)`, then
`execute(vt)` returns `(nil, false)` within any budget; `CurrentVote`,
`CurrentLevel`, `CommitmentTally`, `Committed` and both message lists are
unchanged; and the map of V holds `vt` under `vt.Signer`, as its one entry for
that signer, with as many entries as before when the signer had one already. -/
theorem vote_no_emission (env : Env A VC D) (fuel : Nat) (e : Election A VC D)
    (vt : VoteMessage) (hc : e.Committed = false)
    (hkeys : ∀ inner, e.VolunteerVotes.get? vt.Volunteer.Signer = some inner →
      (inner.map Prod.fst).Nodup)
    (h : (((e.recordVote env vt).votesFor vt.Volunteer.Signer).length : Int) <
          env.Majority e.AuthSet ∨
        e.CurrentVote.Rank > 0 ∨
        (e.CurrentVote.Rank = 0 ∧
          e.CurrentVote.VolunteerPriority ≥ e.getVolunteerPriority env vt.Volunteer.Signer)) :
    (Election.execute env fuel e (.vote vt)).2 = .ret none false ∧
    (Election.Execute env fuel e (.vote vt)).2 = .ret none false ∧
    (Election.execute env fuel e (.vote vt)).1 = e.recordVote env vt ∧
    (Election.execute env fuel e (.vote vt)).1.CurrentVote = e.CurrentVote ∧
    (Election.execute env fuel e (.vote vt)).1.CurrentLevel = e.CurrentLevel ∧
    (Election.execute env fuel e (.vote vt)).1.CommitmentTally = e.CommitmentTally ∧
    (Election.execute env fuel e (.vote vt)).1.Committed = e.Committed ∧
    (Election.execute env fuel e (.vote vt)).1.MsgListIn = e.MsgListIn ∧
    (Election.execute env fuel e (.vote vt)).1.MsgListOut = e.MsgListOut ∧
    ∃ inner, (Election.execute env fuel e (.vote vt)).1.VolunteerVotes.get? vt.Volunteer.Signer
        = some inner ∧
      inner.get? vt.Signer = some vt ∧
      (inner.filter (fun p => decide (p.1 = vt.Signer))).length = 1 ∧
      ∀ old, e.VolunteerVotes.get? vt.Volunteer.Signer = some old →
        (old.get? vt.Signer).isSome = true → inner.length = old.length := by
  obtain ⟨hv, hl, ht, hcm, -, -, -⟩ := recordVote_coreEq env e vt
  obtain ⟨hex, hEx⟩ := execute_vote_quiet env fuel e vt hc h
  obtain ⟨hin, hout, -, hvotes⟩ := recordVote_lists env e vt
  rw [hex, hEx]
  refine ⟨rfl, rfl, rfl, hv, hl, ht, hcm, hin, hout, _, hvotes, GoMap.get?_set_self _ _ _, ?_, ?_⟩
  · apply GoMap.set_count
    cases hold : e.VolunteerVotes.get? vt.Volunteer.Signer with
    | none => exact List.nodup_nil
    | some old => exact hkeys old hold
  · intro old hold hsome
    rw [hold]
    exact GoMap.set_length_of_isSome old vt.Signer vt hsome

end VoteBranch

end Factomd

namespace Factomd

section Rank0

variable {A VC D : Type}

theorem sendRank0_eq_adopt (env : Env A VC D)
    (Exec : Election A VC D → IMessage → Election A VC D × Outcome)
    (e : Election A VC D) (vote : VoteMessage) :
    e.sendRank0 env Exec vote =
      rank0Return (e.rank0Message env vote)
        (Exec (e.adoptRank0 env vote) (.leaderLevel (e.rank0Message env vote))) :=
  rfl

theorem rank0Message_fields (env : Env A VC D) (e : Election A VC D) (vote : VoteMessage) :
    e.rank0Message env vote =
      { Signer := e.Self, Rank := 0, Level := e.CurrentLevel, VolunteerMessage := vote.Volunteer,
        VolunteerPriority := e.getVolunteerPriority env vote.Volunteer.Signer,
        VoteMessages := e.votesFor vote.Volunteer.Signer, Justification := [],
        Committed := false } :=
  rfl

theorem updateCurrentVote_frame (e : Election A VC D) (new : LeaderLevelMessage) :
    (e.updateCurrentVote new).Self = e.Self ∧
    (e.updateCurrentVote new).AuthSet = e.AuthSet ∧
    (e.updateCurrentVote new).ProcessListLocation = e.ProcessListLocation ∧
    (e.updateCurrentVote new).VolunteerControls = e.VolunteerControls ∧
    (e.updateCurrentVote new).VolunteerVotes = e.VolunteerVotes := by
  unfold Election.updateCurrentVote
  split
  · split
    · exact ⟨rfl, rfl, rfl, rfl, rfl⟩
    · exact ⟨rfl, rfl, rfl, rfl, rfl⟩
  · exact ⟨rfl, rfl, rfl, rfl, rfl⟩

theorem getVolunteerPriority_coreEq (env : Env A VC D) {e e' : Election A VC D}
    (h : e.CoreEq e') (vol : Identity) :
    e'.getVolunteerPriority env vol = e.getVolunteerPriority env vol := by
  obtain ⟨-, -, -, -, -, ha, hp⟩ := h
  unfold Election.getVolunteerPriority
  rw [ha, hp]

theorem executeWith_leaderLevel (env : Env A VC D)
    (Exec : Election A VC D → IMessage → Election A VC D × Outcome)
    (e : Election A VC D) (m : LeaderLevelMessage) (hc : e.Committed = false) :
    Election.executeWith env Exec e (.leaderLevel m) =
      (Election.executeDisplay env { e with TotalMessages := e.TotalMessages + 1 }
        (.leaderLevel m)).executeLeaderLevelMessage env Exec m := by
  have hd : (Election.executeDisplay env { e with TotalMessages := e.TotalMessages + 1 }
      (.leaderLevel m)).Committed = false := by
    rw [(executeDisplay_fields env _ _).1]
    exact hc
  unfold Election.executeWith
  simp only [hd]
  rfl

theorem recordVote_controls (env : Env A VC D) (e : Election A VC D) (vote : VoteMessage) :
    (e.recordVote env vote).VolunteerControls = e.VolunteerControls :=
  (recordVote_lists env e vote).2.2.1

/-- The loop over the embedded votes while the election holds a rank-0 vote
whose priority number is not below that of any volunteer voted for: no vote
leads to an emission. -/
theorem executeVotes_quiet (env : Env A VC D) (k : Nat) :
    ∀ (vs : List VoteMessage) (t : Election A VC D) (vc : Bool)
      (r0 : Option LeaderLevelMessage),
      t.Committed = false → t.CurrentVote.Rank = 0 →
      (∀ v ∈ vs, t.CurrentVote.VolunteerPriority ≥
        t.getVolunteerPriority env v.Volunteer.Signer) →
      ∃ t', executeVotes (Election.Execute env k) t vs vc r0 = (t', .ok (vc, r0)) ∧
        t.CoreEq t' ∧ t'.VolunteerControls = t.VolunteerControls := by
  intro vs
  induction vs with
  | nil =>
    intro t vc r0 _ _ _
    exact ⟨t, rfl, Election.CoreEq.rfl' t, rfl⟩
  | cons v vs ih =>
    intro t vc r0 hc hr hp
    have hq := (execute_vote_quiet env k t v hc
      (Or.inr (Or.inr ⟨hr, hp v (List.mem_cons_self v vs)⟩))).2
    have hcore := recordVote_coreEq env t v
    have hc1 : (t.recordVote env v).Committed = false := by
      rw [hcore.2.2.2.1]
      exact hc
    have hr1 : (t.recordVote env v).CurrentVote.Rank = 0 := by
      rw [hcore.1]
      exact hr
    have hp1 : ∀ w ∈ vs, (t.recordVote env v).CurrentVote.VolunteerPriority ≥
        (t.recordVote env v).getVolunteerPriority env w.Volunteer.Signer := by
      intro w hw
      rw [hcore.1, getVolunteerPriority_coreEq env hcore]
      exact hp w (List.mem_cons_of_mem v hw)
    obtain ⟨t', h1, h2, h3⟩ := ih (t.recordVote env v) vc r0 hc1 hr1 hp1
    refine ⟨t', ?_, Election.CoreEq.trans' hcore h2, ?_⟩
    · unfold executeVotes
      rw [hq]
      simp only [Bool.false_or]
      cases r0 <;> exact h1
    · rw [h3]
      exact recordVote_controls env t v

theorem receive_control (env : Env A VC D) (e : Election A VC D) (msg : LeaderLevelMessage) :
    (e.receive env msg).VolunteerControls.get? msg.VolunteerMessage.Signer =
      some ((e.VolunteerControls.get? msg.VolunteerMessage.Signer).getD
        (env.NewVolunteerControl e.Self e.AuthSet)) := by
  unfold Election.receive
  cases h : e.VolunteerControls.get? msg.VolunteerMessage.Signer with
  | some c => exact h
  | none => exact GoMap.get?_set_self _ _ _

/-- The end of `executeLeaderLevelMessage` when the control gives nothing that
is greater than the current vote: nil is returned and the vote state stays. -/
theorem consultControl_quiet (env : Env A VC D)
    (Exec : Election A VC D → IMessage → Election A VC D × Outcome)
    (t : Election A VC D) (msg : LeaderLevelMessage) (vch : Bool)
    (r0 : Option LeaderLevelMessage) (c : VC)
    (hget : t.VolunteerControls.get? msg.VolunteerMessage.Signer = some c)
    (hq : (env.vcExecute c msg).2.1 = none ∨
      ∃ r, (env.vcExecute c msg).2.1 = some (.leaderLevel r) ∧
        t.CurrentVote.Less { r with
          VolunteerPriority := t.getVolunteerPriority env r.VolunteerMessage.Signer } = false) :
    ∃ t' ch, t.consultControl env Exec msg vch r0 = (t', .ret none ch) ∧ t.CoreEq t' := by
  unfold Election.consultControl
  split
  · rename_i hg
    rw [hget] at hg
    cases hg
  rename_i c' hg
  have hcc : c' = c := by
    rw [hget] at hg
    exact (Option.some.inj hg).symm
  subst hcc
  split
  rename_i c1 res change hv
  rw [hv] at hq
  dsimp only at hq
  split
  · rename_i ll
    have hless : t.CurrentVote.Less { ll with
        VolunteerPriority := t.getVolunteerPriority env ll.VolunteerMessage.Signer } = false := by
      rcases hq with hq | ⟨r, hq, hless⟩
      · cases hq
      · cases hq
        exact hless
    have hd := displayResult_coreEq env
      { t with VolunteerControls := t.VolunteerControls.set msg.VolunteerMessage.Signer c1 } ll
    dsimp only
    generalize Election.displayResult env
      { t with VolunteerControls := t.VolunteerControls.set msg.VolunteerMessage.Signer c1 } ll
      = S at hd ⊢
    have hp := getVolunteerPriority_coreEq env hd ll.VolunteerMessage.Signer
    have hless' : S.CurrentVote.Less { ll with
        VolunteerPriority := S.getVolunteerPriority env ll.VolunteerMessage.Signer } = false := by
      rw [hd.1, hp]
      exact hless
    rw [if_neg (by rw [hless']; exact Bool.false_ne_true)]
    split
    · exact ⟨_, _, rfl, hd⟩
    · split <;> exact ⟨_, _, rfl, hd⟩
  · rename_i hne
    rcases hq with hq | ⟨r, hq, -⟩
    · cases hq
    · exact absurd (Option.some.inj hq) (hne r)
  · split <;> exact ⟨_, _, rfl, rfl, rfl, rfl, rfl, rfl, rfl, rfl⟩

/-- `executeLeaderLevelMessage` on a message of positive level whose embedded
votes lead to no emission and whose control gives nothing greater than the
current vote returns nil and leaves the vote state. -/
theorem executeLeaderLevelMessage_quiet (env : Env A VC D) (k : Nat)
    (t : Election A VC D) (msg : LeaderLevelMessage)
    (hc : t.Committed = false) (hlevel : 0 < msg.Level) (hrank : t.CurrentVote.Rank = 0)
    (hvotes : ∀ v ∈ msg.VoteMessages, t.CurrentVote.VolunteerPriority ≥
      t.getVolunteerPriority env v.Volunteer.Signer)
    (hq : t.controlAnswer env msg = none ∨
      ∃ r, t.controlAnswer env msg = some (.leaderLevel r) ∧
        t.CurrentVote.Less { r with
          VolunteerPriority := t.getVolunteerPriority env r.VolunteerMessage.Signer } = false) :
    ∃ t' ch, t.executeLeaderLevelMessage env (Election.Execute env k) msg = (t', .ret none ch) ∧
      t.CoreEq t' := by
  rw [executeLeaderLevelMessage_eq]
  rw [if_neg (by omega)]
  have hrec := receive_coreEq env t msg
  have hc1 : (t.receive env msg).Committed = false := by
    rw [hrec.2.2.2.1]
    exact hc
  have hr1 : (t.receive env msg).CurrentVote.Rank = 0 := by
    rw [hrec.1]
    exact hrank
  have hp1 : ∀ v ∈ msg.VoteMessages, (t.receive env msg).CurrentVote.VolunteerPriority ≥
      (t.receive env msg).getVolunteerPriority env v.Volunteer.Signer := by
    intro v hv
    rw [hrec.1, getVolunteerPriority_coreEq env hrec]
    exact hvotes v hv
  obtain ⟨t2, h1, h2, h3⟩ := executeVotes_quiet env k msg.VoteMessages (t.receive env msg)
    false none hc1 hr1 hp1
  rw [h1]
  dsimp only
  have hcore := Election.CoreEq.trans' hrec h2
  have hget : t2.VolunteerControls.get? msg.VolunteerMessage.Signer =
      some ((t.VolunteerControls.get? msg.VolunteerMessage.Signer).getD
        (env.NewVolunteerControl t.Self t.AuthSet)) := by
    rw [h3]
    exact receive_control env t msg
  have hq2 : (env.vcExecute ((t.VolunteerControls.get? msg.VolunteerMessage.Signer).getD
        (env.NewVolunteerControl t.Self t.AuthSet)) msg).2.1 = none ∨
      ∃ r, (env.vcExecute ((t.VolunteerControls.get? msg.VolunteerMessage.Signer).getD
        (env.NewVolunteerControl t.Self t.AuthSet)) msg).2.1 = some (.leaderLevel r) ∧
        t2.CurrentVote.Less { r with
          VolunteerPriority := t2.getVolunteerPriority env r.VolunteerMessage.Signer } = false := by
    rcases hq with hq | ⟨r, hq, hl⟩
    · exact Or.inl hq
    · refine Or.inr ⟨r, hq, ?_⟩
      rw [hcore.1, getVolunteerPriority_coreEq env hcore]
      exact hl
  obtain ⟨t3, ch, h4, h5⟩ := consultControl_quiet env (Election.Execute env k) t2 msg false none
    _ hget hq2
  exact ⟨t3, ch, h4, Election.CoreEq.trans' hcore h5⟩

/-- The statements under `SendRank0` when the election is not committed, its
current level is at least 1, the votes stored for the volunteer are votes for
that volunteer, and the control gives no better message: the rank-0 message is
adopted and returned. -/
theorem sendRank0_quiet (env : Env A VC D) (k : Nat) (s : Election A VC D) (vt : VoteMessage)
    (hc : s.Committed = false) (hlevel : 1 ≤ s.CurrentLevel)
    (hvotes : ∀ v ∈ s.votesFor vt.Volunteer.Signer, v.Volunteer.Signer = vt.Volunteer.Signer)
    (hq : s.noBetterAnswer env (s.rank0Message env vt)) :
    ∃ final, s.sendRank0 env (Election.Execute env (k + 1)) vt =
        (final, .ret (some (.leaderLevel (s.rank0Message env vt))) true) ∧
      (s.adoptRank0 env vt).CoreEq final := by
  rw [sendRank0_eq_adopt]
  obtain ⟨a1, a2, a3, -⟩ := updateCurrentVote_fields
    { s with CurrentLevel := goAdd s.CurrentLevel 1 } (s.rank0Message env vt)
  obtain ⟨b1, b2, b3, b4, -⟩ := updateCurrentVote_frame
    { s with CurrentLevel := goAdd s.CurrentLevel 1 } (s.rank0Message env vt)
  have hca : (s.adoptRank0 env vt).Committed = false := by
    unfold Election.adoptRank0
    rw [a3]
    exact hc
  -- the state on which `executeLeaderLevelMessage` runs
  have hd := executeDisplay_coreEq env
    { s.adoptRank0 env vt with TotalMessages := (s.adoptRank0 env vt).TotalMessages + 1 }
    (.leaderLevel (s.rank0Message env vt))
  have hdc := (executeDisplay_fields env
    { s.adoptRank0 env vt with TotalMessages := (s.adoptRank0 env vt).TotalMessages + 1 }
    (.leaderLevel (s.rank0Message env vt))).2.2.2.2.2.1
  have hcore : (s.adoptRank0 env vt).CoreEq (Election.executeDisplay env
      { s.adoptRank0 env vt with TotalMessages := (s.adoptRank0 env vt).TotalMessages + 1 }
      (.leaderLevel (s.rank0Message env vt))) :=
    Election.CoreEq.trans' ⟨rfl, rfl, rfl, rfl, rfl, rfl, rfl⟩ hd
  have hprio : ∀ vol, (Election.executeDisplay env
      { s.adoptRank0 env vt with TotalMessages := (s.adoptRank0 env vt).TotalMessages + 1 }
      (.leaderLevel (s.rank0Message env vt))).getVolunteerPriority env vol =
        s.getVolunteerPriority env vol := by
    intro vol
    rw [getVolunteerPriority_coreEq env hcore]
    unfold Election.getVolunteerPriority Election.adoptRank0
    rw [b2, b3]
  have hcv : (Election.executeDisplay env
      { s.adoptRank0 env vt with TotalMessages := (s.adoptRank0 env vt).TotalMessages + 1 }
      (.leaderLevel (s.rank0Message env vt))).CurrentVote = s.rank0Message env vt := by
    rw [hcore.1]
    exact a1
  have hquiet := executeLeaderLevelMessage_quiet env k
    (Election.executeDisplay env
      { s.adoptRank0 env vt with TotalMessages := (s.adoptRank0 env vt).TotalMessages + 1 }
      (.leaderLevel (s.rank0Message env vt)))
    (s.rank0Message env vt)
    (by rw [hcore.2.2.2.1]; exact hca)
    (by show 0 < s.CurrentLevel; omega)
    (by rw [hcv]; rfl)
    (by
      intro v hv
      rw [hcv, hprio]
      have hv' : v ∈ s.votesFor vt.Volunteer.Signer := hv
      rw [hvotes v hv']
      exact le_refl _)
    (by
      have hans : (Election.executeDisplay env
          { s.adoptRank0 env vt with TotalMessages := (s.adoptRank0 env vt).TotalMessages + 1 }
          (.leaderLevel (s.rank0Message env vt))).controlAnswer env (s.rank0Message env vt) =
            s.controlAnswer env (s.rank0Message env vt) := by
        unfold Election.controlAnswer
        rw [hdc, hcore.2.2.2.2.1, hcore.2.2.2.2.2.1]
        unfold Election.adoptRank0
        rw [b4, b1, b2]
      rw [hans, hcv]
      rcases hq with hq | ⟨r, hq, hl⟩
      · exact Or.inl hq
      · refine Or.inr ⟨r, hq, ?_⟩
        rw [hprio]
        exact hl)
  obtain ⟨t', ch, h1, h2⟩ := hquiet
  have hexec : Election.execute env (k + 1) (s.adoptRank0 env vt)
      (.leaderLevel (s.rank0Message env vt)) = (t', .ret none ch) := by
    show Election.executeWith env (Election.ExecuteWith (Election.execute env k))
      (s.adoptRank0 env vt) (.leaderLevel (s.rank0Message env vt)) = _
    rw [executeWith_leaderLevel env _ _ _ hca]
    exact h1
  have hExec : Election.Execute env (k + 1) (s.adoptRank0 env vt)
      (.leaderLevel (s.rank0Message env vt)) =
        ({ t' with MsgListOut := t'.MsgListOut ++ [s.rank0Message env vt] }, .ret none ch) := by
    unfold Election.Execute Election.ExecuteWith
    rw [hexec]
  rw [hExec]
  refine ⟨_, rfl, ?_⟩
  exact Election.CoreEq.trans' (Election.CoreEq.trans' hcore h2) ⟨rfl, rfl, rfl, rfl, rfl, rfl, rfl⟩

theorem GoMap.mem_values_set {K V : Type} [DecidableEq K] (m : GoMap K V) (k : K) (v x : V)
    (h : x ∈ (GoMap.set m k v).values) : x = v ∨ x ∈ m.values := by
  induction m with
  | nil =>
    simp only [GoMap.set, GoMap.values, List.map_cons, List.map_nil, List.mem_singleton] at h
    exact Or.inl h
  | cons p rest ih =>
    obtain ⟨k', v'⟩ := p
    unfold GoMap.set at h
    by_cases hk : k' = k
    · rw [if_pos hk] at h
      simp only [GoMap.values, List.map_cons, List.mem_cons] at h ⊢
      rcases h with h | h
      · exact Or.inl h
      · exact Or.inr (Or.inr h)
    · rw [if_neg hk] at h
      simp only [GoMap.values, List.map_cons, List.mem_cons] at h ⊢
      rcases h with h | h
      · exact Or.inr (Or.inl h)
      · rcases ih h with h | h
        · exact Or.inl h
        · exact Or.inr (Or.inr h)

theorem recordVote_votesFor (env : Env A VC D) (e : Election A VC D) (vt : VoteMessage)
    (h : ∀ v ∈ e.votesFor vt.Volunteer.Signer, v.Volunteer.Signer = vt.Volunteer.Signer) :
    ∀ v ∈ (e.recordVote env vt).votesFor vt.Volunteer.Signer,
      v.Volunteer.Signer = vt.Volunteer.Signer := by
  intro v hv
  unfold Election.votesFor at hv h
  rw [(recordVote_lists env e vt).2.2.2] at hv
  dsimp only at hv
  rcases GoMap.mem_values_set _ _ _ _ hv with hv | hv
  · rw [hv]
  · cases hold : e.VolunteerVotes.get? vt.Volunteer.Signer with
    | none =>
      rw [hold] at hv
      simp [GoMap.values] at hv
    | some old =>
      rw [hold] at hv h
      exact h v hv

end Rank0

end Factomd

namespace Factomd

section Promotion

variable {A VC D : Type}

theorem noBetterAnswer_recordVote (env : Env A VC D) (e : Election A VC D) (vt : VoteMessage)
    (ll : LeaderLevelMessage) (h : e.noBetterAnswer env ll) :
    (e.recordVote env vt).noBetterAnswer env ll := by
  have hcore := recordVote_coreEq env e vt
  have hctl := recordVote_controls env e vt
  have hans : (e.recordVote env vt).controlAnswer env ll = e.controlAnswer env ll := by
    unfold Election.controlAnswer
    rw [hctl, hcore.2.2.2.2.1, hcore.2.2.2.2.2.1]
  unfold Election.noBetterAnswer at h ⊢
  rw [hans]
  rcases h with h | ⟨r, h, hl⟩
  · exact Or.inl h
  · refine Or.inr ⟨r, h, ?_⟩
    rw [getVolunteerPriority_coreEq env hcore]
    exact hl

/-- The rank-0 emission of the Vote branch, for both ways into `SendRank0`:
what is built and adopted, how `execute` continues, and what it returns when
the control gives no better message. -/
theorem rank0_emission (env : Env A VC D) (k : Nat) (e : Election A VC D) (vt : VoteMessage)
    (hc : e.Committed = false)
    (hmaj : (((e.recordVote env vt).votesFor vt.Volunteer.Signer).length : Int) ≥
      env.Majority e.AuthSet)
    (hguard : e.CurrentVote.Rank = -1 ∨
      (e.CurrentVote.Rank = 0 ∧
        e.CurrentVote.VolunteerPriority < e.getVolunteerPriority env vt.Volunteer.Signer)) :
    (e.recordVote env vt).rank0Message env vt =
      { Signer := e.Self, Rank := 0, Level := e.CurrentLevel, VolunteerMessage := vt.Volunteer,
        VolunteerPriority := e.getVolunteerPriority env vt.Volunteer.Signer,
        VoteMessages := (e.recordVote env vt).votesFor vt.Volunteer.Signer,
        Justification := [], Committed := false } ∧
    ((e.recordVote env vt).adoptRank0 env vt).CurrentVote =
      (e.recordVote env vt).rank0Message env vt ∧
    ((e.recordVote env vt).adoptRank0 env vt).CurrentLevel = goAdd e.CurrentLevel 1 ∧
    ((e.recordVote env vt).adoptRank0 env vt).CommitmentTally =
      (if e.getVolunteerPriority env vt.Volunteer.Signer = e.CurrentVote.VolunteerPriority ∧
          e.CurrentVote.Rank = -1 then e.CommitmentTally + 1 else 1) ∧
    ((e.recordVote env vt).adoptRank0 env vt).Committed = false ∧
    Election.execute env (k + 1) e (.vote vt) =
      rank0Return ((e.recordVote env vt).rank0Message env vt)
        (Election.Execute env k ((e.recordVote env vt).adoptRank0 env vt)
          (.leaderLevel ((e.recordVote env vt).rank0Message env vt))) ∧
    (1 ≤ e.CurrentLevel →
      (∀ v ∈ e.votesFor vt.Volunteer.Signer, v.Volunteer.Signer = vt.Volunteer.Signer) →
      e.noBetterAnswer env ((e.recordVote env vt).rank0Message env vt) →
      ∃ final, Election.execute env (k + 2) e (.vote vt) =
          (final, .ret (some (.leaderLevel ((e.recordVote env vt).rank0Message env vt))) true) ∧
        ((e.recordVote env vt).adoptRank0 env vt).CoreEq final) := by
  obtain ⟨hv, hl, ht, hcm, hs, ha, hp⟩ := recordVote_coreEq env e vt
  have hprio := getVolunteerPriority_coreEq env (recordVote_coreEq env e vt) vt.Volunteer.Signer
  have hmsg : (e.recordVote env vt).rank0Message env vt =
      { Signer := e.Self, Rank := 0, Level := e.CurrentLevel, VolunteerMessage := vt.Volunteer,
        VolunteerPriority := e.getVolunteerPriority env vt.Volunteer.Signer,
        VoteMessages := (e.recordVote env vt).votesFor vt.Volunteer.Signer,
        Justification := [], Committed := false } := by
    rw [rank0Message_fields, hs, hl, hprio]
  have hexec : ∀ Exec : Election A VC D → IMessage → Election A VC D × Outcome,
      Election.executeWith env Exec e (.vote vt) = (e.recordVote env vt).sendRank0 env Exec vt := by
    intro Exec
    rw [executeWith_vote env Exec e vt hc, if_pos (by rw [ha]; exact hmaj)]
    rcases hguard with h | ⟨h, h'⟩
    · rw [if_pos (by rw [hv]; exact h)]
    · rw [if_neg (by rw [hv]; omega), if_neg (by rw [hv]; omega),
        if_neg (by rw [hv, hprio]; omega)]
  refine ⟨hmsg, ?_, ?_, ?_, ?_, ?_, ?_⟩
  · exact (updateCurrentVote_fields _ _).1
  · unfold Election.adoptRank0
    rw [(updateCurrentVote_fields _ _).2.1]
    show goAdd (e.recordVote env vt).CurrentLevel 1 = goAdd e.CurrentLevel 1
    rw [hl]
  · unfold Election.adoptRank0 Election.updateCurrentVote
    rw [hmsg]
    show (if e.getVolunteerPriority env vt.Volunteer.Signer =
        (e.recordVote env vt).CurrentVote.VolunteerPriority then
      if (e.recordVote env vt).CurrentVote.Rank + 1 = 0 then _ else _ else _ :
        Election A VC D).CommitmentTally = _
    rw [hv]
    by_cases h1 : e.getVolunteerPriority env vt.Volunteer.Signer = e.CurrentVote.VolunteerPriority
    · by_cases h2 : e.CurrentVote.Rank = -1
      · rw [if_pos h1, if_pos (by omega), if_pos ⟨h1, h2⟩]
        show (e.recordVote env vt).CommitmentTally + 1 = _
        rw [ht]
      · rw [if_pos h1, if_neg (by omega), if_neg (fun h => h2 h.2)]
    · rw [if_neg h1, if_neg (fun h => h1 h.1)]
  · unfold Election.adoptRank0
    rw [(updateCurrentVote_fields _ _).2.2.1]
    exact hcm.trans hc
  · show Election.executeWith env (Election.ExecuteWith (Election.execute env k)) e (.vote vt) = _
    rw [hexec, sendRank0_eq_adopt]
    rfl
  · intro hlevel hvotes hq
    show ∃ final, Election.executeWith env (Election.ExecuteWith (Election.execute env (k + 1))) e
      (.vote vt) = _ ∧ _
    rw [hexec]
    exact sendRank0_quiet env k (e.recordVote env vt) vt (hcm.trans hc) (by rw [hl]; exact hlevel)
      (recordVote_votesFor env e vt hvotes) (noBetterAnswer_recordVote env e vt _ hq)

end Promotion

end Factomd

namespace Factomd

/-- C17: base promotion.  For a non-committed election with
`CurrentVote.Rank = -1` and a vote `vt` after whose storing the votes stored for
its volunteer number at least `Majority()`, `execute(vt)` builds the message
`LeaderLevel{Self, rank 0, level = the previous CurrentLevel, vt.Volunteer,
priority(vt.Volunteer.Signer), votes = the votes stored for that volunteer}`,
adopts it as `CurrentVote`, increments `CurrentLevel`, and runs the message
through `Execute`; the tally becomes 1 from the tally 0 of an election without
a vote (in general: 1, or the old tally plus 1 when the old current vote had the
same priority).  When moreover the current level is at least 1, the votes
stored for the volunteer are votes for it, and the control yields no better
message, `execute` returns that message with `changed = true` within a budget
of 2, with the adopted vote state: `CurrentLevel` is the previous value
incremented (`goAdd`, the addition of Go `int`). -/
theorem base_promotion {A VC D : Type} (env : Env A VC D) (k : Nat) (e : Election A VC D)
    (vt : VoteMessage) (hc : e.Committed = false) (hrank : e.CurrentVote.Rank = -1)
    (hmaj : (((e.recordVote env vt).votesFor vt.Volunteer.Signer).length : Int) ≥
      env.Majority e.AuthSet) :
    (e.recordVote env vt).rank0Message env vt =
      { Signer := e.Self, Rank := 0, Level := e.CurrentLevel, VolunteerMessage := vt.Volunteer,
        VolunteerPriority := e.getVolunteerPriority env vt.Volunteer.Signer,
        VoteMessages := (e.recordVote env vt).votesFor vt.Volunteer.Signer,
        Justification := [], Committed := false } ∧
    ((e.recordVote env vt).adoptRank0 env vt).CurrentVote =
      (e.recordVote env vt).rank0Message env vt ∧
    ((e.recordVote env vt).adoptRank0 env vt).CurrentLevel = goAdd e.CurrentLevel 1 ∧
    ((e.recordVote env vt).adoptRank0 env vt).CommitmentTally =
      (if e.getVolunteerPriority env vt.Volunteer.Signer = e.CurrentVote.VolunteerPriority
        then e.CommitmentTally + 1 else 1) ∧
    (e.CommitmentTally = 0 → ((e.recordVote env vt).adoptRank0 env vt).CommitmentTally = 1) ∧
    Election.execute env (k + 1) e (.vote vt) =
      rank0Return ((e.recordVote env vt).rank0Message env vt)
        (Election.Execute env k ((e.recordVote env vt).adoptRank0 env vt)
          (.leaderLevel ((e.recordVote env vt).rank0Message env vt))) ∧
    (1 ≤ e.CurrentLevel →
      (∀ v ∈ e.votesFor vt.Volunteer.Signer, v.Volunteer.Signer = vt.Volunteer.Signer) →
      e.noBetterAnswer env ((e.recordVote env vt).rank0Message env vt) →
      ∃ final, Election.execute env (k + 2) e (.vote vt) =
          (final, .ret (some (.leaderLevel ((e.recordVote env vt).rank0Message env vt))) true) ∧
        final.CurrentVote = (e.recordVote env vt).rank0Message env vt ∧
        final.CurrentLevel = goAdd e.CurrentLevel 1 ∧
        final.CommitmentTally = ((e.recordVote env vt).adoptRank0 env vt).CommitmentTally ∧
        final.Committed = false) := by
  obtain ⟨h1, h2, h3, h4, h5, h6, h7⟩ := rank0_emission env k e vt hc hmaj (Or.inl hrank)
  have h4' : ((e.recordVote env vt).adoptRank0 env vt).CommitmentTally =
      (if e.getVolunteerPriority env vt.Volunteer.Signer = e.CurrentVote.VolunteerPriority
        then e.CommitmentTally + 1 else 1) := by
    rw [h4]
    by_cases hp : e.getVolunteerPriority env vt.Volunteer.Signer = e.CurrentVote.VolunteerPriority
    · rw [if_pos ⟨hp, hrank⟩, if_pos hp]
    · rw [if_neg (fun h => hp h.1), if_neg hp]
  refine ⟨h1, h2, h3, h4', ?_, h6, ?_⟩
  · intro h0
    rw [h4', h0]
    split <;> rfl
  · intro hl hv hq
    obtain ⟨final, hf, hcore⟩ := h7 hl hv hq
    obtain ⟨c1, c2, c3, c4, -⟩ := hcore
    exact ⟨final, hf, c1.trans h2, c2.trans h3, c3, c4.trans h5⟩

/-- C18 (amended): the priority switch.  For a non-committed election whose
current vote has rank 0 and a vote `vt` that brings the votes stored for its
volunteer to at least `Majority()`: when the priority number of that volunteer
is larger than `CurrentVote.VolunteerPriority`, `execute(vt)` builds a new
rank-0 message for it, adopts it as `CurrentVote` with the tally reset to 1 and
`CurrentLevel` incremented, and (when the current level is at least 1, the
votes stored for the volunteer are votes for it, and the control yields no
better message) returns it with `changed = true`; when the priority number is
smaller or equal, `execute(vt)` returns `(nil, false)` and keeps the current
vote. -/
theorem priority_switch {A VC D : Type} (env : Env A VC D) (k : Nat) (e : Election A VC D)
    (vt : VoteMessage) (hc : e.Committed = false) (hrank : e.CurrentVote.Rank = 0)
    (hmaj : (((e.recordVote env vt).votesFor vt.Volunteer.Signer).length : Int) ≥
      env.Majority e.AuthSet) :
    (e.CurrentVote.VolunteerPriority < e.getVolunteerPriority env vt.Volunteer.Signer →
      (e.recordVote env vt).rank0Message env vt =
        { Signer := e.Self, Rank := 0, Level := e.CurrentLevel, VolunteerMessage := vt.Volunteer,
          VolunteerPriority := e.getVolunteerPriority env vt.Volunteer.Signer,
          VoteMessages := (e.recordVote env vt).votesFor vt.Volunteer.Signer,
          Justification := [], Committed := false } ∧
      ((e.recordVote env vt).adoptRank0 env vt).CurrentVote =
        (e.recordVote env vt).rank0Message env vt ∧
      ((e.recordVote env vt).adoptRank0 env vt).CurrentLevel = goAdd e.CurrentLevel 1 ∧
      ((e.recordVote env vt).adoptRank0 env vt).CommitmentTally = 1 ∧
      Election.execute env (k + 1) e (.vote vt) =
        rank0Return ((e.recordVote env vt).rank0Message env vt)
          (Election.Execute env k ((e.recordVote env vt).adoptRank0 env vt)
            (.leaderLevel ((e.recordVote env vt).rank0Message env vt))) ∧
      (1 ≤ e.CurrentLevel →
        (∀ v ∈ e.votesFor vt.Volunteer.Signer, v.Volunteer.Signer = vt.Volunteer.Signer) →
        e.noBetterAnswer env ((e.recordVote env vt).rank0Message env vt) →
        ∃ final, Election.execute env (k + 2) e (.vote vt) =
            (final, .ret (some (.leaderLevel ((e.recordVote env vt).rank0Message env vt))) true) ∧
          final.CurrentVote = (e.recordVote env vt).rank0Message env vt ∧
          final.CurrentLevel = goAdd e.CurrentLevel 1 ∧
          final.CommitmentTally = 1 ∧
          final.Committed = false)) ∧
    (e.getVolunteerPriority env vt.Volunteer.Signer ≤ e.CurrentVote.VolunteerPriority →
      Election.execute env k e (.vote vt) = (e.recordVote env vt, .ret none false) ∧
      (e.recordVote env vt).CurrentVote = e.CurrentVote ∧
      (e.recordVote env vt).CommitmentTally = e.CommitmentTally) := by
  constructor
  · intro hp
    obtain ⟨h1, h2, h3, h4, h5, h6, h7⟩ := rank0_emission env k e vt hc hmaj (Or.inr ⟨hrank, hp⟩)
    rw [if_neg (fun h => by omega)] at h4
    refine ⟨h1, h2, h3, h4, h6, ?_⟩
    intro hl hv hq
    obtain ⟨final, hf, hcore⟩ := h7 hl hv hq
    obtain ⟨c1, c2, c3, c4, -⟩ := hcore
    exact ⟨final, hf, c1.trans h2, c2.trans h3, c3.trans h4, c4.trans h5⟩
  · intro hp
    obtain ⟨hv, -, ht, -⟩ := recordVote_coreEq env e vt
    exact ⟨(execute_vote_quiet env k e vt hc (Or.inr (Or.inr ⟨hrank, hp⟩))).1, hv, ht⟩

end Factomd

namespace Factomd

section VolunteerBranch

variable {A VC D : Type}

theorem executeWith_volunteer (env : Env A VC D)
    (Exec : Election A VC D → IMessage → Election A VC D × Outcome)
    (e : Election A VC D) (vol : VolunteerMessage) (hc : e.Committed = false) :
    Election.executeWith env Exec e (.volunteer vol) =
      if (((e.recordVolunteer env vol).VolunteerVotes.get? vol.Signer).bind
          (fun inner => inner.get? (e.recordVolunteer env vol).Self)).isSome then
        (e.recordVolunteer env vol, .ret none false)
      else
        volunteerReturn vol (NewVoteMessage vol (e.recordVolunteer env vol).Self)
          (Exec
            ((e.recordVolunteer env vol).storeVote vol.Signer (e.recordVolunteer env vol).Self
              (NewVoteMessage vol (e.recordVolunteer env vol).Self))
            (.vote (NewVoteMessage vol (e.recordVolunteer env vol).Self))) := by
  have hd : (Election.executeDisplay env { e with TotalMessages := e.TotalMessages + 1 }
      (.volunteer vol)).Committed = false := by
    rw [(executeDisplay_fields env _ _).1]
    exact hc
  unfold Election.executeWith
  simp only [hd]
  rfl

theorem recordVolunteer_coreEq (env : Env A VC D) (e : Election A VC D) (vol : VolunteerMessage) :
    e.CoreEq (e.recordVolunteer env vol) := by
  unfold Election.recordVolunteer
  refine Election.CoreEq.trans' ?_ (ensureVotes_coreEq _ _)
  refine Election.CoreEq.trans' ?_ (executeDisplay_coreEq env _ _)
  exact ⟨rfl, rfl, rfl, rfl, rfl, rfl, rfl⟩

theorem recordVolunteer_votes (env : Env A VC D) (e : Election A VC D) (vol : VolunteerMessage) :
    (e.recordVolunteer env vol).VolunteerVotes.get? vol.Signer =
      some ((e.VolunteerVotes.get? vol.Signer).getD []) ∧
    ((e.VolunteerVotes.get? vol.Signer).isSome = true →
      (e.recordVolunteer env vol).VolunteerVotes = e.VolunteerVotes) := by
  have h0 := (executeDisplay_fields env { e with TotalMessages := e.TotalMessages + 1 }
    (.volunteer vol)).2.2.2.2.1
  have h1 := (ensureVotes_lists (Election.executeDisplay env
    { e with TotalMessages := e.TotalMessages + 1 } (.volunteer vol)) vol.Signer).2.2.2
  rw [h0] at h1
  refine ⟨h1, ?_⟩
  intro hs
  unfold Election.recordVolunteer Election.ensureVotes
  dsimp only
  rw [h0]
  cases hg : e.VolunteerVotes.get? vol.Signer with
  | none =>
    rw [hg] at hs
    exact absurd hs Bool.false_ne_true
  | some inner => exact h0

theorem voted_recordVolunteer (env : Env A VC D) (e : Election A VC D) (vol : VolunteerMessage) :
    ((e.recordVolunteer env vol).VolunteerVotes.get? vol.Signer).bind
        (fun inner => inner.get? (e.recordVolunteer env vol).Self) =
      (e.VolunteerVotes.get? vol.Signer).bind (fun inner => inner.get? e.Self) := by
  rw [(recordVolunteer_votes env e vol).1, (recordVolunteer_coreEq env e vol).2.2.2.2.1]
  cases e.VolunteerVotes.get? vol.Signer with
  | none => rfl
  | some inner => rfl

/-- C19: volunteer dispatch.  For a non-committed election and a volunteer
message `v`: when the votes stored for `v.Signer` hold an entry for `Self`,
`execute(v)` returns `(nil, false)` and changes neither the vote state nor the
stored votes; otherwise it stores `Vote{Self, v}` under `v.Signer` and `Self`,
runs that vote through `Execute`, and from the result of that call returns
`changed = true` with the leader-level message the call produced (the votes
known for `v.Signer` appended) or else with the vote; while the stored votes
stay below `Majority()` it returns the vote, within a budget of 1. -/
theorem volunteer_dispatch (env : Env A VC D) (k : Nat) (e : Election A VC D)
    (v : VolunteerMessage) (hc : e.Committed = false) :
    (((e.VolunteerVotes.get? v.Signer).bind (fun inner => inner.get? e.Self)).isSome = true →
      Election.execute env k e (.volunteer v) = (e.recordVolunteer env v, .ret none false) ∧
      e.CoreEq (e.recordVolunteer env v) ∧
      (e.recordVolunteer env v).VolunteerVotes = e.VolunteerVotes) ∧
    (((e.VolunteerVotes.get? v.Signer).bind (fun inner => inner.get? e.Self)).isSome = false →
      (((e.recordVolunteer env v).storeVote v.Signer e.Self
          (NewVoteMessage v e.Self)).VolunteerVotes.get? v.Signer).bind
        (fun inner => inner.get? e.Self) = some ⟨e.Self, v⟩ ∧
      Election.execute env (k + 1) e (.volunteer v) =
        volunteerReturn v (NewVoteMessage v e.Self)
          (Election.Execute env k
            ((e.recordVolunteer env v).storeVote v.Signer e.Self (NewVoteMessage v e.Self))
            (.vote (NewVoteMessage v e.Self))) ∧
      (∀ s resp c,
        Election.Execute env k
            ((e.recordVolunteer env v).storeVote v.Signer e.Self (NewVoteMessage v e.Self))
            (.vote (NewVoteMessage v e.Self)) = (s, .ret resp c) →
          (∃ ll, resp = some (.leaderLevel ll) ∧
            Election.execute env (k + 1) e (.volunteer v) =
              (s, .ret (some (.leaderLevel
                { ll with VoteMessages := ll.VoteMessages ++ s.votesFor v.Signer })) true)) ∨
          ((∀ ll, resp ≠ some (.leaderLevel ll)) ∧
            Election.execute env (k + 1) e (.volunteer v) =
              (s, .ret (some (.vote ⟨e.Self, v⟩)) true))) ∧
      ((((((e.recordVolunteer env v).storeVote v.Signer e.Self
          (NewVoteMessage v e.Self)).recordVote env (NewVoteMessage v e.Self)).votesFor
            v.Signer).length : Int) < env.Majority e.AuthSet →
        Election.execute env (k + 1) e (.volunteer v) =
          (((e.recordVolunteer env v).storeVote v.Signer e.Self
            (NewVoteMessage v e.Self)).recordVote env (NewVoteMessage v e.Self),
            .ret (some (.vote ⟨e.Self, v⟩)) true))) := by
  have hcore := recordVolunteer_coreEq env e v
  have hself : (e.recordVolunteer env v).Self = e.Self := hcore.2.2.2.2.1
  have hvoted := voted_recordVolunteer env e v
  have hex : ∀ Exec : Election A VC D → IMessage → Election A VC D × Outcome,
      Election.executeWith env Exec e (.volunteer v) =
        if ((e.VolunteerVotes.get? v.Signer).bind (fun inner => inner.get? e.Self)).isSome then
          (e.recordVolunteer env v, .ret none false)
        else
          volunteerReturn v (NewVoteMessage v e.Self)
            (Exec ((e.recordVolunteer env v).storeVote v.Signer e.Self (NewVoteMessage v e.Self))
              (.vote (NewVoteMessage v e.Self))) := by
    intro Exec
    rw [executeWith_volunteer env Exec e v hc, hvoted, hself]
  constructor
  · intro hv
    refine ⟨?_, hcore, ?_⟩
    · cases k with
      | zero =>
        show Election.executeWith env _ e (.volunteer v) = _
        rw [hex, if_pos hv]
      | succ n =>
        show Election.executeWith env _ e (.volunteer v) = _
        rw [hex, if_pos hv]
    · apply (recordVolunteer_votes env e v).2
      cases hg : e.VolunteerVotes.get? v.Signer with
      | none =>
        rw [hg] at hv
        exact absurd hv Bool.false_ne_true
      | some inner => rfl
  · intro hv
    have hrun : Election.execute env (k + 1) e (.volunteer v) =
        volunteerReturn v (NewVoteMessage v e.Self)
          (Election.Execute env k
            ((e.recordVolunteer env v).storeVote v.Signer e.Self (NewVoteMessage v e.Self))
            (.vote (NewVoteMessage v e.Self))) := by
      show Election.executeWith env (Election.ExecuteWith (Election.execute env k)) e
        (.volunteer v) = _
      rw [hex, if_neg (by rw [hv]; exact Bool.false_ne_true)]
      rfl
    have hstore := storeVote_lists (e.recordVolunteer env v) v.Signer e.Self
      (NewVoteMessage v e.Self) _ (recordVolunteer_votes env e v).1
    refine ⟨?_, hrun, ?_, ?_⟩
    · rw [hstore.2.2.2]
      exact GoMap.get?_set_self _ _ _
    · intro s resp c hres
      rw [hrun, hres]
      cases resp with
      | none => exact Or.inr ⟨fun ll h => (nomatch h), rfl⟩
      | some m =>
        cases m with
        | leaderLevel ll => exact Or.inl ⟨ll, rfl, rfl⟩
        | volunteer x => exact Or.inr ⟨fun ll h => (nomatch h), rfl⟩
        | vote x => exact Or.inr ⟨fun ll h => (nomatch h), rfl⟩
        | eom => exact Or.inr ⟨fun ll h => (nomatch h), rfl⟩
    · intro hlow
      have hs := storeVote_coreEq (e.recordVolunteer env v) v.Signer e.Self (NewVoteMessage v e.Self)
      have hes := Election.CoreEq.trans' hcore hs
      have hq := (execute_vote_quiet env k
        ((e.recordVolunteer env v).storeVote v.Signer e.Self (NewVoteMessage v e.Self))
        (NewVoteMessage v e.Self) (hes.2.2.2.1.trans hc)
        (Or.inl (by rw [hes.2.2.2.2.2.1]; exact hlow))).2
      rw [hrun, hq]
      rfl

end VolunteerBranch

theorem volunteer_dispatch_witness :
    Election.execute exampleEnv 1 (NewElection 0 () ⟨0, 0, 0⟩ : Election Unit Unit Unit)
        (.volunteer ⟨5, ⟨0, 0, 0⟩⟩) =
      ((((NewElection 0 () ⟨0, 0, 0⟩ : Election Unit Unit Unit).recordVolunteer exampleEnv
          ⟨5, ⟨0, 0, 0⟩⟩).storeVote 5 0 (NewVoteMessage ⟨5, ⟨0, 0, 0⟩⟩ 0)).recordVote exampleEnv
            (NewVoteMessage ⟨5, ⟨0, 0, 0⟩⟩ 0),
        .ret (some (.vote ⟨0, ⟨5, ⟨0, 0, 0⟩⟩⟩)) true) :=
  ((volunteer_dispatch exampleEnv 0 (NewElection 0 () ⟨0, 0, 0⟩) ⟨5, ⟨0, 0, 0⟩⟩ rfl).2 rfl).2.2.2
    (by decide)

end Factomd

namespace Factomd

theorem base_promotion_witness :
    exampleTwoVotes.CurrentLevel = 1 ∧
    ∃ final, Election.execute exampleEnv 2 exampleTwoVotes (.vote ⟨3, ⟨5, ⟨0, 0, 0⟩⟩⟩) =
        (final, .ret (some (.leaderLevel
          (Election.rank0Message exampleEnv
            (exampleTwoVotes.recordVote exampleEnv ⟨3, ⟨5, ⟨0, 0, 0⟩⟩⟩) ⟨3, ⟨5, ⟨0, 0, 0⟩⟩⟩))) true) ∧
      final.CurrentVote = Election.rank0Message exampleEnv
        (exampleTwoVotes.recordVote exampleEnv ⟨3, ⟨5, ⟨0, 0, 0⟩⟩⟩) ⟨3, ⟨5, ⟨0, 0, 0⟩⟩⟩ ∧
      final.CurrentLevel = goAdd exampleTwoVotes.CurrentLevel 1 ∧
      final.CommitmentTally =
        (Election.adoptRank0 exampleEnv
          (exampleTwoVotes.recordVote exampleEnv ⟨3, ⟨5, ⟨0, 0, 0⟩⟩⟩)
          ⟨3, ⟨5, ⟨0, 0, 0⟩⟩⟩).CommitmentTally ∧
      final.Committed = false :=
  ⟨by decide,
    (base_promotion exampleEnv 0 exampleTwoVotes ⟨3, ⟨5, ⟨0, 0, 0⟩⟩⟩ (by decide) (by decide)
      (by decide)).2.2.2.2.2.2 (by decide) (by decide) (Or.inl rfl)⟩

theorem priority_switch_witness :
    (Election.adoptRank0 exampleEnv
      (exampleSwitchState.recordVote exampleEnv ⟨3, ⟨9, ⟨0, 0, 0⟩⟩⟩)
      ⟨3, ⟨9, ⟨0, 0, 0⟩⟩⟩).CommitmentTally = 1 :=
  ((priority_switch exampleEnv 0 exampleSwitchState ⟨3, ⟨9, ⟨0, 0, 0⟩⟩⟩ (by decide!) (by decide!)
    (by decide!)).1 (by decide!)).2.2.2.1

/-- C18 as stated fails: participant 0 holds a rank-0 current vote for
volunteer 9 and the votes of 1 and 2 for volunteer 5, whose priority number 5
is smaller (a higher priority in the order of the specification); the vote of 3
brings the votes for volunteer 5 to the majority of 3, and `execute` returns
`(nil, false)` and keeps the current vote for volunteer 9. -/
theorem priority_switch_counterexample :
    Reachable exampleEnv exampleHeldState ∧
    exampleHeldState.Committed = false ∧
    exampleHeldState.CurrentVote.Rank = 0 ∧
    exampleHeldState.CurrentVote.VolunteerMessage.Signer = 9 ∧
    exampleHeldState.getVolunteerPriority exampleEnv 5 <
      exampleHeldState.getVolunteerPriority exampleEnv 9 ∧
    (((exampleHeldState.recordVote exampleEnv ⟨3, ⟨5, ⟨0, 0, 0⟩⟩⟩).votesFor 5).length : Int) ≥
      exampleEnv.Majority exampleHeldState.AuthSet ∧
    (Election.execute exampleEnv 5 exampleHeldState (exampleVote 3 5)).2 = .ret none false ∧
    (Election.execute exampleEnv 5 exampleHeldState
      (exampleVote 3 5)).1.CurrentVote.VolunteerMessage.Signer = 9 :=
  ⟨reachable_run exampleEnv _ _ (Reachable.init 0 () ⟨0, 0, 0⟩),
    by decide!, by decide!, by decide!, by decide!, by decide!,
    congrArg Prod.snd (execute_vote_quiet exampleEnv 5 exampleHeldState ⟨3, ⟨5, ⟨0, 0, 0⟩⟩⟩
      (by decide!) (Or.inr (Or.inr ⟨by decide!, by decide!⟩))).1,
    by decide!⟩

end Factomd

namespace Factomd

theorem rcd1_unmarshal_key (t : RCD_1) (key : ByteArr ADDRESS_LENGTH) (rest : List Byte) :
    t.UnmarshalBinaryData (1 :: (key.val ++ rest)) = .ok (⟨key⟩, rest, none) := by
  have hk : key.val.length = 32 := key.property
  have hcopy : t.publicKey.copyFrom ((key.val ++ rest).take ADDRESS_LENGTH) = key := by
    apply Subtype.ext
    have ht : (key.val ++ rest).take ADDRESS_LENGTH = key.val := List.take_left' hk
    rw [ht]
    show goCopy t.publicKey.val key.val = key.val
    have hp : t.publicKey.val.length = 32 := t.publicKey.property
    unfold goCopy
    rw [hp, ← hk, List.take_length, hk, ← hp, List.drop_length, List.append_nil]
  have hlen : ¬ (key.val ++ rest).length < ADDRESS_LENGTH := by
    rw [List.length_append, hk]
    show ¬ 32 + rest.length < 32
    omega
  have hdrop : (key.val ++ rest).drop ADDRESS_LENGTH = rest := List.drop_left' hk
  unfold RCD_1.UnmarshalBinaryData
  simp only [List.getElem?_cons_zero, List.drop_succ_cons, List.drop_zero]
  rw [if_neg (by decide), if_neg hlen, hcopy, hdrop]

/-- C25: the empty slice.  `UnmarshalBinaryData` reads `data[0]` before it
looks at the length, so on the empty input it panics with an index out of
range instead of returning an error.  On every other input the claim holds: a
first byte other than 1, or fewer than 32 bytes after it, gives an error and
no panic, and `0x01 ++ key ++ rest` gives `rest` with the public key set to
`key`, also for `MarshalBinary(a) ++ rest`. -/
theorem rcd1_unmarshal_cases :
    (∀ t : RCD_1, t.UnmarshalBinaryData [] = .error "runtime error: index out of range") ∧
    (∀ (t : RCD_1) (b : Byte) (rest : List Byte), b ≠ 1 →
      ∃ e, t.UnmarshalBinaryData (b :: rest) = .ok (t, [], some e)) ∧
    (∀ (t : RCD_1) (rest : List Byte), rest.length < 32 →
      ∃ e, t.UnmarshalBinaryData (1 :: rest) = .ok (t, [], some e)) ∧
    (∀ (t : RCD_1) (key : ByteArr ADDRESS_LENGTH) (rest : List Byte),
      t.UnmarshalBinaryData (1 :: (key.val ++ rest)) = .ok (⟨key⟩, rest, none)) ∧
    (∀ (t a : RCD_1) (rest : List Byte),
      a.MarshalBinary.2 = none ∧
      t.UnmarshalBinaryData (a.MarshalBinary.1 ++ rest) = .ok (a, rest, none)) := by
  refine ⟨fun t => rfl, ?_, ?_, rcd1_unmarshal_key, ?_⟩
  · intro t b rest hb
    have h1 : toInt8 b ≠ 1 := by
      unfold toInt8
      intro h
      apply hb
      apply Fin.ext
      have hlt := b.isLt
      split at h
      · show b.val = 1
        omega
      · omega
    unfold RCD_1.UnmarshalBinaryData
    simp only [List.getElem?_cons_zero]
    rw [if_pos h1]
    exact ⟨_, rfl⟩
  · intro t rest hr
    unfold RCD_1.UnmarshalBinaryData
    simp only [List.getElem?_cons_zero, List.drop_succ_cons, List.drop_zero]
    rw [if_neg (by decide), if_pos (show rest.length < ADDRESS_LENGTH from hr)]
    exact ⟨_, rfl⟩
  · intro t a rest
    exact ⟨rfl, rcd1_unmarshal_key t a.publicKey rest⟩

/-- C30: `UnmarshalBinary` has a value receiver.  For every `a` and every
input, the call panics exactly when `UnmarshalBinaryData` does, and otherwise
returns the error of `UnmarshalBinaryData` and leaves the value of the caller
as it was; after `a.UnmarshalBinary(MarshalBinary(b))` the error is nil and the
key of `a` is its old key, while `UnmarshalBinaryData` on a pointer to `a`
would have stored the key of `b`. -/
theorem rcd1_value_receiver (a b : RCD_1) (data : List Byte) :
    (∀ p, a.UnmarshalBinaryData data = .error p → a.UnmarshalBinary data = .error p) ∧
    (∀ t rest err, a.UnmarshalBinaryData data = .ok (t, rest, err) →
      a.UnmarshalBinary data = .ok (a, err)) ∧
    (∀ a2 err, a.UnmarshalBinary data = .ok (a2, err) → a2.publicKey = a.publicKey) ∧
    a.UnmarshalBinary b.MarshalBinary.1 = .ok (a, none) ∧
    a.UnmarshalBinaryData b.MarshalBinary.1 = .ok (b, [], none) := by
  have hb : a.UnmarshalBinaryData b.MarshalBinary.1 = .ok (b, [], none) := by
    have h := rcd1_unmarshal_key a b.publicKey []
    rw [List.append_nil] at h
    exact h
  refine ⟨?_, ?_, ?_, ?_, hb⟩
  · intro p h
    unfold RCD_1.UnmarshalBinary
    rw [h]
  · intro t rest err h
    unfold RCD_1.UnmarshalBinary
    rw [h]
  · intro a2 err h
    unfold RCD_1.UnmarshalBinary at h
    cases hx : a.UnmarshalBinaryData data with
    | error p =>
      rw [hx] at h
      cases h
    | ok r =>
      obtain ⟨t, rest, e⟩ := r
      rw [hx] at h
      cases h
      rfl
  · unfold RCD_1.UnmarshalBinary
    rw [hb]

end Factomd

namespace Factomd

theorem binaryWriteInt64_length (m : Int) : (binaryWriteInt64 m).length = 8 := by
  unfold binaryWriteInt64
  rw [List.length_map, List.length_range]

theorem milliTime_length (now : Int) : (milliTime now).length = 6 := by
  unfold milliTime
  simp only [List.length_drop, binaryWriteInt64_length]

theorem shad_length {E K : Type} (env : WalletEnv E K) (data : List Byte) :
    (shad env data).length = 32 :=
  (env.Sum256 (env.Sum256 data).val).property

/-- C26: the composed chain commit and the decoder.  When the chain id decodes
to `cid` and the first entry has a 32-byte hash `h` and cost `d`,
`composeChainCommitMsg` returns 200 bytes that `CommitChain.UnmarshalBinaryData`
decodes without error (nothing left over) into the commit with Version 0, the
milli-timestamp of `milliTime`, ChainIDHash `shad(cid)`, Weld `shad(h ++ cid)`,
EntryHash `h`, Credits `byte(d + 10)`, the public key of the address and the
signature of the first 104 bytes, which are `CommitMsg()` of that commit.
Likewise `commitEntryMsg` returns 136 bytes: its first 40 bytes, the public
key, and the signature of those 40 bytes. -/
theorem chain_commit_composition {E K : Type} (env : WalletEnv E K) (now : Int) (c : Chain E)
    (ec : K) (cid : List Byte) (d : Int)
    (hcid : env.DecodeString c.ChainID = (cid, none))
    (hcost : env.EntryCost c.FirstEntry = (d, none))
    (hh : (env.Hash c.FirstEntry).length = 32) :
    (∃ (buf : List Byte) (mt : ByteArr 6),
      composeChainCommitMsg env now c ec = (some buf, none) ∧
      buf.length = 200 ∧
      mt.val = milliTime now ∧
      NewCommitChain.UnmarshalBinaryData buf =
        ⟨⟨0, some mt, some ⟨shad env cid⟩, some ⟨shad env (env.Hash c.FirstEntry ++ cid)⟩,
            some ⟨env.Hash c.FirstEntry⟩, toByte (d + 10), some (env.PubBytes ec),
            some (env.Sign ec (buf.take 104))⟩, [], none⟩ ∧
      (NewCommitChain.UnmarshalBinaryData buf).c.CommitMsg = .ok (buf.take 104) ∧
      buf = buf.take 104 ++ (env.PubBytes ec).val ++ (env.Sign ec (buf.take 104)).val) ∧
    (∃ buf : List Byte,
      commitEntryMsg env now ec c.FirstEntry = (some buf, none) ∧
      buf.length = 136 ∧
      buf = buf.take 40 ++ (env.PubBytes ec).val ++ (env.Sign ec (buf.take 40)).val) := by
  have hm := milliTime_length now
  have h1 := shad_length env cid
  have h2 := shad_length env (env.Hash c.FirstEntry ++ cid)
  have hp := (env.PubBytes ec).property
  constructor
  · have hsigned : ([0] ++ milliTime now ++ shad env cid ++ shad env (env.Hash c.FirstEntry ++ cid)
        ++ env.Hash c.FirstEntry ++ [toByte (d + 10)] : List Byte).length = 104 := by
      simp only [List.length_append, List.length_singleton, hm, h1, h2, hh]
    have hs := (env.Sign ec ([0] ++ milliTime now ++ shad env cid ++
      shad env (env.Hash c.FirstEntry ++ cid) ++ env.Hash c.FirstEntry ++ [toByte (d + 10)])).property
    have htake : ([0] ++ milliTime now ++ shad env cid ++ shad env (env.Hash c.FirstEntry ++ cid)
        ++ env.Hash c.FirstEntry ++ [toByte (d + 10)] ++ (env.PubBytes ec).val ++
        (env.Sign ec ([0] ++ milliTime now ++ shad env cid ++
          shad env (env.Hash c.FirstEntry ++ cid) ++ env.Hash c.FirstEntry ++
          [toByte (d + 10)])).val).take 104 =
        [0] ++ milliTime now ++ shad env cid ++ shad env (env.Hash c.FirstEntry ++ cid)
        ++ env.Hash c.FirstEntry ++ [toByte (d + 10)] := by
      rw [List.append_assoc _ (env.PubBytes ec).val]
      exact List.take_left' hsigned
    have hcomp : composeChainCommitMsg env now c ec =
        (some ([0] ++ milliTime now ++ shad env cid ++ shad env (env.Hash c.FirstEntry ++ cid)
          ++ env.Hash c.FirstEntry ++ [toByte (d + 10)] ++ (env.PubBytes ec).val ++
          (env.Sign ec ([0] ++ milliTime now ++ shad env cid ++
            shad env (env.Hash c.FirstEntry ++ cid) ++ env.Hash c.FirstEntry ++
            [toByte (d + 10)])).val), none) := by
      unfold composeChainCommitMsg
      simp only [hcid, hcost, List.nil_append]
    have hdec := unmarshal_layout 0 (toByte (d + 10)) ⟨milliTime now, hm⟩ (shad env cid)
      (shad env (env.Hash c.FirstEntry ++ cid)) (env.Hash c.FirstEntry) (env.PubBytes ec)
      (env.Sign ec ([0] ++ milliTime now ++ shad env cid ++
        shad env (env.Hash c.FirstEntry ++ cid) ++ env.Hash c.FirstEntry ++ [toByte (d + 10)]))
      [] h1 h2 hh
    have hshape : ([0] ++ milliTime now ++ shad env cid ++ shad env (env.Hash c.FirstEntry ++ cid)
        ++ env.Hash c.FirstEntry ++ [toByte (d + 10)] ++ (env.PubBytes ec).val ++
        (env.Sign ec ([0] ++ milliTime now ++ shad env cid ++
          shad env (env.Hash c.FirstEntry ++ cid) ++ env.Hash c.FirstEntry ++
          [toByte (d + 10)])).val : List Byte) =
        0 :: (milliTime now ++ (shad env cid ++ (shad env (env.Hash c.FirstEntry ++ cid) ++
          (env.Hash c.FirstEntry ++ toByte (d + 10) :: ((env.PubBytes ec).val ++
            ((env.Sign ec ([0] ++ milliTime now ++ shad env cid ++
              shad env (env.Hash c.FirstEntry ++ cid) ++ env.Hash c.FirstEntry ++
              [toByte (d + 10)])).val ++ [])))))) := by
      simp only [List.append_assoc, List.singleton_append, List.append_nil, List.cons_append,
        List.nil_append]
    refine ⟨_, ⟨milliTime now, hm⟩, hcomp, ?_, rfl, ?_, ?_, ?_⟩
    · simp only [List.length_append, List.length_singleton, hm, h1, h2, hh, hp, hs]
    · rw [htake, hshape]
      exact hdec
    · rw [htake, hshape, hdec]
      exact commitMsg_eq 0 (toByte (d + 10)) ⟨milliTime now, hm⟩ ⟨shad env cid⟩
        ⟨shad env (env.Hash c.FirstEntry ++ cid)⟩ ⟨env.Hash c.FirstEntry⟩ _ _
    · rw [htake]
  · have hsigned : ([0] ++ milliTime now ++ env.Hash c.FirstEntry ++ [toByte d] : List Byte).length
        = 40 := by
      simp only [List.length_append, List.length_singleton, hm, hh]
    have hs := (env.Sign ec ([0] ++ milliTime now ++ env.Hash c.FirstEntry ++ [toByte d])).property
    have htake : ([0] ++ milliTime now ++ env.Hash c.FirstEntry ++ [toByte d] ++
        (env.PubBytes ec).val ++
        (env.Sign ec ([0] ++ milliTime now ++ env.Hash c.FirstEntry ++ [toByte d])).val).take 40 =
        [0] ++ milliTime now ++ env.Hash c.FirstEntry ++ [toByte d] := by
      rw [List.append_assoc _ (env.PubBytes ec).val]
      exact List.take_left' hsigned
    refine ⟨[0] ++ milliTime now ++ env.Hash c.FirstEntry ++ [toByte d] ++ (env.PubBytes ec).val ++
      (env.Sign ec ([0] ++ milliTime now ++ env.Hash c.FirstEntry ++ [toByte d])).val, ?_, ?_, ?_⟩
    · unfold commitEntryMsg
      simp only [hcost, List.nil_append]
    · simp only [List.length_append, List.length_singleton, hm, hh, hp, hs]
    · rw [htake]

end Factomd

namespace Factomd

theorem chain_commit_composition_witness :
    ∃ buf : List Byte,
      composeChainCommitMsg exampleWallet 0 ⟨"", ()⟩ () = (some buf, none) ∧ buf.length = 200 :=
  let ⟨buf, _, h1, h2, _⟩ :=
    (chain_commit_composition exampleWallet 0 ⟨"", ()⟩ () [] 1 rfl rfl (by decide)).1
  ⟨buf, h1, h2⟩

/-! ## Theorems: Merkle trees -/

theorem hashMerkleBranches_eq (Sha : List Byte → IHash) (left right : IHash)
    (hl : left.Bytes.length = 32) (hr : right.Bytes.length = 32) :
    hashMerkleBranches Sha left right = Sha (left.Bytes ++ right.Bytes) := by
  have h1 : goCopy (List.replicate 32 (0 : Byte)) left.Bytes = left.Bytes := by
    unfold goCopy
    rw [List.length_replicate, ← hl, List.take_length, hl,
      List.drop_eq_nil_of_le (by rw [List.length_replicate]), List.append_nil]
  have h2 : goCopy (List.replicate 32 (0 : Byte)) right.Bytes = right.Bytes := by
    unfold goCopy
    rw [List.length_replicate, ← hr, List.take_length, hr,
      List.drop_eq_nil_of_le (by rw [List.length_replicate]), List.append_nil]
  unfold hashMerkleBranches
  have e1 : (List.replicate (ADDRESS_LENGTH * 2) (0 : Byte)).take ADDRESS_LENGTH
      = List.replicate 32 0 := by decide
  have e2 : (List.replicate (ADDRESS_LENGTH * 2) (0 : Byte)).drop ADDRESS_LENGTH
      = List.replicate 32 0 := by decide
  simp only [e1, e2, h1]
  rw [List.take_left' (show left.Bytes.length = ADDRESS_LENGTH from hl),
    List.drop_left' (show left.Bytes.length = ADDRESS_LENGTH from hl), h2]

theorem merkleStep_ok (Sha : List Byte → IHash) (merkles : List (Option IHash)) (offset i : Nat)
    (a b : Option IHash) (ha : merkles[i]? = some a) (hb : merkles[i + 1]? = some b)
    (ho : offset < merkles.length) :
    merkleStep Sha merkles offset i = .ok (merkles.set offset (merkleParent Sha a b)) := by
  unfold merkleStep
  rw [ha]
  cases a with
  | none =>
    simp only [if_pos ho]
    rfl
  | some left =>
    simp only [hb]
    cases b with
    | none =>
      simp only [if_pos ho]
      rfl
    | some right =>
      simp only [if_pos ho]
      rfl

/-- The loop of `BuildMerkleTreeStore` from the pass `j0` on, in an array of
`2 * J + 1` entries with offset `J + 1 + j0`: no index is out of range, the
entries below the offset stay, and the entry `J + 1 + j` of every later pass
`j` is the parent of the final entries `2 * j` and `2 * j + 1`. -/
theorem merkleLoop_spec (Sha : List Byte → IHash) (J : Nat) :
    ∀ (c j0 : Nat) (m : List (Option IHash)), m.length = 2 * J + 1 → j0 + c ≤ J →
      ∃ m', merkleLoop Sha ((List.range' j0 c).map (fun k => 2 * k)) m (J + 1 + j0) = .ok m' ∧
        m'.length = 2 * J + 1 ∧
        (∀ k, k < J + 1 + j0 → m'[k]? = m[k]?) ∧
        (∀ j, j0 ≤ j → j < j0 + c →
          ∃ a b, m'[2 * j]? = some a ∧ m'[2 * j + 1]? = some b ∧
            m'[J + 1 + j]? = some (merkleParent Sha a b)) := by
  intro c
  induction c with
  | zero =>
    intro j0 m hm _
    exact ⟨m, rfl, hm, fun _ _ => rfl, fun j h1 h2 => by omega⟩
  | succ c ih =>
    intro j0 m hm hj
    have hi : 2 * j0 < m.length := by omega
    have hi1 : 2 * j0 + 1 < m.length := by omega
    have ho : J + 1 + j0 < m.length := by omega
    have ha : m[2 * j0]? = some m[2 * j0] := List.getElem?_eq_getElem hi
    have hb : m[2 * j0 + 1]? = some m[2 * j0 + 1] := List.getElem?_eq_getElem hi1
    have hstep := merkleStep_ok Sha m (J + 1 + j0) (2 * j0) _ _ ha hb ho
    obtain ⟨m', h1, h2, h3, h4⟩ := ih (j0 + 1)
      (m.set (J + 1 + j0) (merkleParent Sha m[2 * j0] m[2 * j0 + 1]))
      (by rw [List.length_set]; exact hm) (by omega)
    refine ⟨m', ?_, h2, ?_, ?_⟩
    · rw [List.range'_succ, List.map_cons]
      unfold merkleLoop
      rw [hstep]
      exact h1
    · intro k hk
      rw [h3 k (by omega), List.getElem?_set_ne (by omega)]
    · intro j hj0 hj1
      by_cases hje : j = j0
      · subst hje
        refine ⟨m[2 * j], m[2 * j + 1], ?_, ?_, ?_⟩
        · rw [h3 _ (by omega), List.getElem?_set_ne (by omega)]
          exact ha
        · rw [h3 _ (by omega), List.getElem?_set_ne (by omega)]
          exact hb
        · rw [h3 _ (by omega), List.getElem?_set_self ho]
      · exact h4 j (by omega) (by omega)

/-- The array `BuildMerkleTreeStore` returns for a non-empty list when
`nextPowerOfTwo` gives a number `P` not below the length: `2 * P - 1` entries,
the inputs first, nil up to `P`, and from `P` on the parents. -/
theorem buildStore_spec (log2 : Nat → Nat) (Sha : List Byte → IHash)
    (hashes : List (Option IHash)) (hn : 1 ≤ hashes.length)
    (hP : hashes.length ≤ nextPowerOfTwo log2 hashes.length) :
    ∃ merkles root, BuildMerkleTreeStore log2 Sha hashes = .ok merkles ∧
      merkles.length = 2 * nextPowerOfTwo log2 hashes.length - 1 ∧
      (∀ k, k < hashes.length → merkles[k]? = hashes[k]?) ∧
      (∀ k, hashes.length ≤ k → k < nextPowerOfTwo log2 hashes.length →
        merkles[k]? = some none) ∧
      (∀ j, j + 1 < nextPowerOfTwo log2 hashes.length →
        ∃ a b, merkles[2 * j]? = some a ∧ merkles[2 * j + 1]? = some b ∧
          merkles[nextPowerOfTwo log2 hashes.length + j]? = some (merkleParent Sha a b)) ∧
      merkles[2 * nextPowerOfTwo log2 hashes.length - 2]? = some root ∧
      ComputeMerkleRoot log2 Sha hashes = .ok root := by
  generalize hPdef : nextPowerOfTwo log2 hashes.length = P at hP
  obtain ⟨J, rfl⟩ : ∃ J, P = J + 1 := ⟨P - 1, by omega⟩
  have hA : (J + 1) * 2 - 1 = 2 * J + 1 := by omega
  have hm0 : (hashes ++ (List.replicate (2 * J + 1) (none : Option IHash)).drop hashes.length).length
      = 2 * J + 1 := by
    rw [List.length_append, List.length_drop, List.length_replicate]
    omega
  obtain ⟨m', h1, h2, h3, h4⟩ := merkleLoop_spec Sha J J 0 _ hm0 (by omega)
  have hbuild : BuildMerkleTreeStore log2 Sha hashes = .ok m' := by
    unfold BuildMerkleTreeStore
    rw [if_neg (by omega)]
    simp only [hPdef, hA]
    rw [if_neg (by omega)]
    unfold loopIndices
    rw [show (2 * J + 1) / 2 = J by omega, List.range_eq_range']
    exact h1
  have hlast : 2 * J < m'.length := by omega
  refine ⟨m', m'[2 * J], hbuild, by omega, ?_, ?_, ?_, ?_, ?_⟩
  · intro k hk
    rw [h3 k (by omega), List.getElem?_append_left hk]
  · intro k hk1 hk2
    rw [h3 k (by omega), List.getElem?_append_right hk1, List.getElem?_drop,
      List.getElem?_replicate]
    rw [if_pos (by omega)]
  · intro j hj
    have := h4 j (by omega) (by omega)
    rw [show J + 1 + j = J + 1 + j from rfl] at this
    exact this
  · rw [show 2 * (J + 1) - 2 = 2 * J by omega]
    exact List.getElem?_eq_getElem hlast
  · unfold ComputeMerkleRoot
    rw [hbuild]
    simp only [h2, show 2 * J + 1 - 1 = 2 * J by omega, List.getElem?_eq_getElem hlast]

/-- C28: the shape of the Merkle tree store.  For the empty list
`BuildMerkleTreeStore` returns the one-element list with the zero hash.  For
`n >= 1` non-nil hashes, when `P = nextPowerOfTwo(n)` is not below `n`, it
returns (no index out of range) a list of length `2P - 1` whose first `n`
entries are the inputs in order and whose entries `n..P-1` are nil; for every
even `i < 2P - 2` the entry `P + i/2` is nil when entry `i` is nil, is
`hashMerkleBranches(entry_i, entry_i)` when entry `i + 1` is nil, and is
`hashMerkleBranches(entry_i, entry_{i+1})` otherwise, and `hashMerkleBranches`
is `Sha(left ++ right)` on 32-byte hashes; `ComputeMerkleRoot` returns the last
entry of that list, which is in bounds. -/
theorem merkle_store_shape (log2 : Nat → Nat) (Sha : List Byte → IHash) (hs : List IHash)
    (hn : 1 ≤ hs.length) (hP : hs.length ≤ nextPowerOfTwo log2 hs.length) :
    BuildMerkleTreeStore log2 Sha [] = .ok [some NewZeroHash] ∧
    (∀ l r : IHash, l.Bytes.length = 32 → r.Bytes.length = 32 →
      hashMerkleBranches Sha l r = Sha (l.Bytes ++ r.Bytes)) ∧
    ∃ merkles root, BuildMerkleTreeStore log2 Sha (hs.map some) = .ok merkles ∧
      merkles.length = 2 * nextPowerOfTwo log2 hs.length - 1 ∧
      (∀ k, k < hs.length → merkles[k]? = (hs[k]?).map some) ∧
      (∀ k, hs.length ≤ k → k < nextPowerOfTwo log2 hs.length → merkles[k]? = some none) ∧
      (∀ i, i % 2 = 0 → i < 2 * nextPowerOfTwo log2 hs.length - 2 →
        (merkles[i]? = some none →
          merkles[nextPowerOfTwo log2 hs.length + i / 2]? = some none) ∧
        (∀ l, merkles[i]? = some (some l) → merkles[i + 1]? = some none →
          merkles[nextPowerOfTwo log2 hs.length + i / 2]? =
            some (some (hashMerkleBranches Sha l l))) ∧
        (∀ l r, merkles[i]? = some (some l) → merkles[i + 1]? = some (some r) →
          merkles[nextPowerOfTwo log2 hs.length + i / 2]? =
            some (some (hashMerkleBranches Sha l r))) ∧
        (∃ a b, merkles[i]? = some a ∧ merkles[i + 1]? = some b)) ∧
      merkles[merkles.length - 1]? = some root ∧
      ComputeMerkleRoot log2 Sha (hs.map some) = .ok root := by
  have hlen : (hs.map some).length = hs.length := List.length_map _ _
  obtain ⟨merkles, root, h1, h2, h3, h4, h5, h6, h7⟩ := buildStore_spec log2 Sha (hs.map some)
    (by rw [hlen]; exact hn) (by rw [hlen]; exact hP)
  rw [hlen] at h2 h3 h4 h5 h6
  refine ⟨rfl, hashMerkleBranches_eq Sha, merkles, root, h1, h2, ?_, h4, ?_, ?_, h7⟩
  · intro k hk
    rw [h3 k hk, List.getElem?_map]
  · intro i hi hlt
    obtain ⟨a, b, ha, hb, hp⟩ := h5 (i / 2) (by omega)
    rw [show 2 * (i / 2) = i by omega] at ha hb
    refine ⟨?_, ?_, ?_, a, b, ha, hb⟩
    · intro h
      rw [ha] at h
      cases h
      exact hp
    · intro l hl hr
      rw [ha] at hl
      rw [hb] at hr
      cases hl
      cases hr
      exact hp
    · intro l r hl hr
      rw [ha] at hl
      rw [hb] at hr
      cases hl
      cases hr
      exact hp
  · rw [h2, show 2 * nextPowerOfTwo log2 hs.length - 1 - 1
      = 2 * nextPowerOfTwo log2 hs.length - 2 by omega]
    exact h6

theorem merkle_store_shape_witness :
    ∃ merkles, BuildMerkleTreeStore Nat.log2 exampleSha
        ([NewZeroHash, NewZeroHash, NewZeroHash].map some) = .ok merkles ∧
      merkles.length = 2 * nextPowerOfTwo Nat.log2 3 - 1 :=
  match merkle_store_shape Nat.log2 exampleSha [NewZeroHash, NewZeroHash, NewZeroHash]
    (by decide) (show 3 ≤ nextPowerOfTwo Nat.log2 3 by decide!) with
  | ⟨_, _, merkles, _, h1, h2, _⟩ => ⟨merkles, h1, h2⟩

theorem and_pred_eq_zero_iff (n : Nat) (hn : 1 ≤ n) : n &&& (n - 1) = 0 ↔ ∃ k, n = 2 ^ k := by
  constructor
  · intro h
    have h1 : 2 ^ Nat.log2 n ≤ n := Nat.log2_self_le (by omega)
    have h2 : n < 2 ^ (Nat.log2 n + 1) := Nat.lt_log2_self
    generalize Nat.log2 n = k at h1 h2
    refine ⟨k, ?_⟩
    by_contra hne
    have hp : 2 ^ (k + 1) = 2 * 2 ^ k := by rw [pow_succ]; omega
    obtain ⟨r, hr⟩ : ∃ r, n = 2 ^ k + (r + 1) := ⟨n - 2 ^ k - 1, by omega⟩
    have hr' : n - 1 = 2 ^ k + r := by omega
    have t1 : n.testBit k = true := by
      rw [hr, Nat.testBit_two_pow_add_eq, Nat.testBit_lt_two_pow (by omega)]
      rfl
    have t2 : (n - 1).testBit k = true := by
      rw [hr', Nat.testBit_two_pow_add_eq, Nat.testBit_lt_two_pow (by omega)]
      rfl
    have t3 : (n &&& (n - 1)).testBit k = true := by
      rw [Nat.testBit_and, t1, t2]
      rfl
    rw [h, Nat.zero_testBit] at t3
    exact Bool.false_ne_true t3
  · rintro ⟨k, rfl⟩
    rw [Nat.and_pow_two_sub_one_eq_mod, Nat.mod_self]

/-- What `nextPowerOfTwo` returns for `n >= 1` when the floating-point
expression yields the integer part of the binary logarithm of `n`: the least
power of two that is not below `n`. -/
theorem nextPowerOfTwo_least (log2 : Nat → Nat) (n : Nat) (hn : 1 ≤ n)
    (hlog : 2 ^ log2 n ≤ n ∧ n < 2 ^ (log2 n + 1)) :
    ∃ m, nextPowerOfTwo log2 n = 2 ^ m ∧ n ≤ 2 ^ m ∧ (m = 0 ∨ 2 ^ (m - 1) < n) := by
  unfold nextPowerOfTwo
  by_cases h : n &&& (n - 1) = 0
  · rw [if_pos h]
    obtain ⟨k, hk⟩ := (and_pred_eq_zero_iff n hn).mp h
    refine ⟨k, hk, by omega, ?_⟩
    rcases Nat.eq_zero_or_pos k with h0 | h0
    · exact Or.inl h0
    · right
      rw [hk]
      exact Nat.pow_lt_pow_right (by decide) (by omega)
  · rw [if_neg h]
    refine ⟨log2 n + 1, Nat.one_shiftLeft _, by omega, Or.inr ?_⟩
    rw [Nat.add_sub_cancel]
    have hne : n ≠ 2 ^ log2 n := fun he => h ((and_pred_eq_zero_iff n hn).mpr ⟨_, he⟩)
    omega

theorem referencePairs_length (Sha : List Byte → IHash) :
    ∀ l : List IHash, (referencePairs Sha l).length = (l.length + 1) / 2
  | [] => by simp [referencePairs]
  | [_] => by simp [referencePairs]
  | a :: b :: rest => by
    rw [referencePairs, List.length_cons, referencePairs_length Sha rest]
    simp only [List.length_cons]
    omega

theorem referencePairs_bytes (Sha : List Byte → IHash) (hSha : ∀ x, (Sha x).Bytes.length = 32) :
    ∀ l : List IHash, ∀ h ∈ referencePairs Sha l, h.Bytes.length = 32
  | [], h, hm => by cases hm
  | [a], h, hm => by
    rw [referencePairs, List.mem_singleton] at hm
    rw [hm]
    exact hSha _
  | a :: b :: rest, h, hm => by
    rw [referencePairs, List.mem_cons] at hm
    rcases hm with hm | hm
    · rw [hm]
      exact hSha _
    · exact referencePairs_bytes Sha hSha rest h hm

theorem referencePairs_getElem? (Sha : List Byte → IHash) :
    ∀ (l : List IHash), (∀ h ∈ l, h.Bytes.length = 32) → ∀ t,
      merkleParent Sha l[2 * t]? l[2 * t + 1]? = (referencePairs Sha l)[t]?
  | [], _, t => by simp [merkleParent, referencePairs]
  | [a], h32, t => by
    cases t with
    | zero =>
      have ha := h32 a (List.mem_singleton_self a)
      simp [merkleParent, referencePairs, hashMerkleBranches_eq Sha a a ha ha]
    | succ t =>
      simp [merkleParent, referencePairs, Nat.mul_succ]
  | a :: b :: rest, h32, t => by
    cases t with
    | zero =>
      have ha := h32 a (List.mem_cons_self a _)
      have hb := h32 b (List.mem_cons_of_mem a (List.mem_cons_self b _))
      simp [merkleParent, referencePairs, hashMerkleBranches_eq Sha a b ha hb]
    | succ t =>
      have ih := referencePairs_getElem? Sha rest
        (fun h hm => h32 h (List.mem_cons_of_mem a (List.mem_cons_of_mem b hm))) t
      have e1 : (a :: b :: rest)[2 * (t + 1)]? = rest[2 * t]? := by
        rw [show 2 * (t + 1) = 2 * t + 1 + 1 by omega, List.getElem?_cons_succ,
          List.getElem?_cons_succ]
      have e2 : (a :: b :: rest)[2 * (t + 1) + 1]? = rest[2 * t + 1]? := by
        rw [show 2 * (t + 1) + 1 = 2 * t + 1 + 1 + 1 by omega, List.getElem?_cons_succ,
          List.getElem?_cons_succ]
      rw [e1, e2, ih, referencePairs, List.getElem?_cons_succ]

theorem iterate_pairs_bytes (Sha : List Byte → IHash) (hSha : ∀ x, (Sha x).Bytes.length = 32)
    (l : List IHash) (h32 : ∀ h ∈ l, h.Bytes.length = 32) :
    ∀ j, ∀ h ∈ (referencePairs Sha)^[j] l, h.Bytes.length = 32
  | 0 => h32
  | j + 1 => by
    rw [Function.iterate_succ_apply']
    exact referencePairs_bytes Sha hSha _

/-- The levels of the tree store: with `P = 2 ^ m`, the `2 ^ (m - j)` entries
from index `2 * P - 2 * 2 ^ (m - j)` on are round `j` of the reference, nil
where the round has no element. -/
theorem store_levels (Sha : List Byte → IHash) (hSha : ∀ x, (Sha x).Bytes.length = 32)
    (hs : List IHash) (h32 : ∀ h ∈ hs, h.Bytes.length = 32) (m : Nat)
    (merkles : List (Option IHash))
    (hbase : ∀ k, k < 2 ^ m → merkles[k]? = some hs[k]?)
    (hpar : ∀ j, j + 1 < 2 ^ m →
      ∃ a b, merkles[2 * j]? = some a ∧ merkles[2 * j + 1]? = some b ∧
        merkles[2 ^ m + j]? = some (merkleParent Sha a b)) :
    ∀ j, j ≤ m → ∀ t, t < 2 ^ (m - j) →
      merkles[2 * 2 ^ m - 2 * 2 ^ (m - j) + t]? = some ((referencePairs Sha)^[j] hs)[t]? := by
  intro j
  induction j with
  | zero =>
    intro _ t ht
    rw [Nat.sub_zero] at ht
    rw [Nat.sub_zero, Nat.sub_self, Nat.zero_add]
    exact hbase t ht
  | succ j ih =>
    intro hj t ht
    have hq : 2 ^ (m - j) = 2 * 2 ^ (m - (j + 1)) := by
      rw [show m - j = (m - (j + 1)) + 1 by omega, pow_succ]
      omega
    have hq1 : 1 ≤ 2 ^ (m - (j + 1)) := Nat.one_le_two_pow
    have hqP : 2 ^ (m - j) ≤ 2 ^ m := Nat.pow_le_pow_right (by decide) (by omega)
    have ih' := ih (by omega)
    obtain ⟨a, b, ha, hb, hp⟩ := hpar (2 ^ m - 2 ^ (m - j) + t) (by omega)
    have ea := ih' (2 * t) (by omega)
    have eb := ih' (2 * t + 1) (by omega)
    rw [show 2 * (2 ^ m - 2 ^ (m - j) + t) = 2 * 2 ^ m - 2 * 2 ^ (m - j) + 2 * t by omega] at ha hb
    rw [show 2 * 2 ^ m - 2 * 2 ^ (m - j) + 2 * t + 1 = 2 * 2 ^ m - 2 * 2 ^ (m - j) + (2 * t + 1)
      by omega] at hb
    rw [ea] at ha
    rw [eb] at hb
    cases ha
    cases hb
    rw [show 2 * 2 ^ m - 2 * 2 ^ (m - (j + 1)) + t = 2 ^ m + (2 ^ m - 2 ^ (m - j) + t) by omega, hp,
      Function.iterate_succ_apply',
      referencePairs_getElem? Sha _ (iterate_pairs_bytes Sha hSha hs h32 j) t]

theorem referenceRounds_iterate (Sha : List Byte → IHash) :
    ∀ (m fuel : Nat) (l : List IHash), m ≤ fuel → l.length ≤ 2 ^ m →
      (m = 0 → l.length = 1) → (1 ≤ m → 2 ^ (m - 1) < l.length) →
      referenceRounds Sha fuel l = ((referencePairs Sha)^[m] l)[0]? := by
  intro m
  induction m with
  | zero =>
    intro fuel l _ _ h0 _
    obtain ⟨h, rfl⟩ := List.length_eq_one.mp (h0 rfl)
    cases fuel <;> rfl
  | succ m ih =>
    intro fuel l hf hle _ hgt
    have hgt' := hgt (by omega)
    rw [Nat.add_sub_cancel] at hgt'
    have h1 : 1 ≤ 2 ^ m := Nat.one_le_two_pow
    have hp : 2 ^ (m + 1) = 2 * 2 ^ m := by rw [pow_succ]; omega
    obtain ⟨f, rfl⟩ : ∃ f, fuel = f + 1 := ⟨fuel - 1, by omega⟩
    match l, hle, hgt' with
    | [], _, hgt' => simp at hgt'
    | [_], _, hgt' => simp at hgt'
    | a :: b :: rest, hle, hgt' =>
      rw [referenceRounds, Function.iterate_succ_apply]
      have hl := referencePairs_length Sha (a :: b :: rest)
      apply ih f _ (by omega)
      · rw [hl]
        omega
      · intro hm0
        subst hm0
        rw [hl]
        simp only [List.length_cons] at hle hgt' ⊢
        omega
      · intro hm1
        have hp' : 2 ^ m = 2 * 2 ^ (m - 1) := by
          rw [show m = (m - 1) + 1 by omega, pow_succ, Nat.add_sub_cancel]
          omega
        rw [hl]
        omega

theorem iterate_pairs_length_pos (Sha : List Byte → IHash) (l : List IHash) (hl : 1 ≤ l.length) :
    ∀ j, 1 ≤ ((referencePairs Sha)^[j] l).length
  | 0 => hl
  | j + 1 => by
    rw [Function.iterate_succ_apply', referencePairs_length]
    have := iterate_pairs_length_pos Sha l hl j
    omega

/-- C29: `ComputeMerkleRoot` refines the reference Merkle root.  For a
non-empty list of non-nil 32-byte hashes, a hash function with 32-byte results
and a logarithm expression that yields the integer part of the binary
logarithm of the length, `ComputeMerkleRoot` returns a non-nil hash, the one
the reference computes by repeatedly replacing the list by the hashes
`Sha(left ++ right)` of its adjacent pairs, a final unpaired element paired
with itself, until one element remains.  The root of `[h]` is `h` and the
root of `[a, b]` is `Sha(a ++ b)`. -/
theorem merkle_root_reference (log2 : Nat → Nat) (Sha : List Byte → IHash) (hs : List IHash)
    (hn : 1 ≤ hs.length)
    (hlog : 2 ^ log2 hs.length ≤ hs.length ∧ hs.length < 2 ^ (log2 hs.length + 1))
    (h32 : ∀ h ∈ hs, h.Bytes.length = 32) (hSha : ∀ x, (Sha x).Bytes.length = 32) :
    (∃ root, ComputeMerkleRoot log2 Sha (hs.map some) = .ok (some root) ∧
      referenceMerkleRoot Sha hs = some root) ∧
    (∀ h : IHash, ComputeMerkleRoot log2 Sha [some h] = .ok (some h) ∧
      referenceMerkleRoot Sha [h] = some h) ∧
    (∀ a b : IHash, a.Bytes.length = 32 → b.Bytes.length = 32 →
      ComputeMerkleRoot log2 Sha [some a, some b] = .ok (some (Sha (a.Bytes ++ b.Bytes))) ∧
      referenceMerkleRoot Sha [a, b] = some (Sha (a.Bytes ++ b.Bytes))) := by
  refine ⟨?_, ?_, ?_⟩
  · have hlen : (hs.map some).length = hs.length := List.length_map _ _
    obtain ⟨m, hPm, hle, hmin⟩ := nextPowerOfTwo_least log2 hs.length hn hlog
    obtain ⟨merkles, root, _, _, h3, h4, h5, h6, h7⟩ := buildStore_spec log2 Sha (hs.map some)
      (by rw [hlen]; exact hn) (by rw [hlen, hPm]; exact hle)
    rw [hlen, hPm] at h4 h5 h6
    rw [hlen] at h3
    have hbase : ∀ k, k < 2 ^ m → merkles[k]? = some hs[k]? := by
      intro k hk
      by_cases hkn : k < hs.length
      · rw [h3 k hkn, List.getElem?_map, List.getElem?_eq_getElem hkn]
        rfl
      · rw [h4 k (by omega) hk, List.getElem?_eq_none (by omega)]
    have hlev := store_levels Sha hSha hs h32 m merkles hbase h5 m (Nat.le_refl m) 0
      (by rw [Nat.sub_self]; decide)
    rw [Nat.sub_self, pow_zero, Nat.add_zero, show 2 * 1 = 2 from rfl, h6] at hlev
    have hm : m ≤ hs.length := by
      rcases hmin with h0 | h0
      · omega
      · have := Nat.lt_two_pow (m - 1)
        omega
    have href := referenceRounds_iterate Sha m hs.length hs hm hle
      (fun h0 => by
        subst h0
        rw [pow_zero] at hle
        omega)
      (fun h1 => by
        rcases hmin with h0 | h0
        · omega
        · exact h0)
    have hpos := iterate_pairs_length_pos Sha hs hn m
    have hget : ((referencePairs Sha)^[m] hs)[0]? = some (((referencePairs Sha)^[m] hs)[0]) :=
      List.getElem?_eq_getElem (by omega)
    refine ⟨((referencePairs Sha)^[m] hs)[0], ?_, ?_⟩
    · rw [h7, Option.some.inj hlev, hget]
    · unfold referenceMerkleRoot
      rw [href, hget]
  · intro h
    refine ⟨?_, rfl⟩
    simp [ComputeMerkleRoot, BuildMerkleTreeStore, nextPowerOfTwo, loopIndices, merkleLoop]
  · intro a b ha hb
    refine ⟨?_, rfl⟩
    have : ComputeMerkleRoot log2 Sha [some a, some b] =
        .ok (some (hashMerkleBranches Sha a b)) := by
      simp [ComputeMerkleRoot, BuildMerkleTreeStore, nextPowerOfTwo, loopIndices, merkleLoop,
        merkleStep]
    rw [this, hashMerkleBranches_eq Sha a b ha hb]

theorem merkle_root_reference_witness :
    ∃ root, ComputeMerkleRoot Nat.log2 exampleSha
        ([NewZeroHash, NewZeroHash, NewZeroHash].map some) = .ok (some root) ∧
      referenceMerkleRoot exampleSha
        [NewZeroHash, NewZeroHash, NewZeroHash] = some root :=
  (merkle_root_reference Nat.log2 exampleSha
    [NewZeroHash, NewZeroHash, NewZeroHash] (by decide)
    (show 2 ^ Nat.log2 3 ≤ 3 ∧ 3 < 2 ^ (Nat.log2 3 + 1) by decide!)
    (by
      intro h hm
      simp only [List.mem_cons, List.mem_singleton, List.not_mem_nil, or_false, or_self] at hm
      rw [hm]
      rfl)
    (by
      intro x
      show (x.take 32 ++ List.replicate (32 - x.length) 0).length = 32
      rw [List.length_append, List.length_take, List.length_replicate]
      omega)).1

/-! ## Theorems: content entries -/

theorem bigEndianPutUint16_length (n : Nat) : (bigEndianPutUint16 n).length = 2 := rfl

theorem bigEndianUint16_put (n : Nat) (hn : n < 65536) (rest : List Byte) :
    ∃ hi lo, bigEndianPutUint16 n ++ rest = hi :: lo :: rest ∧ bigEndianUint16 hi lo = n := by
  refine ⟨_, _, rfl, ?_⟩
  show n / 256 % 256 * 256 + n % 256 = n
  omega

theorem marshalExtIDs_id_length (x : List Byte) (rest : List (List Byte)) :
    (marshalExtIDs (x :: rest)).length = 2 + x.length + (marshalExtIDs rest).length := by
  rw [marshalExtIDs, List.length_append, List.length_append, bigEndianPutUint16_length]

theorem unmarshalExtIDs_marshal :
    ∀ (ids : List (List Byte)) (fuel : Nat), (marshalExtIDs ids).length ≤ fuel →
      (marshalExtIDs ids).length < 65536 →
      unmarshalExtIDs fuel (marshalExtIDs ids) = some ids
  | [], fuel, _, _ => by cases fuel <;> rfl
  | x :: rest, fuel, hf, hlt => by
    have hlen := marshalExtIDs_id_length x rest
    obtain ⟨f, rfl⟩ : ∃ f, fuel = f + 1 := ⟨fuel - 1, by omega⟩
    obtain ⟨hi, lo, he, hv⟩ := bigEndianUint16_put x.length (by omega) (x ++ marshalExtIDs rest)
    rw [marshalExtIDs, List.append_assoc, he, unmarshalExtIDs]
    simp only [hv]
    rw [if_neg (by rw [List.length_append]; omega), List.drop_left, List.take_left,
      unmarshalExtIDs_marshal rest f (by omega) (by omega)]

theorem marshalBinary_length (e : Entry) :
    e.MarshalBinary.length =
      1 + e.ChainID.Bytes.length + 2 + (marshalExtIDs e.ExtIDs).length + e.Content.length := by
  simp only [Entry.MarshalBinary, List.length_append, List.length_singleton,
    bigEndianPutUint16_length]

/-- C23 (amended): the content-entry round trip.  For an entry with version 0,
a 32-byte chain id and external ids whose section, 2 bytes and the body for
each id, is at most 65535 bytes long and so fits the 2-byte length field (empty
ids allowed, any content), unmarshalling its encoding into any entry succeeds
and gives the entry back, so marshalling the result again yields the same
bytes; the encoding is the version byte, the chain id, the 2-byte big-endian
length of the external-id section, each id as a 2-byte length and its body,
then the content. -/
theorem entry_round_trip (e fresh : Entry) (hv : e.Version = 0)
    (hc : e.ChainID.Bytes.length = 32) (hx : (marshalExtIDs e.ExtIDs).length < 65536) :
    fresh.UnmarshalBinary e.MarshalBinary = (e, none) ∧
    (fresh.UnmarshalBinary e.MarshalBinary).1.MarshalBinary = e.MarshalBinary ∧
    e.MarshalBinary = [0] ++ e.ChainID.Bytes ++
      bigEndianPutUint16 (marshalExtIDs e.ExtIDs).length ++ marshalExtIDs e.ExtIDs ++ e.Content ∧
    (∀ x rest, marshalExtIDs (x :: rest) = bigEndianPutUint16 x.length ++ x ++ marshalExtIDs rest) := by
  have hdec : fresh.UnmarshalBinary e.MarshalBinary = (e, none) := by
    obtain ⟨hi, lo, he, hval⟩ := bigEndianUint16_put (marshalExtIDs e.ExtIDs).length hx
      (marshalExtIDs e.ExtIDs ++ e.Content)
    have hform : e.MarshalBinary =
        e.Version :: (e.ChainID.Bytes ++ hi :: lo :: (marshalExtIDs e.ExtIDs ++ e.Content)) := by
      rw [← he]
      simp only [Entry.MarshalBinary, List.append_assoc, List.singleton_append, List.cons_append,
        List.nil_append]
    rw [hform, Entry.UnmarshalBinary]
    simp only
    rw [if_neg (by rw [hv]; exact fun h => h rfl),
      if_neg (by rw [List.length_append]; omega),
      List.drop_left' hc, List.take_left' hc]
    simp only [hval]
    rw [if_neg (by rw [List.length_append]; omega), List.take_left, List.drop_left,
      unmarshalExtIDs_marshal e.ExtIDs _ (Nat.le_refl _) hx]
    rfl
  refine ⟨hdec, by rw [hdec], ?_, fun _ _ => rfl⟩
  rw [← hv]
  rfl

theorem entry_round_trip_witness :
    NewEntry.UnmarshalBinary testFirstEntry.MarshalBinary = (testFirstEntry, none) :=
  (entry_round_trip testFirstEntry NewEntry rfl rfl (by decide)).1

theorem testKSizeContent_length : testKSizeContent.length = 1024 := by decide!

theorem testKSizeEntry_length : testKSizeEntry.MarshalBinary.length = 1059 := by
  have h := marshalBinary_length testKSizeEntry
  have h1 : testKSizeEntry.ChainID.Bytes.length = 32 := rfl
  have h2 : (marshalExtIDs testKSizeEntry.ExtIDs).length = 0 := rfl
  have h3 : testKSizeEntry.Content.length = 1024 := testKSizeContent_length
  omega

/-- C24, the claim as stated fails: on the entry of `TestKSize` (no external
ids, 1024 bytes of content) the encoded length less the version byte and the
chain id is 1026, whose ceiling over 1024 is 2, while `KSize` is 1. -/
theorem ksize_minus_33_fails :
    testKSizeEntry.MarshalBinary.length - 33 = 1026 ∧
    max 1 ((testKSizeEntry.MarshalBinary.length - 33 + 1023) / 1024) = 2 ∧
    testKSizeEntry.KSize = 1 := by
  have hl := testKSizeEntry_length
  refine ⟨by rw [hl], by rw [hl]; rfl, ?_⟩
  unfold Entry.KSize
  rw [hl]
  rfl

/-- C24 as amended: for an entry with a 32-byte chain id, `KSize` is the
ceiling of the encoded length less the version byte, the chain id and the
2-byte length field (that is: the external-id section and the content)
divided by 1024, and at least 1; without external ids and with `1024 * k`
bytes of content it is `max 1 k`, so 1 for 1024 bytes. -/
theorem ksize_payload (e : Entry) (hc : e.ChainID.Bytes.length = 32) :
    e.KSize = max 1 ((e.MarshalBinary.length - 1 - 32 - 2 + 1023) / 1024) ∧
    e.MarshalBinary.length - 1 - 32 - 2 = (marshalExtIDs e.ExtIDs).length + e.Content.length ∧
    (∀ q, 1024 * q < e.MarshalBinary.length - 1 - 32 - 2 ↔
      q < (e.MarshalBinary.length - 1 - 32 - 2 + 1023) / 1024) ∧
    (∀ k, e.ExtIDs = [] → e.Content.length = 1024 * k → e.KSize = max 1 k) ∧
    testKSizeEntry.KSize = 1 := by
  have hl := marshalBinary_length e
  rw [hc] at hl
  refine ⟨?_, by omega, ?_, ?_, ?_⟩
  · unfold Entry.KSize
    rw [show e.MarshalBinary.length - 1 - 32 - 2 = e.MarshalBinary.length - 35 by omega]
  · intro q
    omega
  · intro k hx hk
    unfold Entry.KSize
    rw [hl, hx, hk]
    show max 1 ((1 + 32 + 2 + 0 + 1024 * k - 35 + 1023) / 1024) = max 1 k
    rw [show (1 + 32 + 2 + 0 + 1024 * k - 35 + 1023) / 1024 = k by omega]
  · unfold Entry.KSize
    rw [testKSizeEntry_length]
    rfl

theorem ksize_payload_witness :
    testFirstEntry.KSize = max 1 ((testFirstEntry.MarshalBinary.length - 1 - 32 - 2 + 1023) / 1024) :=
  (ksize_payload testFirstEntry rfl).1

end Factomd

/-! ## Theorems: adopted votes and message lists -/

namespace Factomd

section Trace

variable {A VC D : Type}

theorem Election.QuietEq.of_core {e e' : Election A VC D} (h : e.CoreEq e')
    (hi : e'.MsgListIn = e.MsgListIn) (ho : e'.MsgListOut = e.MsgListOut) : e.QuietEq e' :=
  ⟨h, hi, ho⟩

theorem Election.QuietEq.chain {a b c : Election A VC D} (h1 : a.QuietEq b) (h2 : b.QuietEq c) :
    a.QuietEq c :=
  ⟨Election.CoreEq.trans' h1.1 h2.1, h2.2.1.trans h1.2.1, h2.2.2.trans h1.2.2⟩

theorem executeDisplay_quietEq (env : Env A VC D) (e : Election A VC D) (m : IMessage) :
    e.QuietEq (e.executeDisplay env m) := by
  unfold Election.executeDisplay
  cases e.Display <;> exact ⟨⟨rfl, rfl, rfl, rfl, rfl, rfl, rfl⟩, rfl, rfl⟩

theorem displayResult_quietEq (env : Env A VC D) (e : Election A VC D) (ll : LeaderLevelMessage) :
    e.QuietEq (e.displayResult env ll) := by
  unfold Election.displayResult
  cases e.Display <;> exact ⟨⟨rfl, rfl, rfl, rfl, rfl, rfl, rfl⟩, rfl, rfl⟩

theorem ensureVotes_quietEq (e : Election A VC D) (vol : Identity) :
    e.QuietEq (e.ensureVotes vol) := by
  unfold Election.ensureVotes
  cases e.VolunteerVotes.get? vol <;> exact ⟨⟨rfl, rfl, rfl, rfl, rfl, rfl, rfl⟩, rfl, rfl⟩

theorem storeVote_quietEq (e : Election A VC D) (vol signer : Identity) (vote : VoteMessage) :
    e.QuietEq (e.storeVote vol signer vote) := by
  unfold Election.storeVote
  cases e.VolunteerVotes.get? vol <;> exact ⟨⟨rfl, rfl, rfl, rfl, rfl, rfl, rfl⟩, rfl, rfl⟩

theorem ExecuteWith_traced {env : Env A VC D} {P : Election A VC D → Election A VC D → Prop}
    (hP : TraceClosed env P) (exec : Election A VC D → IMessage → Election A VC D × Outcome)
    (h : ∀ e m, P e (exec e m).1) (e : Election A VC D) (m : IMessage) :
    P e (Election.ExecuteWith exec e m).1 := by
  have h1 := h e m
  unfold Election.ExecuteWith
  rcases hx : exec e m with ⟨e1, o⟩
  rw [hx] at h1
  cases o with
  | ret resp c =>
    cases m with
    | leaderLevel l => exact hP.trans _ _ _ h1 (hP.logOut e1 l)
    | volunteer _ => exact h1
    | vote _ => exact h1
    | eom => exact h1
  | panic p => exact h1
  | outOfFuel => exact h1

theorem executeVotes_traced {env : Env A VC D} {P : Election A VC D → Election A VC D → Prop}
    (hP : TraceClosed env P) (Exec : Election A VC D → IMessage → Election A VC D × Outcome)
    (h : ∀ e m, P e (Exec e m).1) (votes : List VoteMessage) :
    ∀ (e : Election A VC D) (vc : Bool) (r0 : Option LeaderLevelMessage),
      P e (executeVotes Exec e votes vc r0).1 := by
  induction votes with
  | nil =>
    intro e vc r0
    exact hP.refl e
  | cons v vs ih =>
    intro e vc r0
    have h1 := h e (.vote v)
    unfold executeVotes
    rcases hx : Exec e (.vote v) with ⟨e1, o⟩
    rw [hx] at h1
    cases o with
    | ret resp ch => exact hP.trans _ _ _ h1 (ih _ _ _)
    | panic p => exact h1
    | outOfFuel => exact h1

theorem commitIfLast_traced {env : Env A VC D} {P : Election A VC D → Election A VC D → Prop}
    (hP : TraceClosed env P) (e : Election A VC D) (msg : LeaderLevelMessage) :
    P e (e.commitIfLast env msg).1 := by
  unfold Election.commitIfLast
  by_cases ht : e.CommitmentTally > 2
  · rw [if_pos ht]
    have hc := hP.commit e ht
    cases hd : e.Display with
    | some d =>
      simp only [hd]
      exact hP.trans _ _ _ hc (hP.quiet _ _ ⟨⟨rfl, rfl, rfl, rfl, rfl, rfl, rfl⟩, rfl, rfl⟩)
    | none =>
      simp only [hd]
      cases env.displayNilExecute <;>
        exact hP.trans _ _ _ hc (hP.quiet _ _ ⟨⟨rfl, rfl, rfl, rfl, rfl, rfl, rfl⟩, rfl, rfl⟩)
  · rw [if_neg ht]
    exact hP.refl e

theorem afterAdopt_traced {env : Env A VC D} {P : Election A VC D → Election A VC D → Prop}
    (hP : TraceClosed env P) (Exec : Election A VC D → IMessage → Election A VC D × Outcome)
    (h : ∀ e m, P e (Exec e m).1) (e : Election A VC D) (ll : LeaderLevelMessage) :
    P e (e.afterAdopt env Exec ll).1 := by
  have h1 := commitIfLast_traced hP e ll
  unfold Election.afterAdopt
  rcases hx : e.commitIfLast env ll with ⟨e1, r⟩
  rw [hx] at h1
  cases r with
  | error p => exact h1
  | ok ll1 =>
    simp only
    by_cases hc : e1.Committed = true
    · rw [if_pos hc]
      exact h1
    · rw [if_neg hc]
      have h2 := h e1 (.leaderLevel ll1)
      rcases hy : Exec e1 (.leaderLevel ll1) with ⟨e2, o⟩
      rw [hy] at h2
      have h12 := hP.trans _ _ _ h1 h2
      cases o with
      | ret resp c =>
        cases resp with
        | none => exact h12
        | some m =>
          cases m with
          | leaderLevel l2 =>
            have h3 := commitIfLast_traced hP e2 l2
            simp only
            rcases hz : e2.commitIfLast env l2 with ⟨e3, r3⟩
            rw [hz] at h3
            cases r3 <;> exact hP.trans _ _ _ h12 h3
          | volunteer _ => exact h12
          | vote _ => exact h12
          | eom => exact h12
      | panic p => exact h12
      | outOfFuel => exact h12

theorem consultControl_traced {env : Env A VC D} {P : Election A VC D → Election A VC D → Prop}
    (hP : TraceClosed env P) (Exec : Election A VC D → IMessage → Election A VC D × Outcome)
    (h : ∀ e m, P e (Exec e m).1) (e : Election A VC D) (msg : LeaderLevelMessage)
    (voteChange : Bool) (rank0Vote : Option LeaderLevelMessage) :
    P e (e.consultControl env Exec msg voteChange rank0Vote).1 := by
  unfold Election.consultControl
  split
  · exact hP.refl e
  rename_i c hg
  split
  rename_i c1 res change hv
  have hf : P e { e with VolunteerControls :=
      e.VolunteerControls.set msg.VolunteerMessage.Signer c1 } :=
    hP.quiet _ _ ⟨⟨rfl, rfl, rfl, rfl, rfl, rfl, rfl⟩, rfl, rfl⟩
  split
  · rename_i ll
    have hans : (env.vcExecute c msg).2.1 = some (.leaderLevel ll) := by rw [hv]
    have h4 : P e (Election.displayResult env
        { e with VolunteerControls := e.VolunteerControls.set msg.VolunteerMessage.Signer c1 }
        ll) :=
      hP.trans _ _ _ hf (hP.quiet _ _ (displayResult_quietEq env _ ll))
    dsimp only
    split
    · rename_i hless
      by_cases hout : ll.Rank ≥ (Election.displayResult env
          { e with VolunteerControls := e.VolunteerControls.set msg.VolunteerMessage.Signer c1 }
          ll).CurrentLevel
      · rw [if_pos hout]
        exact hP.trans _ _ _ (hP.trans _ _ _ h4 (hP.outrun _ c msg ll hans hless hout))
          (afterAdopt_traced hP Exec h _ _)
      · rw [if_neg hout]
        exact hP.trans _ _ _ (hP.trans _ _ _ h4 (hP.next _ c msg ll hans hless hout))
          (afterAdopt_traced hP Exec h _ _)
    · split
      · exact h4
      · split <;> exact h4
  · exact hf
  · split <;> exact hf

theorem receive_traced {env : Env A VC D} {P : Election A VC D → Election A VC D → Prop}
    (hP : TraceClosed env P) (e : Election A VC D) (msg : LeaderLevelMessage) :
    P e (e.receive env msg) := by
  unfold Election.receive
  cases e.VolunteerControls.get? msg.VolunteerMessage.Signer with
  | some _ => exact hP.logIn e msg
  | none =>
    have hq : ∀ vc : VC, P e
        { e with VolunteerControls := e.VolunteerControls.set msg.VolunteerMessage.Signer vc } :=
      fun vc => hP.quiet _ _ ⟨⟨rfl, rfl, rfl, rfl, rfl, rfl, rfl⟩, rfl, rfl⟩
    exact hP.trans _ _ _ (hq (env.NewVolunteerControl e.Self e.AuthSet)) (hP.logIn _ msg)

theorem executeLeaderLevelMessage_after_receive {env : Env A VC D}
    {P : Election A VC D → Election A VC D → Prop}
    (hP : TraceClosed env P) (Exec : Election A VC D → IMessage → Election A VC D × Outcome)
    (h : ∀ e m, P e (Exec e m).1) (e : Election A VC D) (msg : LeaderLevelMessage) :
    P (e.receive env msg) (e.executeLeaderLevelMessage env Exec msg).1 := by
  rw [executeLeaderLevelMessage_eq]
  split
  · exact hP.refl _
  · have h2 := executeVotes_traced hP Exec h msg.VoteMessages (e.receive env msg) false none
    split
    · rename_i e2 o hx
      rw [hx] at h2
      exact h2
    · rename_i e2 voteChange rank0Vote hx
      rw [hx] at h2
      exact hP.trans _ _ _ h2 (consultControl_traced hP Exec h e2 msg voteChange rank0Vote)

theorem executeLeaderLevelMessage_traced {env : Env A VC D}
    {P : Election A VC D → Election A VC D → Prop}
    (hP : TraceClosed env P) (Exec : Election A VC D → IMessage → Election A VC D × Outcome)
    (h : ∀ e m, P e (Exec e m).1) (e : Election A VC D) (msg : LeaderLevelMessage) :
    P e (e.executeLeaderLevelMessage env Exec msg).1 :=
  hP.trans _ _ _ (receive_traced hP e msg)
    (executeLeaderLevelMessage_after_receive hP Exec h e msg)

theorem sendRank0_traced {env : Env A VC D} {P : Election A VC D → Election A VC D → Prop}
    (hP : TraceClosed env P) (Exec : Election A VC D → IMessage → Election A VC D × Outcome)
    (h : ∀ e m, P e (Exec e m).1) (e : Election A VC D) (vote : VoteMessage)
    (hc : e.Committed = false)
    (hg : e.CurrentVote.Rank = -1 ∨
      (¬ e.CurrentVote.Rank > 0 ∧
        ¬ e.CurrentVote.VolunteerPriority ≥ e.getVolunteerPriority env vote.Volunteer.Signer)) :
    P e (e.sendRank0 env Exec vote).1 := by
  rw [sendRank0_eq, rank0Return_fst]
  exact hP.trans _ _ _ (hP.rank0 e _ hc rfl rfl hg) (h _ _)

theorem executeWith_traced {env : Env A VC D} {P : Election A VC D → Election A VC D → Prop}
    (hP : TraceClosed env P) (Exec : Election A VC D → IMessage → Election A VC D × Outcome)
    (h : ∀ e m, P e (Exec e m).1) (e : Election A VC D) (msg : IMessage) :
    P e (Election.executeWith env Exec e msg).1 := by
  unfold Election.executeWith
  dsimp only
  generalize hE : Election.executeDisplay env { e with TotalMessages := e.TotalMessages + 1 } msg
    = e0
  have hce : e.QuietEq e0 := by
    rw [← hE]
    exact Election.QuietEq.chain ⟨⟨rfl, rfl, rfl, rfl, rfl, rfl, rfl⟩, rfl, rfl⟩
      (executeDisplay_quietEq env _ msg)
  have h0 : P e e0 := hP.quiet _ _ hce
  by_cases hc : e0.Committed = true
  · rw [if_pos hc]
    exact h0
  rw [if_neg hc]
  have hcf : e0.Committed = false := by
    cases hb : e0.Committed
    · rfl
    · exact absurd hb hc
  cases msg with
  | leaderLevel m =>
    exact hP.trans _ _ _ h0 (executeLeaderLevelMessage_traced hP Exec h e0 m)
  | eom => exact h0
  | volunteer vol =>
    dsimp only
    have h1 : P e (e0.ensureVotes vol.Signer) :=
      hP.trans _ _ _ h0 (hP.quiet _ _ (ensureVotes_quietEq e0 vol.Signer))
    split
    · exact h1
    · have h2 : P e ((e0.ensureVotes vol.Signer).storeVote vol.Signer
          (e0.ensureVotes vol.Signer).Self (NewVoteMessage vol (e0.ensureVotes vol.Signer).Self)) :=
        hP.trans _ _ _ h1 (hP.quiet _ _ (storeVote_quietEq _ _ _ _))
      have h3 := h ((e0.ensureVotes vol.Signer).storeVote vol.Signer
          (e0.ensureVotes vol.Signer).Self (NewVoteMessage vol (e0.ensureVotes vol.Signer).Self))
          (.vote (NewVoteMessage vol (e0.ensureVotes vol.Signer).Self))
      have h23 := hP.trans _ _ _ h2 h3
      split
      · rename_i e3 ll c hx
        rw [hx] at h23
        exact h23
      · rename_i e3 r c hx
        rw [hx] at h23
        exact h23
      · rename_i e3 o hx
        rw [hx] at h23
        exact h23
  | vote vote =>
    dsimp only
    generalize hS : Election.executeDisplay env
      ((e0.ensureVotes vote.Volunteer.Signer).storeVote vote.Volunteer.Signer vote.Signer vote)
      (.vote vote) = e3
    have hce3 : e0.QuietEq e3 := by
      rw [← hS]
      exact Election.QuietEq.chain (Election.QuietEq.chain (ensureVotes_quietEq _ _)
        (storeVote_quietEq _ _ _ _)) (executeDisplay_quietEq env _ _)
    have h3 : P e e3 := hP.trans _ _ _ h0 (hP.quiet _ _ hce3)
    have hc3 : e3.Committed = false := by
      rw [hce3.1.2.2.2.1]
      exact hcf
    split
    · split
      · rename_i hr
        exact hP.trans _ _ _ h3 (sendRank0_traced hP Exec h e3 vote hc3 (Or.inl hr))
      · rename_i hr
        split
        · exact h3
        · rename_i hpos
          split
          · exact h3
          · rename_i hprio
            exact hP.trans _ _ _ h3
              (sendRank0_traced hP Exec h e3 vote hc3 (Or.inr ⟨hpos, hprio⟩))
    · exact h3

theorem execute_traced {env : Env A VC D} {P : Election A VC D → Election A VC D → Prop}
    (hP : TraceClosed env P) (fuel : Nat) :
    ∀ (e : Election A VC D) (msg : IMessage), P e (Election.execute env fuel e msg).1 := by
  induction fuel with
  | zero =>
    intro e msg
    exact executeWith_traced hP _ (fun e _ => hP.refl e) e msg
  | succ n ih =>
    intro e msg
    exact executeWith_traced hP _ (ExecuteWith_traced hP _ ih) e msg

theorem Execute_traced {env : Env A VC D} {P : Election A VC D → Election A VC D → Prop}
    (hP : TraceClosed env P) (fuel : Nat) (e : Election A VC D) (msg : IMessage) :
    P e (Election.Execute env fuel e msg).1 :=
  ExecuteWith_traced hP _ (execute_traced hP fuel) e msg

theorem reachable_traced {env : Env A VC D} {P : Election A VC D → Election A VC D → Prop}
    (hP : TraceClosed env P) (I : Election A VC D → Prop)
    (hPI : ∀ e e', P e e' → I e → I e')
    (h0 : ∀ self authset loc, I (NewElection self authset loc))
    (e : Election A VC D) (hr : Reachable env e) : I e := by
  induction hr with
  | init self authset loc => exact h0 self authset loc
  | addDisplay e d _ ih =>
    exact hPI e _ (hP.quiet e _ ⟨⟨rfl, rfl, rfl, rfl, rfl, rfl, rfl⟩, rfl, rfl⟩) ih
  | execute e fuel m _ ih => exact hPI _ _ (execute_traced hP fuel e m) ih
  | Execute e fuel m _ ih => exact hPI _ _ (Execute_traced hP fuel e m) ih

theorem updateCurrentVote_lists (e : Election A VC D) (new : LeaderLevelMessage) :
    (e.updateCurrentVote new).MsgListIn = e.MsgListIn ∧
    (e.updateCurrentVote new).MsgListOut = e.MsgListOut := by
  unfold Election.updateCurrentVote
  split
  · split
    · exact ⟨rfl, rfl⟩
    · exact ⟨rfl, rfl⟩
  · exact ⟨rfl, rfl⟩

/-- The relation behind C22: both message lists of the state before are
prefixes of the lists of the state after. -/
theorem prefixRel_closed (env : Env A VC D) :
    TraceClosed env (fun e e' : Election A VC D =>
      e.MsgListIn <+: e'.MsgListIn ∧ e.MsgListOut <+: e'.MsgListOut) where
  refl := fun _ => ⟨List.prefix_refl _, List.prefix_refl _⟩
  trans := fun _ _ _ h1 h2 => ⟨h1.1.trans h2.1, h1.2.trans h2.2⟩
  quiet := by
    intro e e' hq
    rw [hq.2.1, hq.2.2]
    exact ⟨List.prefix_refl _, List.prefix_refl _⟩
  logIn := fun _ _ => ⟨List.prefix_append _ _, List.prefix_refl _⟩
  logOut := fun _ _ => ⟨List.prefix_refl _, List.prefix_append _ _⟩
  rank0 := by
    intro e ll _ _ _ _
    obtain ⟨hi, ho⟩ := updateCurrentVote_lists { e with CurrentLevel := goAdd e.CurrentLevel 1 } ll
    rw [hi, ho]
    exact ⟨List.prefix_refl _, List.prefix_refl _⟩
  outrun := by
    intro e vc msg r _ _ _
    obtain ⟨hi, ho⟩ := updateCurrentVote_lists
      { e with CurrentLevel := goAdd (e.withPriority env r).Rank 2 }
      { e.withPriority env r with Level := goAdd (e.withPriority env r).Rank 1 }
    rw [hi, ho]
    exact ⟨List.prefix_refl _, List.prefix_refl _⟩
  next := by
    intro e vc msg r _ _ _
    obtain ⟨hi, ho⟩ := updateCurrentVote_lists
      { e with CurrentLevel := goAdd e.CurrentLevel 1 }
      { e.withPriority env r with Level := e.CurrentLevel }
    rw [hi, ho]
    exact ⟨List.prefix_refl _, List.prefix_refl _⟩
  commit := fun _ _ => ⟨List.prefix_refl _, List.prefix_refl _⟩

theorem receive_lists (env : Env A VC D) (e : Election A VC D) (msg : LeaderLevelMessage) :
    (e.receive env msg).MsgListIn = e.MsgListIn ++ [msg] ∧
    (e.receive env msg).MsgListOut = e.MsgListOut := by
  unfold Election.receive
  cases e.VolunteerControls.get? msg.VolunteerMessage.Signer <;> exact ⟨rfl, rfl⟩

theorem execute_leaderLevel_logged (env : Env A VC D) (fuel : Nat) (e : Election A VC D)
    (l : LeaderLevelMessage) (hc : e.Committed = false) :
    (e.MsgListIn ++ [l]) <+: (Election.execute env fuel e (.leaderLevel l)).1.MsgListIn := by
  have key : ∀ Exec : Election A VC D → IMessage → Election A VC D × Outcome,
      (∀ s m, s.MsgListIn <+: (Exec s m).1.MsgListIn ∧ s.MsgListOut <+: (Exec s m).1.MsgListOut) →
      (e.MsgListIn ++ [l]) <+: (Election.executeWith env Exec e (.leaderLevel l)).1.MsgListIn := by
    intro Exec hE
    rw [executeWith_leaderLevel env Exec e l hc]
    have h1 := (executeLeaderLevelMessage_after_receive (prefixRel_closed env) Exec hE
      (Election.executeDisplay env { e with TotalMessages := e.TotalMessages + 1 }
        (.leaderLevel l)) l).1
    rw [(receive_lists env _ l).1,
      (executeDisplay_quietEq env { e with TotalMessages := e.TotalMessages + 1 }
        (.leaderLevel l)).2.1] at h1
    exact h1
  cases fuel with
  | zero => exact key _ (fun s _ => ⟨List.prefix_refl _, List.prefix_refl _⟩)
  | succ n =>
    exact key _ (fun s m => ExecuteWith_traced (prefixRel_closed env) _
      (execute_traced (prefixRel_closed env) n) s m)

theorem Execute_of_ret (env : Env A VC D) (fuel : Nat) (e : Election A VC D)
    (l : LeaderLevelMessage) (resp : Option IMessage) (c : Bool)
    (hret : (Election.Execute env fuel e (.leaderLevel l)).2 = .ret resp c) :
    (Election.Execute env fuel e (.leaderLevel l)).1 =
      { (Election.execute env fuel e (.leaderLevel l)).1 with
        MsgListOut := (Election.execute env fuel e (.leaderLevel l)).1.MsgListOut ++ [l] } := by
  unfold Election.Execute Election.ExecuteWith at hret ⊢
  rcases hx : Election.execute env fuel e (.leaderLevel l) with ⟨e1, o⟩
  rw [hx] at hret
  cases o with
  | ret r1 c1 => rfl
  | panic p => cases hret
  | outOfFuel => cases hret

end Trace

/-- C22, the claim as stated fails: a new election of participant 0 is handed,
through `Execute`, a leader-level message of participant 1.  The call returns
nil (nothing is emitted), and the message is in `MsgListOut` afterwards. -/
theorem msgListOut_counterexample :
    ∃ s, Election.Execute exampleEnv 1 (NewElection 0 () ⟨0, 0, 0⟩) (.leaderLevel exampleReceived) =
        (s, .ret none false) ∧
      s.MsgListOut = [exampleReceived] ∧ exampleReceived.Signer ≠ s.Self :=
  ⟨_, rfl, rfl, by decide⟩

/-- C22 as amended: the message lists are append-only, for every call of
`Execute` and of `execute` the lists before are prefixes of the lists after;
`MsgListIn` receives every leader-level message processed by an election that
is not committed (a committed election leaves it alone); and a call of
`Execute` on a leader-level message that returns appends that message, emitted
or not, to `MsgListOut` after everything `execute` appended, while on any
other message `Execute` is `execute`. -/
theorem message_lists {A VC D : Type} (env : Env A VC D) (fuel : Nat) (e : Election A VC D)
    (l : LeaderLevelMessage) (resp : Option IMessage) (c : Bool)
    (hret : (Election.Execute env fuel e (.leaderLevel l)).2 = .ret resp c) :
    (∀ (k : Nat) (s : Election A VC D) (m : IMessage),
      s.MsgListIn <+: (Election.Execute env k s m).1.MsgListIn ∧
      s.MsgListOut <+: (Election.Execute env k s m).1.MsgListOut ∧
      s.MsgListIn <+: (Election.execute env k s m).1.MsgListIn ∧
      s.MsgListOut <+: (Election.execute env k s m).1.MsgListOut) ∧
    (Election.Execute env fuel e (.leaderLevel l)).1.MsgListOut =
      (Election.execute env fuel e (.leaderLevel l)).1.MsgListOut ++ [l] ∧
    (Election.Execute env fuel e (.leaderLevel l)).1.MsgListIn =
      (Election.execute env fuel e (.leaderLevel l)).1.MsgListIn ∧
    (e.Committed = false →
      (e.MsgListIn ++ [l]) <+: (Election.Execute env fuel e (.leaderLevel l)).1.MsgListIn) ∧
    (e.Committed = true →
      (Election.Execute env fuel e (.leaderLevel l)).1.MsgListIn = e.MsgListIn ∧
      (Election.Execute env fuel e (.leaderLevel l)).1.MsgListOut = e.MsgListOut ++ [l]) ∧
    (∀ (k : Nat) (s : Election A VC D) (m : IMessage), (∀ x, m ≠ .leaderLevel x) →
      (Election.Execute env k s m).1 = (Election.execute env k s m).1) := by
  have hE := Execute_of_ret env fuel e l resp c hret
  refine ⟨?_, by rw [hE], by rw [hE], ?_, ?_, ?_⟩
  · intro k s m
    have h1 := Execute_traced (prefixRel_closed env) k s m
    have h2 := execute_traced (prefixRel_closed env) k s m
    exact ⟨h1.1, h1.2, h2.1, h2.2⟩
  · intro hc
    rw [hE]
    exact execute_leaderLevel_logged env fuel e l hc
  · intro hc
    have hx := execute_committed env fuel e (.leaderLevel l) hc
    have hq := executeDisplay_quietEq env { e with TotalMessages := e.TotalMessages + 1 }
      (.leaderLevel l)
    rw [hE, hx]
    refine ⟨hq.2.1, ?_⟩
    show (Election.executeDisplay env { e with TotalMessages := e.TotalMessages + 1 }
      (.leaderLevel l)).MsgListOut ++ [l] = e.MsgListOut ++ [l]
    rw [hq.2.2]
  · intro k s m hm
    unfold Election.Execute Election.ExecuteWith
    rcases hx : Election.execute env k s m with ⟨e1, o⟩
    cases o with
    | ret r1 c1 =>
      cases m with
      | leaderLevel x => exact absurd rfl (hm x)
      | volunteer _ => rfl
      | vote _ => rfl
      | eom => rfl
    | panic p => rfl
    | outOfFuel => rfl

theorem message_lists_witness :
    (Election.Execute exampleEnv 1 (NewElection 0 () ⟨0, 0, 0⟩)
        (.leaderLevel exampleReceived)).1.MsgListOut =
      (Election.execute exampleEnv 1 (NewElection 0 () ⟨0, 0, 0⟩)
        (.leaderLevel exampleReceived)).1.MsgListOut ++ [exampleReceived] :=
  (message_lists exampleEnv 1 (NewElection 0 () ⟨0, 0, 0⟩) exampleReceived none false rfl).2.1

end Factomd

/-! ## Theorems: the steps of a run, levels and the order of votes -/

namespace Factomd

theorem goAdd_eq (a b : Int) (h1 : -9223372036854775808 ≤ a + b) (h2 : a + b ≤ maxInt) :
    goAdd a b = a + b := by
  unfold goAdd
  unfold maxInt at h2
  omega

theorem goAdd_ge (a b : Int) (h : a + b ≤ maxInt) : a + b ≤ goAdd a b := by
  unfold goAdd
  unfold maxInt at h
  omega

theorem goAdd_range (a b : Int) : -9223372036854775808 ≤ goAdd a b ∧ goAdd a b ≤ maxInt := by
  unfold goAdd maxInt
  omega

theorem goAdd_two (r : Int) : goAdd r 2 = goAdd (goAdd r 1) 1 := by
  unfold goAdd
  omega

section Steps

variable {A VC D : Type}

theorem adoptResult_fields (s : Election A VC D) (ll : LeaderLevelMessage) :
    (s.adoptResult ll).CurrentVote.Rank = ll.Rank ∧
    (s.adoptResult ll).CurrentVote.VolunteerPriority = ll.VolunteerPriority ∧
    (s.adoptResult ll).Committed = s.Committed ∧
    (s.adoptResult ll).MsgListIn = s.MsgListIn ∧
    (s.adoptResult ll).MsgListOut = s.MsgListOut ∧
    ((s.CurrentLevel ≤ ll.Rank ∧ (s.adoptResult ll).CurrentVote.Level = goAdd ll.Rank 1 ∧
        (s.adoptResult ll).CurrentLevel = goAdd ll.Rank 2) ∨
      (ll.Rank < s.CurrentLevel ∧ (s.adoptResult ll).CurrentVote.Level = s.CurrentLevel ∧
        (s.adoptResult ll).CurrentLevel = goAdd s.CurrentLevel 1)) := by
  unfold Election.adoptResult Election.assignLevel
  by_cases h : ll.Rank ≥ s.CurrentLevel
  · rw [if_pos h]
    obtain ⟨f1, f2, f3, -⟩ := updateCurrentVote_fields
      { s with CurrentLevel := goAdd ll.Rank 2 } { ll with Level := goAdd ll.Rank 1 }
    obtain ⟨g1, g2⟩ := updateCurrentVote_lists
      { s with CurrentLevel := goAdd ll.Rank 2 } { ll with Level := goAdd ll.Rank 1 }
    dsimp only at f1 f2 f3 g1 g2 ⊢
    rw [f1, f2, f3, g1, g2]
    exact ⟨rfl, rfl, rfl, rfl, rfl, Or.inl ⟨h, rfl, rfl⟩⟩
  · rw [if_neg h]
    obtain ⟨f1, f2, f3, -⟩ := updateCurrentVote_fields
      { s with CurrentLevel := goAdd s.CurrentLevel 1 } { ll with Level := s.CurrentLevel }
    obtain ⟨g1, g2⟩ := updateCurrentVote_lists
      { s with CurrentLevel := goAdd s.CurrentLevel 1 } { ll with Level := s.CurrentLevel }
    dsimp only at f1 f2 f3 g1 g2 ⊢
    rw [f1, f2, f3, g1, g2]
    exact ⟨rfl, rfl, rfl, rfl, rfl, Or.inr ⟨by omega, rfl, rfl⟩⟩

/-- The steps of `TraceStep`, as far as the current vote and the current level
are concerned. -/
theorem traceStep_cases {env : Env A VC D} {s s' : Election A VC D} (h : TraceStep env s s') :
    (s'.CurrentVote = s.CurrentVote ∧ s'.CurrentLevel = s.CurrentLevel) ∨
    (Rank0Adoption s s' ∧ s'.CurrentVote.Rank = 0 ∧ s'.CurrentVote.Level = s.CurrentLevel ∧
      s'.CurrentLevel = goAdd s.CurrentLevel 1 ∧
      (s.CurrentVote.Rank = -1 ∨ (¬ s.CurrentVote.Rank > 0 ∧
        ¬ s.CurrentVote.VolunteerPriority ≥ s'.CurrentVote.VolunteerPriority))) ∨
    (ControlAdoption env s s' ∧
      ∃ (vc : VC) (msg r : LeaderLevelMessage),
        (env.vcExecute vc msg).2.1 = some (.leaderLevel r) ∧
        s'.CurrentVote.Rank = r.Rank ∧
        (s.CurrentVote.Rank < r.Rank ∨ (s.CurrentVote.Rank = r.Rank ∧
          (-s.CurrentVote.VolunteerPriority < -s'.CurrentVote.VolunteerPriority ∨
            (-s.CurrentVote.VolunteerPriority = -s'.CurrentVote.VolunteerPriority ∧
              s.CurrentVote.Level < r.Level)))) ∧
        ((s.CurrentLevel ≤ r.Rank ∧ s'.CurrentVote.Level = goAdd r.Rank 1 ∧
            s'.CurrentLevel = goAdd r.Rank 2) ∨
          (r.Rank < s.CurrentLevel ∧ s'.CurrentVote.Level = s.CurrentLevel ∧
            s'.CurrentLevel = goAdd s.CurrentLevel 1))) := by
  rcases h with h | ⟨msg, rfl⟩ | ⟨l, rfl⟩ | h | h | ⟨_, rfl⟩
  · exact Or.inl ⟨h.1.1, h.1.2.1⟩
  · exact Or.inl ⟨rfl, rfl⟩
  · exact Or.inl ⟨rfl, rfl⟩
  · refine Or.inr (Or.inl ⟨h, ?_⟩)
    obtain ⟨ll, _, hr, hl, hg, rfl⟩ := h
    obtain ⟨f1, f2, -, -⟩ := updateCurrentVote_fields
      { s with CurrentLevel := goAdd s.CurrentLevel 1 } ll
    rw [f1, f2]
    exact ⟨hr, hl, rfl, hg⟩
  · refine Or.inr (Or.inr ⟨h, ?_⟩)
    obtain ⟨vc, msg, r, hans, hless, rfl⟩ := h
    obtain ⟨a1, a2, -, -, -, a6⟩ := adoptResult_fields s (s.withPriority env r)
    rw [less_iff] at hless
    refine ⟨vc, msg, r, hans, a1, ?_, a6⟩
    rw [a2]
    exact hless
  · exact Or.inl ⟨rfl, rfl⟩

theorem adoptResult_outrun (s : Election A VC D) (ll : LeaderLevelMessage)
    (h : ll.Rank ≥ s.CurrentLevel) :
    s.adoptResult ll = Election.updateCurrentVote { s with CurrentLevel := goAdd ll.Rank 2 }
      { ll with Level := goAdd ll.Rank 1 } := by
  unfold Election.adoptResult Election.assignLevel
  rw [if_pos h]

theorem adoptResult_next (s : Election A VC D) (ll : LeaderLevelMessage)
    (h : ¬ ll.Rank ≥ s.CurrentLevel) :
    s.adoptResult ll = Election.updateCurrentVote { s with CurrentLevel := goAdd s.CurrentLevel 1 }
      { ll with Level := s.CurrentLevel } := by
  unfold Election.adoptResult Election.assignLevel
  rw [if_neg h]

/-- Every relation that contains the steps of `TraceStep` and is reflexive and
transitive is kept by `execute`; so is the chain of steps itself. -/
theorem chain_closed (env : Env A VC D) :
    TraceClosed env (Relation.ReflTransGen (TraceStep env)) where
  refl := fun _ => Relation.ReflTransGen.refl
  trans := fun _ _ _ h1 h2 => h1.trans h2
  quiet := fun _ _ h => Relation.ReflTransGen.single (Or.inl h)
  logIn := fun _ msg => Relation.ReflTransGen.single (Or.inr (Or.inl ⟨msg, rfl⟩))
  logOut := fun _ l => Relation.ReflTransGen.single (Or.inr (Or.inr (Or.inl ⟨l, rfl⟩)))
  rank0 := fun _ ll hc hr hl hg => Relation.ReflTransGen.single
    (Or.inr (Or.inr (Or.inr (Or.inl ⟨ll, hc, hr, hl, hg, rfl⟩))))
  outrun := fun s vc msg r hans hless hout => Relation.ReflTransGen.single
    (Or.inr (Or.inr (Or.inr (Or.inr (Or.inl
      ⟨vc, msg, r, hans, hless, (adoptResult_outrun s _ hout).symm⟩)))))
  next := fun s vc msg r hans hless hout => Relation.ReflTransGen.single
    (Or.inr (Or.inr (Or.inr (Or.inr (Or.inl
      ⟨vc, msg, r, hans, hless, (adoptResult_next s _ hout).symm⟩)))))
  commit := fun _ ht => Relation.ReflTransGen.single
    (Or.inr (Or.inr (Or.inr (Or.inr (Or.inr ⟨ht, rfl⟩)))))

theorem execute_chain (env : Env A VC D) (fuel : Nat) (e : Election A VC D) (m : IMessage) :
    Relation.ReflTransGen (TraceStep env) e (Election.execute env fuel e m).1 :=
  execute_traced (chain_closed env) fuel e m

theorem Execute_chain (env : Env A VC D) (fuel : Nat) (e : Election A VC D) (m : IMessage) :
    Relation.ReflTransGen (TraceStep env) e (Election.Execute env fuel e m).1 :=
  Execute_traced (chain_closed env) fuel e m

theorem reachable_chain (env : Env A VC D) (e : Election A VC D) (hr : Reachable env e) :
    ∃ self authset loc,
      Relation.ReflTransGen (TraceStep env) (NewElection self authset loc) e := by
  induction hr with
  | init self authset loc => exact ⟨self, authset, loc, Relation.ReflTransGen.refl⟩
  | addDisplay e d _ ih =>
    obtain ⟨self, authset, loc, h⟩ := ih
    exact ⟨self, authset, loc,
      h.tail (Or.inl ⟨⟨rfl, rfl, rfl, rfl, rfl, rfl, rfl⟩, rfl, rfl⟩)⟩
  | execute e fuel m _ ih =>
    obtain ⟨self, authset, loc, h⟩ := ih
    exact ⟨self, authset, loc, h.trans (execute_chain env fuel e m)⟩
  | Execute e fuel m _ ih =>
    obtain ⟨self, authset, loc, h⟩ := ih
    exact ⟨self, authset, loc, h.trans (Execute_chain env fuel e m)⟩

/-- Along a chain of steps from a state with `I`: either every step has `G`
and the last state has `I`, or the chain goes through a state with `B`, when
each step between states without `B` keeps `I` and has `G`. -/
theorem chain_cases (env : Env A VC D) (I B : Election A VC D → Prop)
    (G : Election A VC D → Election A VC D → Prop)
    (hstep : ∀ s s', TraceStep env s s' → I s → ¬ B s → ¬ B s' → I s' ∧ G s s')
    {e e' : Election A VC D} (h : Relation.ReflTransGen (TraceStep env) e e') (hI : I e) :
    (Relation.ReflTransGen (fun s s' => TraceStep env s s' ∧ G s s') e e' ∧ I e') ∨
    ∃ s, Relation.ReflTransGen (TraceStep env) e s ∧ B s ∧
      Relation.ReflTransGen (TraceStep env) s e' := by
  induction h with
  | refl => exact Or.inl ⟨Relation.ReflTransGen.refl, hI⟩
  | @tail b c hab hbc ih =>
    rcases ih with ⟨good, hb⟩ | ⟨s, h1, hs, h2⟩
    · by_cases hBb : B b
      · exact Or.inr ⟨b, hab, hBb, Relation.ReflTransGen.single hbc⟩
      · by_cases hBc : B c
        · exact Or.inr ⟨c, hab.tail hbc, hBc, Relation.ReflTransGen.refl⟩
        · obtain ⟨hc, hg⟩ := hstep b c hbc hb hBb hBc
          exact Or.inl ⟨good.tail ⟨hbc, hg⟩, hc⟩
    · exact Or.inr ⟨s, h1, hs, h2.tail hbc⟩

end Steps

section LevelAndVote

variable {A VC D : Type}

theorem levelMove_step {env : Env A VC D} {s s' : Election A VC D} (h : TraceStep env s s')
    (h1 : ¬ s.AtIntLimit) (h2 : ¬ s'.AtIntLimit) : LevelMove s s' := by
  unfold Election.AtIntLimit at h1 h2
  unfold LevelMove
  rcases traceStep_cases h with ⟨hv, hl⟩ | ⟨_, _, _, hl, _⟩ | ⟨_, vc, msg, r, _, hr, _, hc⟩
  · rw [hl]
    exact ⟨le_refl _, fun hne => absurd hv hne⟩
  · have := goAdd_ge s.CurrentLevel 1 (by unfold maxInt at h1 ⊢; omega)
    rw [hl]
    exact ⟨by omega, fun _ => by omega⟩
  · rcases hc with ⟨c1, _, c3⟩ | ⟨_, _, c3⟩
    · have := goAdd_ge r.Rank 2 (by rw [hr] at h2; unfold maxInt at h2 ⊢; omega)
      rw [c3]
      exact ⟨by omega, fun _ => by omega⟩
    · have := goAdd_ge s.CurrentLevel 1 (by unfold maxInt at h1 ⊢; omega)
      rw [c3]
      exact ⟨by omega, fun _ => by omega⟩

theorem levelMove_chain {env : Env A VC D} {e e' : Election A VC D}
    (h : Relation.ReflTransGen (fun s s' => TraceStep env s s' ∧ LevelMove s s') e e') :
    LevelMove e e' := by
  induction h with
  | refl => exact ⟨le_refl _, fun hne => absurd rfl hne⟩
  | @tail b c _ hbc ih =>
    obtain ⟨h1, h1'⟩ := ih
    obtain ⟨h2, h2'⟩ := hbc.2
    refine ⟨le_trans h1 h2, fun hne => ?_⟩
    by_cases hb : b.CurrentVote = e.CurrentVote
    · have : c.CurrentVote ≠ b.CurrentVote := by
        rw [hb]
        exact hne
      exact lt_of_le_of_lt h1 (h2' this)
    · exact lt_of_lt_of_le (h1' hb) h2

theorem levelMove_or_limit {env : Env A VC D} {e e' : Election A VC D}
    (h : Relation.ReflTransGen (TraceStep env) e e') :
    LevelMove e e' ∨ PassedIntLimit env e e' := by
  rcases chain_cases env (fun _ => True) (fun s => s.AtIntLimit) LevelMove
    (fun s s' hs _ h1 h2 => ⟨trivial, levelMove_step hs h1 h2⟩) h trivial with ⟨good, _⟩ | hp
  · exact Or.inl (levelMove_chain good)
  · exact Or.inr hp

theorem level_positive_or_limit {env : Env A VC D} {e e' : Election A VC D}
    (h : Relation.ReflTransGen (TraceStep env) e e') (h1 : 1 ≤ e.CurrentLevel) :
    1 ≤ e'.CurrentLevel ∨ PassedIntLimit env e e' := by
  rcases chain_cases env (fun s => 1 ≤ s.CurrentLevel) (fun s => s.AtIntLimit) (fun _ _ => True)
    (fun s s' hs hi h1 h2 => ⟨le_trans hi (levelMove_step hs h1 h2).1, trivial⟩) h h1
    with ⟨_, hI⟩ | hp
  · exact Or.inl hI
  · exact Or.inr hp

theorem levelBounds_step {env : Env A VC D} {s s' : Election A VC D} (h : TraceStep env s s')
    (hI : LevelBounds s) (h1 : ¬ s.AtIntLimit) (h2 : ¬ s'.AtIntLimit) : LevelBounds s' := by
  unfold Election.AtIntLimit at h1 h2
  unfold LevelBounds at hI ⊢
  obtain ⟨i1, i2, i3⟩ := hI
  rcases traceStep_cases h with ⟨hv, hl⟩ | ⟨_, hr, hlv, hl, _⟩ | ⟨_, vc, msg, r, _, hr, _, hc⟩
  · rw [hv, hl]
    exact ⟨i1, i2, i3⟩
  · have := goAdd_eq s.CurrentLevel 1 (by omega) (by unfold maxInt at h1 ⊢; omega)
    rw [hl, hlv, hr, this]
    exact ⟨by omega, by omega, Or.inr ⟨by omega, by omega⟩⟩
  · rw [hr] at h2
    rcases hc with ⟨c1, c2, c3⟩ | ⟨c1, c2, c3⟩
    · have e1 := goAdd_eq r.Rank 1 (by omega) (by unfold maxInt at h2 ⊢; omega)
      have e2 := goAdd_eq r.Rank 2 (by omega) (by unfold maxInt at h2 ⊢; omega)
      rw [c2, c3, hr, e1, e2]
      exact ⟨by omega, by omega, Or.inr ⟨by omega, by omega⟩⟩
    · have e1 := goAdd_eq s.CurrentLevel 1 (by omega) (by unfold maxInt at h1 ⊢; omega)
      rw [c2, c3, hr, e1]
      exact ⟨by omega, by omega, Or.inr ⟨by omega, by omega⟩⟩

theorem rankOrigin_step {env : Env A VC D} {s s' : Election A VC D} (h : TraceStep env s s')
    (hI : RankOrigin env s ∧ -1 ≤ s.CurrentVote.Rank) :
    RankOrigin env s' ∧ -1 ≤ s'.CurrentVote.Rank := by
  unfold RankOrigin at hI ⊢
  obtain ⟨i1, i2⟩ := hI
  rcases traceStep_cases h with ⟨hv, _⟩ | ⟨_, hr, _⟩ | ⟨_, vc, msg, r, hans, hr, hless, _⟩
  · rw [hv]
    exact ⟨i1, i2⟩
  · rw [hr]
    exact ⟨Or.inr (Or.inl rfl), by decide⟩
  · exact ⟨Or.inr (Or.inr ⟨vc, msg, r, hans, hr⟩), by omega⟩

theorem chain_invariant (env : Env A VC D) (I : Election A VC D → Prop)
    (G : Election A VC D → Election A VC D → Prop)
    (hstep : ∀ s s', TraceStep env s s' → I s → I s' ∧ G s s')
    {e e' : Election A VC D} (h : Relation.ReflTransGen (TraceStep env) e e') (hI : I e) :
    Relation.ReflTransGen G e e' ∧ I e' := by
  induction h with
  | refl => exact ⟨Relation.ReflTransGen.refl, hI⟩
  | @tail b c _ hbc ih =>
    obtain ⟨hg, hc⟩ := hstep b c hbc ih.2
    exact ⟨ih.1.tail hc, hg⟩

theorem levelTied_step {env : Env A VC D}
    (hint : ∀ (vc : VC) (msg r : LeaderLevelMessage),
      (env.vcExecute vc msg).2.1 = some (.leaderLevel r) → r.Rank ≤ maxInt ∧ r.Level ≤ maxInt)
    {s s' : Election A VC D} (h : TraceStep env s s') (hI : LevelTied s) :
    LevelTied s' ∧ VoteMove env s s' := by
  unfold LevelTied at hI ⊢
  unfold VoteMove
  obtain ⟨i1, i2, i3, i4, i5, i6⟩ := hI
  rcases traceStep_cases h with ⟨hv, hl⟩ | ⟨hadopt, hr, hlv, hl, hg⟩ |
    ⟨hadopt, vc, msg, r, hans, hr, hless, hc⟩
  · rw [hv, hl]
    exact ⟨⟨i1, i2, i3, i4, i5, i6⟩, Or.inl rfl⟩
  · have hrange := goAdd_range s.CurrentVote.Level 1
    refine ⟨?_, Or.inr (Or.inl ⟨hadopt, hr, ?_⟩)⟩
    · rw [hr, hlv, hl, i5]
      unfold maxInt at hrange ⊢
      exact ⟨by omega, by omega, by omega, by omega, rfl, by omega⟩
    · by_cases hm : s.CurrentVote.Rank = -1
      · refine Or.inl ⟨hm, ?_⟩
        rw [less_iff]
        omega
      · have hg' : ¬ s.CurrentVote.Rank > 0 ∧
            ¬ s.CurrentVote.VolunteerPriority ≥ s'.CurrentVote.VolunteerPriority := by
          rcases hg with hg | hg
          · exact absurd hg hm
          · exact hg
        refine Or.inr ⟨by omega, by omega, ?_⟩
        rw [less_iff]
        omega
  · obtain ⟨b1, b2⟩ := hint vc msg r hans
    have hrange := goAdd_range s.CurrentVote.Level 1
    have hrange1 := goAdd_range r.Rank 1
    have hle : s.CurrentVote.Rank ≤ r.Rank := by omega
    have hnot : s'.CurrentVote.Less s.CurrentVote = false := by
      cases hb : s'.CurrentVote.Less s.CurrentVote
      · rfl
      · exfalso
        rw [less_iff, hr] at hb
        rcases hc with ⟨c1, c2, c3⟩ | ⟨c1, c2, c3⟩
        · rw [c2] at hb
          rw [i5] at c1
          unfold goAdd at hb c1 hrange hrange1
          unfold maxInt at b1 b2 i2 i4 i6 hrange hrange1
          omega
        · rw [c2, i5] at hb
          rw [i5] at c1
          unfold goAdd at hb c1 hrange hrange1
          unfold maxInt at b1 b2 i2 i4 i6 hrange hrange1
          omega
    refine ⟨?_, Or.inr (Or.inr ⟨hadopt, hnot, by rw [hr]; exact hle⟩)⟩
    rcases hc with ⟨c1, c2, c3⟩ | ⟨c1, c2, c3⟩
    · rw [hr, c2, c3]
      refine ⟨by omega, b1, hrange1.1, hrange1.2, goAdd_two r.Rank, ?_⟩
      intro hmax
      rw [hmax]
      decide
    · rw [hr, c2, c3, i5]
      refine ⟨by omega, b1, hrange.1, hrange.2, rfl, ?_⟩
      intro hmax
      rw [i5] at c1
      unfold maxInt at hmax hrange
      omega

end LevelAndVote

section AdoptionFacts

variable {A VC D : Type}

theorem adoption_level_rises {env : Env A VC D} {s s' : Election A VC D}
    (h : Rank0Adoption s s' ∨ ControlAdoption env s s')
    (h1 : ¬ s.AtIntLimit) (h2 : ¬ s'.AtIntLimit) : s.CurrentLevel < s'.CurrentLevel := by
  unfold Election.AtIntLimit at h1 h2
  rcases h with ⟨ll, _, _, _, _, rfl⟩ | ⟨vc, msg, r, _, _, rfl⟩
  · rw [(updateCurrentVote_fields _ _).2.1]
    have := goAdd_ge s.CurrentLevel 1 (by unfold maxInt at h1 ⊢; omega)
    show s.CurrentLevel < goAdd s.CurrentLevel 1
    omega
  · obtain ⟨a1, -, -, -, -, a6⟩ := adoptResult_fields s (s.withPriority env r)
    rw [a1] at h2
    rcases a6 with ⟨c1, _, c3⟩ | ⟨_, _, c3⟩
    · have := goAdd_ge (s.withPriority env r).Rank 2 (by unfold maxInt at h2 ⊢; omega)
      rw [c3]
      omega
    · have := goAdd_ge s.CurrentLevel 1 (by unfold maxInt at h1 ⊢; omega)
      rw [c3]
      omega

theorem newElection_levelBounds (self : Identity) (authset : A) (loc : ProcessListLocation) :
    LevelBounds (NewElection self authset loc : Election A VC D) :=
  ⟨show (1 : Int) ≤ 1 by decide, show (0 : Int) < 1 by decide, Or.inl rfl⟩

theorem newElection_levelTied (self : Identity) (authset : A) (loc : ProcessListLocation) :
    LevelTied (NewElection self authset loc : Election A VC D) :=
  ⟨show (-1 : Int) ≤ -1 by decide, show (-1 : Int) ≤ maxInt by decide,
    show (-9223372036854775808 : Int) ≤ 0 by decide, show (0 : Int) ≤ maxInt by decide,
    show (1 : Int) = goAdd 0 1 by decide,
    fun h => absurd h (show ¬ ((-1 : Int) = maxInt) by decide)⟩

theorem voteMove_rank {env : Env A VC D} {e e' : Election A VC D}
    (h : Relation.ReflTransGen (VoteMove env) e e') :
    e.CurrentVote.Rank ≤ e'.CurrentVote.Rank := by
  induction h with
  | refl => exact le_refl _
  | @tail b c _ hbc ih =>
    rcases hbc with hv | ⟨_, hr, hc⟩ | ⟨_, _, hr⟩
    · rw [hv]
      exact ih
    · rcases hc with ⟨hm, _⟩ | ⟨hm, _⟩
      · omega
      · omega
    · omega

end AdoptionFacts

/-- C12 (amended): `CurrentLevel` is monotonic short of the `int` limit.  For
every state, message and budget, whatever the volunteer control does,
`CurrentLevel` after `execute` (and after `Execute`) is at least what it was,
and strictly greater when the current vote has been replaced, unless the
election was, on the way, in a state at the limit of the `int` range
(`CurrentLevel = 2^63 - 1`, or a current vote of rank `2^63 - 2` or more).
Step by step: no step between states short of the limit lowers
`CurrentLevel`, and each adoption (`updateCurrentVote`) raises it.  In a state
reachable from `NewElection` the current level is at least 1, unless the
election has been at the limit before. -/
theorem currentLevel_monotone {A VC D : Type} (env : Env A VC D) (fuel : Nat)
    (e : Election A VC D) (m : IMessage) :
    ((e.CurrentLevel ≤ (Election.execute env fuel e m).1.CurrentLevel ∧
        ((Election.execute env fuel e m).1.CurrentVote ≠ e.CurrentVote →
          e.CurrentLevel < (Election.execute env fuel e m).1.CurrentLevel)) ∨
      PassedIntLimit env e (Election.execute env fuel e m).1) ∧
    ((e.CurrentLevel ≤ (Election.Execute env fuel e m).1.CurrentLevel ∧
        ((Election.Execute env fuel e m).1.CurrentVote ≠ e.CurrentVote →
          e.CurrentLevel < (Election.Execute env fuel e m).1.CurrentLevel)) ∨
      PassedIntLimit env e (Election.Execute env fuel e m).1) ∧
    (∀ s s' : Election A VC D, TraceStep env s s' → ¬ s.AtIntLimit → ¬ s'.AtIntLimit →
      s.CurrentLevel ≤ s'.CurrentLevel) ∧
    (∀ s s' : Election A VC D, Rank0Adoption s s' ∨ ControlAdoption env s s' →
      ¬ s.AtIntLimit → ¬ s'.AtIntLimit → s.CurrentLevel < s'.CurrentLevel) ∧
    (∀ e0 : Election A VC D, Reachable env e0 →
      1 ≤ e0.CurrentLevel ∨
        ∃ self authset loc, PassedIntLimit env (NewElection self authset loc) e0) := by
  refine ⟨levelMove_or_limit (execute_chain env fuel e m),
    levelMove_or_limit (Execute_chain env fuel e m),
    fun s s' h h1 h2 => (levelMove_step h h1 h2).1,
    fun s s' h h1 h2 => adoption_level_rises h h1 h2, ?_⟩
  intro e0 hr
  obtain ⟨self, authset, loc, hc⟩ := reachable_chain env e0 hr
  rcases level_positive_or_limit hc (show (1 : Int) ≤ 1 by decide) with h | h
  · exact Or.inl h
  · exact Or.inr ⟨self, authset, loc, h⟩

theorem currentLevel_monotone_witness :
    exampleTwoVotes.CurrentVote.Rank = -1 ∧
    exampleTwoVotes.CurrentLevel = 1 ∧
    (Election.execute exampleEnv 5 exampleTwoVotes (.vote ⟨3, ⟨5, ⟨0, 0, 0⟩⟩⟩)).1.CurrentVote.Rank = 0 ∧
    (Election.execute exampleEnv 5 exampleTwoVotes (.vote ⟨3, ⟨5, ⟨0, 0, 0⟩⟩⟩)).1.CurrentLevel = 2 ∧
    ((exampleTwoVotes.CurrentLevel ≤
        (Election.execute exampleEnv 5 exampleTwoVotes
          (.vote ⟨3, ⟨5, ⟨0, 0, 0⟩⟩⟩)).1.CurrentLevel ∧
      ((Election.execute exampleEnv 5 exampleTwoVotes (.vote ⟨3, ⟨5, ⟨0, 0, 0⟩⟩⟩)).1.CurrentVote ≠
          exampleTwoVotes.CurrentVote →
        exampleTwoVotes.CurrentLevel <
          (Election.execute exampleEnv 5 exampleTwoVotes
            (.vote ⟨3, ⟨5, ⟨0, 0, 0⟩⟩⟩)).1.CurrentLevel)) ∨
      PassedIntLimit exampleEnv exampleTwoVotes
        (Election.execute exampleEnv 5 exampleTwoVotes (.vote ⟨3, ⟨5, ⟨0, 0, 0⟩⟩⟩)).1) :=
  ⟨by decide!, by decide!, by decide!, by decide!,
    (currentLevel_monotone exampleEnv 5 exampleTwoVotes (.vote ⟨3, ⟨5, ⟨0, 0, 0⟩⟩⟩)).1⟩

/-- C12 as stated fails: the volunteer control answers the first leader-level
message a new election receives with a message of rank `2^63 - 2`.  The
election adopts it, `CurrentLevel = ll.Rank + 2` overflows, and `execute`
returns with `CurrentLevel = -2^63`, below the 1 it was. -/
theorem currentLevel_overflow_counterexample :
    (NewElection 0 () ⟨0, 0, 0⟩ : Election Unit Unit Unit).CurrentLevel = 1 ∧
    (Election.execute exampleLimitEnv 2 (NewElection 0 () ⟨0, 0, 0⟩)
      (.leaderLevel exampleReceived)).2.returned = true ∧
    (Election.execute exampleLimitEnv 2 (NewElection 0 () ⟨0, 0, 0⟩)
      (.leaderLevel exampleReceived)).1.CurrentVote.Rank = 9223372036854775806 ∧
    (Election.execute exampleLimitEnv 2 (NewElection 0 () ⟨0, 0, 0⟩)
      (.leaderLevel exampleReceived)).1.CurrentLevel = -9223372036854775808 ∧
    Reachable exampleLimitEnv (Election.execute exampleLimitEnv 2 (NewElection 0 () ⟨0, 0, 0⟩)
        (.leaderLevel exampleReceived)).1 :=
  ⟨rfl, by decide!, by decide!, by decide!,
    Reachable.execute _ 2 _ (Reachable.init 0 () ⟨0, 0, 0⟩)⟩

/-- C21 (amended): the adopted current vote.  In every state reachable from
`NewElection` the current vote is the initial vote, a rank-0 message (Vote
branch) or has the rank a volunteer control answered (LeaderLevel branch); its
rank is at least -1, and at least 0 when the controls answer no negative
rank.  Unless the election has been in a state at the limit of the `int` range
before, an adopted current vote has level at least 1 and at least rank + 1,
and its level is strictly less than `CurrentLevel`. -/
theorem adopted_vote_bounds {A VC D : Type} (env : Env A VC D) (e : Election A VC D)
    (hr : Reachable env e) :
    (e.CurrentVote = initialVote ∨ e.CurrentVote.Rank = 0 ∨
      ∃ (vc : VC) (msg r : LeaderLevelMessage),
        (env.vcExecute vc msg).2.1 = some (.leaderLevel r) ∧ e.CurrentVote.Rank = r.Rank) ∧
    -1 ≤ e.CurrentVote.Rank ∧
    ((∀ (vc : VC) (msg r : LeaderLevelMessage),
        (env.vcExecute vc msg).2.1 = some (.leaderLevel r) → 0 ≤ r.Rank) →
      e.CurrentVote = initialVote ∨ 0 ≤ e.CurrentVote.Rank) ∧
    ((e.CurrentVote = initialVote ∨
        (1 ≤ e.CurrentVote.Level ∧ e.CurrentVote.Rank + 1 ≤ e.CurrentVote.Level ∧
          e.CurrentVote.Level < e.CurrentLevel)) ∨
      ∃ self authset loc, PassedIntLimit env (NewElection self authset loc) e) := by
  obtain ⟨self, authset, loc, hc⟩ := reachable_chain env e hr
  have hR := (chain_invariant env (fun s => RankOrigin env s ∧ -1 ≤ s.CurrentVote.Rank)
    (fun _ _ => True) (fun s s' h hi => ⟨rankOrigin_step h hi, trivial⟩) hc
    ⟨Or.inl rfl, show (-1 : Int) ≤ -1 by decide⟩).2
  refine ⟨hR.1, hR.2, ?_, ?_⟩
  · intro hvc
    rcases hR.1 with h | h | ⟨vc, msg, r, hans, h⟩
    · exact Or.inl h
    · exact Or.inr (by omega)
    · have := hvc vc msg r hans
      exact Or.inr (by omega)
  · rcases chain_cases env LevelBounds (fun s => s.AtIntLimit) (fun _ _ => True)
      (fun s s' h hi h1 h2 => ⟨levelBounds_step h hi h1 h2, trivial⟩) hc
      (newElection_levelBounds self authset loc) with ⟨_, hI⟩ | hp
    · obtain ⟨_, i2, i3⟩ := hI
      rcases i3 with h | ⟨h, h'⟩
      · exact Or.inl (Or.inl h)
      · exact Or.inl (Or.inr ⟨h, h', i2⟩)
    · exact Or.inr ⟨self, authset, loc, hp⟩

theorem adopted_vote_bounds_witness :
    Reachable exampleControlEnv exampleAdoptedState ∧
    exampleAdoptedState.CurrentVote.Rank = 1 ∧
    exampleAdoptedState.CurrentVote.Level = 2 ∧
    -1 ≤ exampleAdoptedState.CurrentVote.Rank ∧
    ((exampleAdoptedState.CurrentVote = initialVote ∨
        (1 ≤ exampleAdoptedState.CurrentVote.Level ∧
          exampleAdoptedState.CurrentVote.Rank + 1 ≤ exampleAdoptedState.CurrentVote.Level ∧
          exampleAdoptedState.CurrentVote.Level < exampleAdoptedState.CurrentLevel)) ∨
      ∃ self authset loc,
        PassedIntLimit exampleControlEnv (NewElection self authset loc) exampleAdoptedState) :=
  ⟨reachable_run exampleControlEnv _ _ (Reachable.addDisplay _ () (Reachable.init 0 () ⟨0, 0, 0⟩)),
    by decide!, by decide!,
    (adopted_vote_bounds exampleControlEnv exampleAdoptedState
      (reachable_run exampleControlEnv _ _
        (Reachable.addDisplay _ () (Reachable.init 0 () ⟨0, 0, 0⟩)))).2.1,
    (adopted_vote_bounds exampleControlEnv exampleAdoptedState
      (reachable_run exampleControlEnv _ _
        (Reachable.addDisplay _ () (Reachable.init 0 () ⟨0, 0, 0⟩)))).2.2.2⟩

/-- C21 as stated fails, in two ways.  A volunteer control that answers the
first leader-level message of a new election with a message of rank `2^63 - 2`
makes the election adopt it at level `2^63 - 1` with `CurrentLevel = -2^63`
(`ll.Rank + 2` overflows): the level is not below `CurrentLevel`.  And with
volunteer priorities of -1, a control that answers with a message of rank -1
at level 1 makes the election adopt a current vote of rank -1. -/
theorem adopted_vote_counterexample :
    ((Election.execute exampleLimitEnv 2 (NewElection 0 () ⟨0, 0, 0⟩)
        (.leaderLevel exampleReceived)).2.returned = true ∧
      (Election.execute exampleLimitEnv 2 (NewElection 0 () ⟨0, 0, 0⟩)
        (.leaderLevel exampleReceived)).1.CurrentVote.Rank = 9223372036854775806 ∧
      (Election.execute exampleLimitEnv 2 (NewElection 0 () ⟨0, 0, 0⟩)
        (.leaderLevel exampleReceived)).1.CurrentVote.Level = 9223372036854775807 ∧
      (Election.execute exampleLimitEnv 2 (NewElection 0 () ⟨0, 0, 0⟩)
        (.leaderLevel exampleReceived)).1.CurrentLevel = -9223372036854775808) ∧
    ((Election.execute exampleNegativeEnv 2 (NewElection 0 () ⟨0, 0, 0⟩)
        (.leaderLevel exampleReceived)).2.returned = true ∧
      (Election.execute exampleNegativeEnv 2 (NewElection 0 () ⟨0, 0, 0⟩)
        (.leaderLevel exampleReceived)).1.CurrentVote.Rank = -1 ∧
      (Election.execute exampleNegativeEnv 2 (NewElection 0 () ⟨0, 0, 0⟩)
        (.leaderLevel exampleReceived)).1.CurrentVote.Level = 1 ∧
      (Election.execute exampleNegativeEnv 2 (NewElection 0 () ⟨0, 0, 0⟩)
        (.leaderLevel exampleReceived)).1.CommitmentTally = 1) :=
  ⟨⟨by decide!, by decide!, by decide!, by decide!⟩,
    ⟨by decide!, by decide!, by decide!, by decide!⟩⟩

/-- C11 (amended): the moves of the current vote.  For every state reachable
from `NewElection`, every message and every budget, with volunteer controls
that answer `int` values: `execute` and `Execute` change the current vote only
by the adoption of the Vote branch and the adoption of the LeaderLevel branch.
In the LeaderLevel branch the new vote is not less than the previous one in
the order of the specification; in the Vote branch the new vote is a rank-0
message, greater than the previous vote when that had rank -1, and otherwise
the previous vote had rank 0 and the new one has a strictly larger volunteer
priority number, which makes it less than the previous one.  The rank never
falls. -/
theorem currentVote_moves {A VC D : Type} (env : Env A VC D) (e : Election A VC D)
    (fuel : Nat) (m : IMessage)
    (hint : ∀ (vc : VC) (msg r : LeaderLevelMessage),
      (env.vcExecute vc msg).2.1 = some (.leaderLevel r) → r.Rank ≤ maxInt ∧ r.Level ≤ maxInt)
    (hr : Reachable env e) :
    Relation.ReflTransGen (VoteMove env) e (Election.execute env fuel e m).1 ∧
    Relation.ReflTransGen (VoteMove env) e (Election.Execute env fuel e m).1 ∧
    e.CurrentVote.Rank ≤ (Election.execute env fuel e m).1.CurrentVote.Rank ∧
    e.CurrentVote.Rank ≤ (Election.Execute env fuel e m).1.CurrentVote.Rank := by
  obtain ⟨self, authset, loc, hc⟩ := reachable_chain env e hr
  have hstep : ∀ s s' : Election A VC D, TraceStep env s s' → LevelTied s →
      LevelTied s' ∧ VoteMove env s s' := fun s s' h hi => levelTied_step hint h hi
  have hJ := (chain_invariant env LevelTied (fun _ _ => True)
    (fun s s' h hi => ⟨(hstep s s' h hi).1, trivial⟩) hc
    (newElection_levelTied self authset loc)).2
  have h1 := (chain_invariant env LevelTied (VoteMove env) hstep
    (execute_chain env fuel e m) hJ).1
  have h2 := (chain_invariant env LevelTied (VoteMove env) hstep
    (Execute_chain env fuel e m) hJ).1
  exact ⟨h1, h2, voteMove_rank h1, voteMove_rank h2⟩

theorem currentVote_moves_witness :
    (Reachable exampleLimitEnv (NewElection 0 () ⟨0, 0, 0⟩ : Election Unit Unit Unit) ∧
      (Election.execute exampleLimitEnv 2 (NewElection 0 () ⟨0, 0, 0⟩)
        (.leaderLevel exampleReceived)).1.CurrentVote.Rank = 9223372036854775806 ∧
      Relation.ReflTransGen (VoteMove exampleLimitEnv) (NewElection 0 () ⟨0, 0, 0⟩)
        (Election.execute exampleLimitEnv 2 (NewElection 0 () ⟨0, 0, 0⟩)
          (.leaderLevel exampleReceived)).1) ∧
    (Reachable exampleEnv exampleSwitchState ∧
      exampleSwitchState.CurrentVote.Rank = 0 ∧
      exampleSwitchState.CurrentVote.VolunteerPriority = 5 ∧
      (Election.execute exampleEnv 5 exampleSwitchState
        (.vote ⟨3, ⟨9, ⟨0, 0, 0⟩⟩⟩)).1.CurrentVote.VolunteerPriority = 9 ∧
      Relation.ReflTransGen (VoteMove exampleEnv) exampleSwitchState
        (Election.execute exampleEnv 5 exampleSwitchState (.vote ⟨3, ⟨9, ⟨0, 0, 0⟩⟩⟩)).1) :=
  ⟨⟨Reachable.init 0 () ⟨0, 0, 0⟩, by decide!,
    (currentVote_moves exampleLimitEnv (NewElection 0 () ⟨0, 0, 0⟩) 2
      (.leaderLevel exampleReceived)
      (fun _ msg r h => by
        have hr : NewLeaderLevelMessage 0 (maxInt - 1) 0 msg.VolunteerMessage = r :=
          IMessage.leaderLevel.inj (Option.some.inj h)
        rw [← hr]
        exact ⟨show maxInt - 1 ≤ maxInt by decide, show (0 : Int) ≤ maxInt by decide⟩)
      (Reachable.init 0 () ⟨0, 0, 0⟩)).1⟩,
   ⟨reachable_run exampleEnv _ _ (Reachable.init 0 () ⟨0, 0, 0⟩), by decide!, by decide!,
    by decide!,
    (currentVote_moves exampleEnv exampleSwitchState 5 (.vote ⟨3, ⟨9, ⟨0, 0, 0⟩⟩⟩)
      (fun _ _ _ h => nomatch h)
      (reachable_run exampleEnv _ _ (Reachable.init 0 () ⟨0, 0, 0⟩))).1⟩⟩

section LevelRule

variable {A VC D : Type}

/-- The level rule in the statements of `executeLeaderLevelMessage` that follow
the loop over the embedded votes. -/
theorem consultControl_levels (env : Env A VC D)
    (Exec : Election A VC D → IMessage → Election A VC D × Outcome)
    (t : Election A VC D) (msg : LeaderLevelMessage) (vch : Bool)
    (r0 : Option LeaderLevelMessage) (c : VC) (res : LeaderLevelMessage)
    (hget : t.VolunteerControls.get? msg.VolunteerMessage.Signer = some c)
    (hres : (env.vcExecute c msg).2.1 = some (.leaderLevel res)) :
    ∃ S : Election A VC D, t.CoreEq S ∧
      (t.CurrentVote.Less (t.withPriority env res) = true →
        t.consultControl env Exec msg vch r0 =
          Election.afterAdopt env Exec (S.adoptResult (t.withPriority env res))
            (S.assignLevel (t.withPriority env res)).1 ∧
        (res.Rank ≥ t.CurrentLevel →
          (S.assignLevel (t.withPriority env res)).1 =
            { t.withPriority env res with Level := goAdd res.Rank 1 } ∧
          (S.adoptResult (t.withPriority env res)).CurrentLevel = goAdd res.Rank 2) ∧
        (¬ res.Rank ≥ t.CurrentLevel →
          (S.assignLevel (t.withPriority env res)).1 =
            { t.withPriority env res with Level := t.CurrentLevel } ∧
          (S.adoptResult (t.withPriority env res)).CurrentLevel = goAdd t.CurrentLevel 1) ∧
        (S.adoptResult (t.withPriority env res)).CurrentVote =
          (S.assignLevel (t.withPriority env res)).1 ∧
        (S.adoptResult (t.withPriority env res)).CurrentLevel =
          goAdd (S.assignLevel (t.withPriority env res)).1.Level 1) ∧
      (t.CurrentVote.Less (t.withPriority env res) = false →
        ∃ ch, t.consultControl env Exec msg vch r0 = (S, .ret none ch)) := by
  have hd := displayResult_coreEq env
    { t with VolunteerControls :=
        t.VolunteerControls.set msg.VolunteerMessage.Signer (env.vcExecute c msg).1 } res
  have hcore : t.CoreEq (Election.displayResult env
      { t with VolunteerControls :=
          t.VolunteerControls.set msg.VolunteerMessage.Signer (env.vcExecute c msg).1 } res) :=
    Election.CoreEq.trans' ⟨rfl, rfl, rfl, rfl, rfl, rfl, rfl⟩ hd
  have hprio := getVolunteerPriority_coreEq env hcore res.VolunteerMessage.Signer
  have hRank : (t.withPriority env res).Rank = res.Rank := rfl
  refine ⟨_, hcore, ?_, ?_⟩
  · intro hless
    refine ⟨?_, ?_, ?_, (updateCurrentVote_fields _ _).1, ?_⟩
    · unfold Election.consultControl
      rw [hget]
      dsimp only
      rw [hres]
      dsimp only
      rw [hprio]
      have hcond := hless
      unfold Election.withPriority at hcond
      rw [← hcore.1] at hcond
      rw [if_pos hcond]
      rfl
    · intro hr
      unfold Election.adoptResult Election.assignLevel
      rw [if_pos (by rw [hRank, hcore.2.1]; exact hr)]
      exact ⟨rfl, (updateCurrentVote_fields _ _).2.1⟩
    · intro hr
      unfold Election.adoptResult Election.assignLevel
      rw [if_neg (by rw [hRank, hcore.2.1]; exact hr)]
      refine ⟨?_, ?_⟩
      · rw [hcore.2.1]
      · rw [(updateCurrentVote_fields _ _).2.1]
        show goAdd (Election.displayResult env _ res).CurrentLevel 1 = _
        rw [hcore.2.1]
    · unfold Election.adoptResult
      rw [(updateCurrentVote_fields _ _).2.1]
      unfold Election.assignLevel
      split
      · exact goAdd_two _
      · rfl
  · intro hless
    unfold Election.consultControl
    rw [hget]
    dsimp only
    rw [hres]
    dsimp only
    rw [hprio]
    have hcond := hless
    unfold Election.withPriority at hcond
    rw [← hcore.1] at hcond
    rw [if_neg (by rw [hcond]; exact Bool.false_ne_true)]
    split
    · exact ⟨_, rfl⟩
    · split <;> exact ⟨_, rfl⟩

/-- C20: level assignment in the LeaderLevel branch.  `execute` of a
leader-level message on a non-committed election is
`executeLeaderLevelMessage` after the count and the display call.  There, for
a message of level above 0 whose embedded votes have been executed (leaving
the state `t`): when the control of the volunteer of `msg` answers with a
leader-level message `res`, the election shows it (state `S`, same vote state)
and sets its volunteer priority.  If the current vote is less than it, the
message gets level `res.Rank + 1` and `CurrentLevel` becomes `res.Rank + 2`
when `res.Rank >= CurrentLevel`, and otherwise the message gets the old
`CurrentLevel` and `CurrentLevel` is incremented (the additions being those of
Go `int`, which are the plain sums short of `2^63`); it is adopted by
`updateCurrentVote`, the new `CurrentLevel` is its level + 1, and the code
goes on with `commitIfLast`.  If the current vote is not less than it, nil is
returned and `CurrentVote`, `CurrentLevel` and `CommitmentTally` are as
before. -/
theorem level_assignment (env : Env A VC D)
    (Exec : Election A VC D → IMessage → Election A VC D × Outcome)
    (e t : Election A VC D) (msg : LeaderLevelMessage) (vch : Bool)
    (r0 : Option LeaderLevelMessage) (c : VC) (res : LeaderLevelMessage)
    (hlevel : 0 < msg.Level)
    (hloop : executeVotes Exec (e.receive env msg) msg.VoteMessages false none =
      (t, .ok (vch, r0)))
    (hget : t.VolunteerControls.get? msg.VolunteerMessage.Signer = some c)
    (hres : (env.vcExecute c msg).2.1 = some (.leaderLevel res)) :
    (∀ (k : Nat) (s : Election A VC D), s.Committed = false →
      Election.execute env (k + 1) s (.leaderLevel msg) =
        (Election.executeDisplay env { s with TotalMessages := s.TotalMessages + 1 }
          (.leaderLevel msg)).executeLeaderLevelMessage env (Election.Execute env k) msg) ∧
    (∃ S : Election A VC D, t.CoreEq S ∧
      (t.CurrentVote.Less (t.withPriority env res) = true →
        e.executeLeaderLevelMessage env Exec msg =
          Election.afterAdopt env Exec (S.adoptResult (t.withPriority env res))
            (S.assignLevel (t.withPriority env res)).1 ∧
        (res.Rank ≥ t.CurrentLevel →
          (S.assignLevel (t.withPriority env res)).1 =
            { t.withPriority env res with Level := goAdd res.Rank 1 } ∧
          (S.adoptResult (t.withPriority env res)).CurrentLevel = goAdd res.Rank 2) ∧
        (¬ res.Rank ≥ t.CurrentLevel →
          (S.assignLevel (t.withPriority env res)).1 =
            { t.withPriority env res with Level := t.CurrentLevel } ∧
          (S.adoptResult (t.withPriority env res)).CurrentLevel = goAdd t.CurrentLevel 1) ∧
        (S.adoptResult (t.withPriority env res)).CurrentVote =
          (S.assignLevel (t.withPriority env res)).1 ∧
        (S.adoptResult (t.withPriority env res)).CurrentLevel =
          goAdd (S.assignLevel (t.withPriority env res)).1.Level 1) ∧
      (t.CurrentVote.Less (t.withPriority env res) = false →
        (∃ ch, e.executeLeaderLevelMessage env Exec msg = (S, .ret none ch)) ∧
        S.CurrentVote = t.CurrentVote ∧ S.CurrentLevel = t.CurrentLevel ∧
        S.CommitmentTally = t.CommitmentTally)) ∧
    (∀ a b : Int, -9223372036854775808 ≤ a + b → a + b ≤ maxInt → goAdd a b = a + b) := by
  have hbridge : e.executeLeaderLevelMessage env Exec msg =
      t.consultControl env Exec msg vch r0 := by
    rw [executeLeaderLevelMessage_eq, if_neg (not_le.mpr hlevel), hloop]
  obtain ⟨S, hS, h1, h2⟩ := consultControl_levels env Exec t msg vch r0 c res hget hres
  refine ⟨fun k s hc => ?_, ⟨S, hS, ?_, ?_⟩, goAdd_eq⟩
  · exact executeWith_leaderLevel env _ s msg hc
  · intro hless
    rw [hbridge]
    exact h1 hless
  · intro hless
    rw [hbridge]
    exact ⟨h2 hless, hS.1, hS.2.1, hS.2.2.1⟩

end LevelRule

theorem level_assignment_witness :
    ∃ S : Election Unit (GoMap Identity LeaderLevelMessage) Unit,
      (exampleControlHeld.receive exampleControlEnv (exampleRankZero 3)).CoreEq S ∧
      (S.adoptResult ((exampleControlHeld.receive exampleControlEnv
        (exampleRankZero 3)).withPriority exampleControlEnv
          (NewLeaderLevelMessage 0 1 (-1) ⟨5, ⟨0, 0, 0⟩⟩))).CurrentLevel = goAdd 1 2 :=
  let ⟨S, h1, h2, _⟩ := (level_assignment exampleControlEnv (fun e _ => (e, .outOfFuel))
    exampleControlHeld (exampleControlHeld.receive exampleControlEnv (exampleRankZero 3))
    (exampleRankZero 3) false none
    [(1, exampleRankZero 1), (2, exampleRankZero 2)]
    (NewLeaderLevelMessage 0 1 (-1) ⟨5, ⟨0, 0, 0⟩⟩) (by decide) rfl rfl rfl).2.1
  ⟨S, h1, ((h2 (by decide)).2.1 (by decide)).2⟩

theorem tally_positive_witness :
    Reachable exampleEnv exampleRankZeroState ∧
    exampleRankZeroState.CurrentVote.Rank ≥ 0 ∧
    exampleRankZeroState.CommitmentTally ≥ 1 :=
  ⟨reachable_run exampleEnv _ _ (Reachable.init 0 () ⟨0, 0, 0⟩), by decide!,
    (tally_positive exampleEnv exampleRankZeroState
      (reachable_run exampleEnv _ _ (Reachable.init 0 () ⟨0, 0, 0⟩))).1 (by decide!)⟩

theorem vote_no_emission_witness :
    exampleRankZeroState.CurrentVote.Rank = 0 ∧
    (exampleRankZeroState.VolunteerVotes.get? 5).map List.length = some 3 ∧
    (Election.execute exampleEnv 2 exampleRankZeroState (.vote ⟨1, ⟨5, ⟨0, 0, 0⟩⟩⟩)).2 = .ret none false ∧
    (Election.execute exampleEnv 2 exampleRankZeroState (.vote ⟨1, ⟨5, ⟨0, 0, 0⟩⟩⟩)).1.CurrentVote =
      exampleRankZeroState.CurrentVote ∧
    ((Election.execute exampleEnv 2 exampleRankZeroState
      (.vote ⟨1, ⟨5, ⟨0, 0, 0⟩⟩⟩)).1.VolunteerVotes.get? 5).map List.length = some 3 :=
  have h := vote_no_emission exampleEnv 2 exampleRankZeroState ⟨1, ⟨5, ⟨0, 0, 0⟩⟩⟩ (by decide!)
    (fun inner hi => by
      have hx : exampleRankZeroState.VolunteerVotes.get? 5 =
          some [(1, ⟨1, ⟨5, ⟨0, 0, 0⟩⟩⟩), (2, ⟨2, ⟨5, ⟨0, 0, 0⟩⟩⟩), (3, ⟨3, ⟨5, ⟨0, 0, 0⟩⟩⟩)] := by
        decide!
      have hi' : exampleRankZeroState.VolunteerVotes.get? 5 = some inner := hi
      rw [hx] at hi'
      cases hi'
      decide)
    (Or.inr (Or.inr ⟨by decide!, by decide!⟩))
  ⟨by decide!, by decide!, h.1, h.2.2.2.1, by decide!⟩

/-- An entry whose single external id of 65535 bytes makes an external-id
section of 65537 bytes, which the 2-byte length field cannot hold. -/
theorem entry_long_id_fails (e fresh : Entry) (x : List Byte) (hv : e.Version = 0)
    (hc : e.ChainID.Bytes.length = 32) (hx : e.ExtIDs = [x]) (hlen : x.length = 65535) :
    (marshalExtIDs e.ExtIDs).length = 65537 ∧
    fresh.UnmarshalBinary e.MarshalBinary =
      (fresh, some (.errorf "Error parsing external IDs")) := by
  have hsec : marshalExtIDs e.ExtIDs = (255 : Byte) :: 255 :: x := by
    rw [hx, marshalExtIDs, marshalExtIDs, hlen, List.append_nil]
    rfl
  have hsl : (marshalExtIDs e.ExtIDs).length = 65537 := by
    rw [hsec, List.length_cons, List.length_cons, hlen]
  refine ⟨hsl, ?_⟩
  have hform : e.MarshalBinary =
      e.Version :: (e.ChainID.Bytes ++ (0 : Byte) :: 1 :: ((255 : Byte) :: 255 :: x ++ e.Content))
      := by
    unfold Entry.MarshalBinary
    rw [hsl, hsec]
    simp only [List.append_assoc, List.singleton_append, List.cons_append, List.nil_append]
    rfl
  rw [hform, Entry.UnmarshalBinary]
  simp only
  rw [if_neg (by rw [hv]; exact fun h => h rfl),
    if_neg (by rw [List.length_append]; omega),
    List.drop_left' hc, List.take_left' hc]
  rfl

/-- C23 as stated fails: an entry with version 0, a 32-byte chain id and one
external id of 65535 bytes has an external-id section of 65537 bytes; the
2-byte length field then reads 1, and unmarshalling the encoding returns an
error. -/
theorem entry_round_trip_counterexample :
    exampleLongIdEntry.Version = 0 ∧ exampleLongIdEntry.ChainID.Bytes.length = 32 ∧
    (marshalExtIDs exampleLongIdEntry.ExtIDs).length = 65537 ∧
    NewEntry.UnmarshalBinary exampleLongIdEntry.MarshalBinary =
      (NewEntry, some (.errorf "Error parsing external IDs")) :=
  ⟨rfl, rfl,
    (entry_long_id_fails exampleLongIdEntry NewEntry (List.replicate 65535 0) rfl rfl rfl
      (List.length_replicate _ _)).1,
    (entry_long_id_fails exampleLongIdEntry NewEntry (List.replicate 65535 0) rfl rfl rfl
      (List.length_replicate _ _)).2⟩

end Factomd
